import Mathlib

/-!
# go-tron/local-time: a shallow embedding of `time.go`

The package wraps Go's `time.Time` (`type Time time.Time`) and adds parsing,
formatting, JSON and SQL-driver conversions.  Every function of `time.go` is a
thin call into the standard library, so the embedding has two layers:

* a model of the parts of Go's `time` package the wrapper calls (the
  implementation of Go 1.20 .. 1.22: `absDate`, `Date`, `AddDate`, `Add`,
  `Sub`, `Weekday`, `ISOWeek`, `Format`, `Parse`, the comparison methods),
  and of the three calls into `strconv`, `fmt` and `strings`;
* the functions of `time.go` themselves, translated line by line on top of it.

Conventions of the model.

* A Go `string` / `[]byte` is a list of byte values (`List Nat`); `bytes "..."`
  writes an ASCII literal.
* Integers are mathematical integers, and the places where Go's fixed-width
  arithmetic shows are written out: `wrapInt64` is the conversion to `int64`
  (two's complement), `% 2 ^ 64` the conversion to `uint64`.  They appear in
  `daysSinceEpoch`, `Date`, `unixTime`, `Unix`, `unixSec`, `abs`, `addSec`,
  `Add`, `Sub` and `UnixNano`; `addSec` saturates as in Go.  The packed `wall`
  word is a natural number whose bit fields are read with `/` and `%` by
  powers of two.  The `int` arithmetic of `norm`, `AddDate` and `ISOWeek` is
  exact.
* A `*Location` is `&utcLoc`, a zone made by `time.FixedZone`, or a zone with
  a table of transitions as loaded from the time zone database (`zoned`);
  `lookup` searches the table as Go does.  The rule string (`extend`) that Go
  consults after the last transition of the table is not modelled, so a
  `zoned` location keeps its last zone from then on, as Asia/Shanghai does.
  `time.Local` is a process-wide variable, so the entry points that read it
  take it as an explicit argument `lcl`.
* Layout strings are scanned by `nextStdChunk` as in Go, restricted to the
  reference elements that the layouts of this package use: `2006`, `01`,
  `02`, `15`, `04`, `05`, fractional seconds `.000`/`,000` and `Z07:00`.
-/

set_option maxRecDepth 100000

namespace time

/-! ## Strings -/

/-- Byte values of an ASCII string literal. -/
def bytes (s : String) : List Nat := s.toList.map Char.toNat

/-! ## Constants of package `time` -/

def secondsPerMinute : Int := 60
def secondsPerHour : Int := 3600
def secondsPerDay : Int := 86400
def daysPer400Years : Int := 146097
def daysPer100Years : Int := 36524
def daysPer4Years : Int := 1461

/-- The year of the absolute epoch: `absoluteZeroYear = -292277022399`. -/
def absoluteZeroYear : Int := -292277022399

/-- Offsets between epochs: `(absoluteZeroYear - internalYear) * 365.2425 * secondsPerDay`. -/
def absoluteToInternal : Int := -9223371966579724800
def internalToAbsolute : Int := 9223371966579724800

/-- Offsets between epochs: `(1969*365 + 1969/4 - 1969/100 + 1969/400) * secondsPerDay`. -/
def unixToInternal : Int := 62135596800
def internalToUnix : Int := -62135596800

/-- Offsets between epochs: `(1884*365 + 1884/4 - 1884/100 + 1884/400) * secondsPerDay`. -/
def wallToInternal : Int := 59453308800

/-- One second as a `time.Duration` (nanoseconds). -/
def Second : Int := 1000000000

/-- Conversion of an integer to `int64`: two's complement wrap-around. -/
def wrapInt64 (x : Int) : Int := (x + 2 ^ 63) % 2 ^ 64 - 2 ^ 63

/-! ## Calendar arithmetic -/

/-- Go: `year%4 == 0 && (year%100 != 0 || year%400 == 0)`.  The remainders are
only compared with zero, where Go's truncated `%` and `Int.emod` agree. -/
def isLeap (year : Int) : Bool :=
  year % 4 == 0 && (year % 100 != 0 || year % 400 == 0)

/-- The table `daysBefore[m]`: days in a non-leap year before month `m+1`. -/
def daysBeforeTable : List Int :=
  [0, 31, 59, 90, 120, 151, 181, 212, 243, 273, 304, 334, 365]

/-- Indexing into the `daysBefore` table. -/
def daysBefore (i : Int) : Int := daysBeforeTable.getD i.toNat 0

/-- Go `daysIn(m, year)`. -/
def daysIn (m : Int) (year : Int) : Int :=
  if m = 2 && isLeap year then 29
  else daysBefore m - daysBefore (m - 1)

/-- Go `norm(hi, lo, base)`: normalise `lo` into `[0, base)`, carrying into `hi`. -/
def norm (hi lo base : Int) : Int × Int :=
  let p : Int × Int :=
    if lo < 0 then
      let n := (-lo - 1) / base + 1
      (hi - n, lo + n * base)
    else (hi, lo)
  if p.2 ≥ base then
    let n := p.2 / base
    (p.1 + n, p.2 - n * base)
  else p

/-- Go `daysSinceEpoch(year)`: days from the absolute epoch to 1 January of
`year`, in `uint64` arithmetic: `y := uint64(int64(year) - absoluteZeroYear)`. -/
def daysSinceEpoch (year : Int) : Int :=
  let y := (year - absoluteZeroYear) % 2 ^ 64
  -- 400-year cycles
  let n := y / 400
  let y := y - 400 * n
  let d := daysPer400Years * n
  -- 100-year cycles
  let n := y / 100
  let y := y - 100 * n
  let d := d + daysPer100Years * n
  -- 4-year cycles
  let n := y / 4
  let y := y - 4 * n
  let d := d + daysPer4Years * n
  -- remaining non-leap years
  let n := y
  (d + 365 * n) % 2 ^ 64

/-- Go `absDate`, first half: split a day count into completed years (counted
from the absolute zero year) and the zero-based day of the year, cutting off
400-, 100-, 4- and 1-year cycles. -/
def absDateYear (d : Int) : Int × Int :=
  -- 400-year cycles
  let n := d / daysPer400Years
  let y := 400 * n
  let d := d - daysPer400Years * n
  -- 100-year cycles; `n -= n >> 2`
  let n := d / daysPer100Years
  let n := n - n / 4
  let y := y + 100 * n
  let d := d - daysPer100Years * n
  -- 4-year cycles
  let n := d / daysPer4Years
  let y := y + 4 * n
  let d := d - daysPer4Years * n
  -- years within a 4-year cycle; `n -= n >> 2`
  let n := d / 365
  let n := n - n / 4
  let y := y + n
  let d := d - 365 * n
  (y, d)

/-- Go `absDate`, second half (the `full` branch): month and day of the month
from the zero-based day of the year. -/
def absDateMonth (leap : Bool) (yday : Int) : Int × Int :=
  if leap && yday = 31 + 29 - 1 then (2, 29)
  else
    let day := if leap && yday > 31 + 29 - 1 then yday - 1 else yday
    -- Estimate the month assuming 31-day months, then adjust.
    let month := day / 31
    let fin := daysBefore (month + 1)
    let month1 := if day ≥ fin then month + 1 else month
    let start := if day ≥ fin then fin else daysBefore month
    (month1 + 1, day - start + 1)

/-- Go `absDate(abs, full)`: year, month, day and zero-based day of the year of
an absolute time in seconds.  With `full = false` only `year` and `yday` are
computed and the other two results are left zero. -/
def absDate (abs : Int) (full : Bool) : Int × Int × Int × Int :=
  let d := abs / secondsPerDay
  let yd := absDateYear d
  let year := yd.1 + absoluteZeroYear
  let yday := yd.2
  if !full then (year, 0, 0, yday)
  else
    let md := absDateMonth (isLeap year) yday
    (year, md.1, md.2, yday)

/-- Go `absClock(abs)`: hour, minute and second within the day. -/
def absClock (abs : Int) : Int × Int × Int :=
  let sec := abs % secondsPerDay
  let hour := sec / secondsPerHour
  let sec := sec - hour * secondsPerHour
  let min := sec / secondsPerMinute
  let sec := sec - min * secondsPerMinute
  (hour, min, sec)

/-! ## Locations and instants -/

/-- Go `alpha`: the beginning of time for zone lookups, `-1 << 63`. -/
def alpha : Int := -2 ^ 63

/-- Go `omega`: the end of time for zone lookups, `1<<63 - 1`. -/
def omega : Int := 2 ^ 63 - 1

/-- Go `zone`: a single time zone such as CET. -/
structure zone where
  name : String
  offset : Int
  isDST : Bool
deriving DecidableEq, Repr, Inhabited

/-- Go `zoneTrans`: a transition to the zone `index` at the Unix time `when`
(the fields `isstd` and `isutc` are not read by `lookup`). -/
structure zoneTrans where
  when : Int
  index : Nat
deriving DecidableEq, Repr, Inhabited

/-- A `*Location`: the pointer `&utcLoc`, a pointer to a zone made by
`FixedZone(name, offset)`, or a pointer to a zone with the table of zones and
transitions of the time zone database. -/
inductive Location where
  | utcLoc : Location
  | fixed (name : String) (offset : Int) : Location
  | zoned (name : String) (zone : List zone) (tx : List zoneTrans) : Location
deriving DecidableEq, Repr

/-- Go `l.firstZoneUsed()`. -/
def firstZoneUsed (tx : List zoneTrans) : Bool := tx.any (fun x => x.index == 0)

/-- The loop of case 2 of `lookupFirstZone`: the closest index below `n` of a
zone that is not in daylight time. -/
def lastStdBelow (zs : List zone) : Nat → Option Nat
  | 0 => none
  | n + 1 => if !(zs.getD n default).isDST then some n else lastStdBelow zs n

/-- The loop of case 3 of `lookupFirstZone`: the first index at or after `i`
of a zone that is not in daylight time. -/
def firstStdFrom (i : Nat) : List zone → Option Nat
  | [] => none
  | z :: zs => if !z.isDST then some i else firstStdFrom (i + 1) zs

/-- Go `l.lookupFirstZone()`: the zone to use before the first transition. -/
def lookupFirstZone (zs : List zone) (tx : List zoneTrans) : Nat :=
  -- Case 1.
  if !firstZoneUsed tx then 0
  else
    -- Case 2.
    let c2 : Option Nat :=
      match tx with
      | x :: _ => if (zs.getD x.index default).isDST then lastStdBelow zs x.index else none
      | [] => none
    match c2 with
    | some zi => zi
    | none =>
      -- Case 3, then case 4.
      match firstStdFrom 0 zs with
      | some zi => zi
      | none => 0

/-- The binary search of `lookup` for the entry with the largest time `<= sec`:
the final `lo`, and `end` as maintained during the search. -/
def lookupLoop (tx : List zoneTrans) (sec : Int) : Nat → Nat → Nat → Int → Nat × Int
  | 0, lo, _, e => (lo, e)
  | fuel + 1, lo, hi, e =>
    if hi - lo > 1 then
      let m := (lo + hi) / 2
      let lim := (tx.getD m default).when
      if sec < lim then lookupLoop tx sec fuel lo m lim
      else lookupLoop tx sec fuel m hi e
    else (lo, e)

/-- Go `l.lookup(sec)`: the offset in force at the Unix time `sec` and the
period `[start, end)` in which it is in force.  The zone cache gives the same
answer as the search; for a zone made by `FixedZone` it covers every
instant. -/
def Location.lookup (l : Location) (sec : Int) : Int × Int × Int :=
  match l with
  | .utcLoc => (0, alpha, omega)
  | .fixed _ offset => (offset, alpha, omega)
  | .zoned _ zs tx =>
    if zs.length = 0 then (0, alpha, omega)
    else
      match tx with
      | [] => ((zs.getD (lookupFirstZone zs tx) default).offset, alpha, omega)
      | x :: _ =>
        if sec < x.when then ((zs.getD (lookupFirstZone zs tx) default).offset, alpha, x.when)
        else
          let r := lookupLoop tx sec tx.length 0 tx.length omega
          ((zs.getD (tx.getD r.1 default).index default).offset, (tx.getD r.1 default).when, r.2)

/-- Go `time.Time`: the packed `wall` word (bit 63 `hasMonotonic`, 33 bits of
wall seconds, 30 bits of nanoseconds), `ext` and the location pointer
(`none` is the nil pointer, meaning UTC). -/
structure Time where
  wall : Nat
  ext : Int
  loc : Option Location
deriving DecidableEq, Repr

namespace Time

/-- The zero value `Time{}`. -/
def zero : Time := ⟨0, 0, none⟩

/-- Go `t.wall&hasMonotonic != 0` (bit 63 of `wall`). -/
def hasMono (t : Time) : Bool := t.wall / 2 ^ 63 % 2 == 1

/-- Go `t.nsec()`: `int32(t.wall & nsecMask)`. -/
def nsec (t : Time) : Int := ((t.wall % 2 ^ 30 : Nat) : Int)

/-- Go `t.sec()`: seconds since 1 January of year 1. -/
def sec (t : Time) : Int :=
  if t.hasMono then wallToInternal + ((t.wall % 2 ^ 63 / 2 ^ 30 : Nat) : Int)
  else t.ext

/-- Go `t.unixSec()`: `t.sec() + internalToUnix` in `int64`. -/
def unixSec (t : Time) : Int := wrapInt64 (t.sec + internalToUnix)

/-- Go `t.stripMono()`. -/
def stripMono (t : Time) : Time :=
  if t.hasMono then { t with ext := t.sec, wall := t.wall % 2 ^ 30 } else t

/-- Go `t.setLoc(loc)`: `&utcLoc` is stored as nil. -/
def setLoc (t : Time) (loc : Location) : Time :=
  let l : Option Location := if loc = Location.utcLoc then none else some loc
  { t.stripMono with loc := l }

/-- Go `t.Location()`: a nil pointer reads as `UTC`. -/
def Location (t : Time) : time.Location :=
  match t.loc with
  | none => .utcLoc
  | some l => l

/-- Go `t.abs()`: seconds since the absolute epoch, shifted to the zone of `t`,
as a `uint64`.  (Go skips the lookup for `&utcLoc`, whose offset is 0.) -/
def abs (t : Time) : Int :=
  let sec := t.unixSec
  let offset := (t.Location.lookup sec).1
  let sec := wrapInt64 (sec + offset)
  (sec + (unixToInternal + internalToAbsolute)) % 2 ^ 64

/-- The representation invariant kept by package `time`: the nanosecond field
is below one second. -/
def Valid (t : Time) : Prop := t.nsec < 1000000000

instance (t : Time) : Decidable t.Valid := by unfold Valid; infer_instance

end Time

/-- Go `unixTime(sec, nsec)` (the location is set by the caller afterwards):
`ext` is `sec + unixToInternal` in `int64`. -/
def unixTime (sec nsec : Int) (loc : Option Location) : Time :=
  ⟨nsec.toNat, wrapInt64 (sec + unixToInternal), loc⟩

/-- Go `time.Date(year, month, day, hour, min, sec, nsec, loc)`. -/
def Date (year month day hour min sec nsec : Int) (loc : Location) : Time :=
  -- Normalize month, overflowing into year.
  let m := month - 1
  let ym := norm year m 12
  let year := ym.1
  let month := ym.2 + 1
  -- Normalize nsec, sec, min, hour, overflowing into day.
  let sn := norm sec nsec 1000000000
  let ms := norm min sn.1 60
  let hm := norm hour ms.1 60
  let dh := norm day hm.1 24
  let nsec := sn.2
  let sec := ms.2
  let min := hm.2
  let hour := dh.2
  let day := dh.1
  -- Days since the absolute epoch (`uint64`).
  let d := daysSinceEpoch year
  let d := d + daysBefore (month - 1)
  let d := if isLeap year && month ≥ 3 then d + 1 else d
  let d := (d + (day - 1)) % 2 ^ 64
  -- Time elapsed today.
  let abs := d * secondsPerDay
  let abs := (abs + (hour * secondsPerHour + min * secondsPerMinute + sec)) % 2 ^ 64
  let unix := wrapInt64 (abs + (absoluteToInternal + internalToUnix))
  -- Look for the zone offset for the expected time, to adjust to UTC: `lookup`
  -- expects UTC, so `unix` is passed first, and the result adjusted if `unix`
  -- is too close to a zone transition.
  let l := loc.lookup unix
  let unix :=
    if l.1 ≠ 0 then
      let utc := wrapInt64 (unix - l.1)
      -- If utc is valid for the zone found, the offset is right; if not, the
      -- right offset is found by looking up utc.
      let offset := if utc < l.2.1 ∨ utc ≥ l.2.2 then (loc.lookup utc).1 else l.1
      wrapInt64 (unix - offset)
    else unix
  (unixTime unix nsec none).setLoc loc

end time

namespace time

/-! ## Methods of `time.Time` -/

namespace Time

/-- Go `t.date(full)`. -/
def date (t : Time) (full : Bool) : Int × Int × Int × Int := absDate t.abs full

/-- Go `t.Date()`: year, month and day. -/
def Date (t : Time) : Int × Int × Int :=
  let r := t.date true
  (r.1, r.2.1, r.2.2.1)

/-- Go `t.Year()`. -/
def Year (t : Time) : Int := (t.date false).1

/-- Go `t.Month()`. -/
def Month (t : Time) : Int := (t.date true).2.1

/-- Go `t.Day()`. -/
def Day (t : Time) : Int := (t.date true).2.2.1

/-- Go `t.Clock()`: hour, minute and second. -/
def Clock (t : Time) : Int × Int × Int := absClock t.abs

/-- Go `t.Nanosecond()`. -/
def Nanosecond (t : Time) : Int := t.nsec

/-- Go `t.addSec(d)`: the wall seconds are moved in the packed field when the
result fits its 33 bits; otherwise the monotonic reading is dropped and `ext`
is moved, saturating at the ends of the `int64` range. -/
def addSec (t : Time) (d : Int) : Time :=
  let sec : Int := ((t.wall % 2 ^ 63 / 2 ^ 30 : Nat) : Int)
  let dsec := wrapInt64 (sec + d)
  if t.hasMono ∧ 0 ≤ dsec ∧ dsec ≤ 2 ^ 33 - 1 then
    -- `t.wall&nsecMask | uint64(dsec)<<nsecShift | hasMonotonic`
    { t with wall := t.wall % 2 ^ 30 + dsec.toNat * 2 ^ 30 + 2 ^ 63 }
  else
    -- Wall second now out of range for the packed field: move to `ext`
    -- (`stripMono` leaves an instant without monotonic reading as it is).
    let s := t.stripMono
    -- Check if the sum of `ext` and `d` overflows and handle it properly.
    let sum := wrapInt64 (s.ext + d)
    if decide (sum > s.ext) = decide (d > 0) then { s with ext := sum }
    else if d > 0 then { s with ext := 2 ^ 63 - 1 }
    else { s with ext := -(2 ^ 63 - 1) }

/-- Go `t.Add(d)` for a duration `d` in nanoseconds.  Go's `/` and `%` truncate
towards zero. -/
def Add (t : Time) (d : Int) : Time :=
  let dsec := d.tdiv 1000000000
  let nsec := t.nsec + d.tmod 1000000000
  let dn : Int × Int :=
    if nsec ≥ 1000000000 then (dsec + 1, nsec - 1000000000)
    else if nsec < 0 then (dsec - 1, nsec + 1000000000)
    else (dsec, nsec)
  -- `t.wall = t.wall&^nsecMask | uint64(nsec)`
  let t1 : Time := { t with wall := t.wall - t.wall % 2 ^ 30 + dn.2.toNat }
  let t2 := t1.addSec dn.1
  if t2.hasMono then
    let te := wrapInt64 (t2.ext + d)
    if (d < 0 ∧ te > t2.ext) ∨ (d > 0 ∧ te < t2.ext) then
      -- Monotonic clock reading now out of range; degrade to wall-only.
      t2.stripMono
    else { t2 with ext := te }
  else t2

/-- Go `t.AddDate(years, months, days)`. -/
def AddDate (t : Time) (years months days : Int) : Time :=
  let ymd := t.Date
  let hms := t.Clock
  time.Date (ymd.1 + years) (ymd.2.1 + months) (ymd.2.2 + days) hms.1 hms.2.1 hms.2.2
    t.nsec t.Location

/-- Go `t.After(u)`. -/
def After (t u : Time) : Bool :=
  if t.hasMono && u.hasMono then decide (t.ext > u.ext)
  else
    let ts := t.sec
    let us := u.sec
    decide (ts > us) || (decide (ts = us) && decide (t.nsec > u.nsec))

/-- Go `t.Before(u)`. -/
def Before (t u : Time) : Bool :=
  if t.hasMono && u.hasMono then decide (t.ext < u.ext)
  else
    let ts := t.sec
    let us := u.sec
    decide (ts < us) || (decide (ts = us) && decide (t.nsec < u.nsec))

/-- Go `t.Equal(u)`. -/
def Equal (t u : Time) : Bool :=
  if t.hasMono && u.hasMono then decide (t.ext = u.ext)
  else decide (t.sec = u.sec) && decide (t.nsec = u.nsec)

end Time

/-- Go `time.Unix(sec, nsec)`, with the process zone `lcl` for `time.Local`. -/
def Unix (lcl : Location) (sec nsec : Int) : Time :=
  let p : Int × Int :=
    if nsec < 0 ∨ nsec ≥ 1000000000 then
      let n := nsec.tdiv 1000000000
      let sec := wrapInt64 (sec + n)
      let nsec := nsec - n * 1000000000
      if nsec < 0 then (wrapInt64 (sec - 1), nsec + 1000000000) else (sec, nsec)
    else (sec, nsec)
  unixTime p.1 p.2 (some lcl)

/-! ## Layouts: `nextStdChunk` -/

/-- The reference elements of a layout that the model knows. -/
inductive Std where
  /-- `2006` -/
  | stdLongYear
  /-- `01` -/
  | stdZeroMonth
  /-- `02` -/
  | stdZeroDay
  /-- `15` -/
  | stdHour
  /-- `04` -/
  | stdZeroMinute
  /-- `05` -/
  | stdZeroSecond
  /-- `.000` or `,000`: the number of digits and the separator byte -/
  | stdFracSecond0 (digits : Nat) (sep : Nat)
  /-- `Z07:00` -/
  | stdISO8601ColonTZ
deriving DecidableEq, Repr

/-- Go `isDigit(s, i)` at `i = 0`. -/
def isDigit0 (s : List Nat) : Bool :=
  match s with
  | [] => false
  | c :: _ => decide (48 ≤ c) && decide (c ≤ 57)

/-- Drop the leading run of the byte `ch`. -/
def dropRun (ch : Nat) : List Nat → List Nat
  | [] => []
  | c :: s => if c = ch then dropRun ch s else c :: s

/-- Length of the leading run of the byte `ch`. -/
def runLen (ch : Nat) : List Nat → Nat
  | [] => 0
  | c :: s => if c = ch then runLen ch s + 1 else 0

/-- The reference element starting at the head of `l`, if any, and what
follows it: one iteration of the loop of Go `nextStdChunk`. -/
def stdAt (l : List Nat) : Option (Std × List Nat) :=
  match l with
  -- '0': 01, 02, 04, 05
  | 48 :: 49 :: r => some (.stdZeroMonth, r)
  | 48 :: 50 :: r => some (.stdZeroDay, r)
  | 48 :: 52 :: r => some (.stdZeroMinute, r)
  | 48 :: 53 :: r => some (.stdZeroSecond, r)
  -- '1': 15
  | 49 :: 53 :: r => some (.stdHour, r)
  -- '2': 2006
  | 50 :: 48 :: 48 :: 54 :: r => some (.stdLongYear, r)
  -- 'Z': Z07:00 (not when it starts the longer `Z07:00:00`)
  | 90 :: 48 :: 55 :: 58 :: 48 :: 48 :: r =>
    match r with
    | 58 :: 48 :: 48 :: _ => none
    | _ => some (.stdISO8601ColonTZ, r)
  -- '.' or ',' followed by a run of zeros that is not followed by a digit
  | c :: 48 :: r =>
    if (c = 46 ∨ c = 44) ∧ ¬ isDigit0 (dropRun 48 r) then
      some (.stdFracSecond0 (runLen 48 r + 1) c, dropRun 48 r)
    else none
  | _ => none

/-- Go `nextStdChunk(layout)`, scanning from the left with the literal text
passed so far in `pre` (reversed). -/
def nextStdChunkFrom (pre : List Nat) : List Nat → List Nat × Option Std × List Nat
  | [] => (pre.reverse, none, [])
  | c :: r =>
    match stdAt (c :: r) with
    | some (std, suffix) => (pre.reverse, some std, suffix)
    | none => nextStdChunkFrom (c :: pre) r

/-- Go `nextStdChunk(layout)`: the literal text before the first reference
element, the element, and the rest of the layout. -/
def nextStdChunk (layout : List Nat) : List Nat × Option Std × List Nat :=
  nextStdChunkFrom [] layout

/-! ## Formatting -/

/-- Decimal digits of `u`, least significant first (the loop of `appendInt`
that fills its 20-byte buffer from the right). -/
def revDigits : Nat → Nat → List Nat
  | 0, _ => []
  | fuel + 1, u => if u ≥ 10 then (48 + u % 10) :: revDigits fuel (u / 10) else [48 + u]

/-- Go `appendInt(b, x, width)`: sign, zero padding to `width`, decimal digits. -/
def appendInt (b : List Nat) (x : Int) (width : Nat) : List Nat :=
  let u := x.natAbs
  let b := if x < 0 then b ++ [45] else b
  let ds := (revDigits 20 u).reverse
  b ++ List.replicate (width - ds.length) 48 ++ ds

/-- Go `appendNano(b, nanosec, std)` for `stdFracSecond0`: the separator and the
first `n` of the nine digits. -/
def appendNano (b : List Nat) (nanosec : Int) (n : Nat) (sep : Nat) : List Nat :=
  let b := b ++ [sep]
  let full := appendInt [] nanosec 9
  b ++ (if n < 9 then full.take n else full)

/-- One reference element of `AppendFormat`. -/
def appendStd (b : List Nat) (t : Time) (std : Std) : List Nat :=
  let ymd := absDate t.abs true
  let hms := absClock t.abs
  match std with
  | .stdLongYear => appendInt b ymd.1 4
  | .stdZeroMonth => appendInt b ymd.2.1 2
  | .stdZeroDay => appendInt b ymd.2.2.1 2
  | .stdHour => appendInt b hms.1 2
  | .stdZeroMinute => appendInt b hms.2.1 2
  | .stdZeroSecond => appendInt b hms.2.2 2
  | .stdFracSecond0 n sep => appendNano b t.Nanosecond n sep
  | .stdISO8601ColonTZ =>
    let offset := (t.Location.lookup t.unixSec).1
    if offset = 0 then b ++ [90]
    else
      -- convert to minutes, truncating
      let zone := offset.tdiv 60
      let b := if zone < 0 then b ++ [45] else b ++ [43]
      let zone := if zone < 0 then -zone else zone
      let b := appendInt b (zone.tdiv 60) 2
      let b := b ++ [58]
      appendInt b (zone.tmod 60) 2

/-- The loop of Go `t.AppendFormat(b, layout)`; `fuel` bounds the number of
reference elements, each consuming part of the layout. -/
def appendFormat (t : Time) : Nat → List Nat → List Nat → List Nat
  | 0, b, _ => b
  | fuel + 1, b, layout =>
    if layout = [] then b
    else
      let c := nextStdChunk layout
      let b := b ++ c.1
      match c.2.1 with
      | none => b
      | some std => appendFormat t fuel (appendStd b t std) c.2.2

/-- Go `t.Format(layout)`. -/
def Time.Format (t : Time) (layout : List Nat) : List Nat :=
  appendFormat t layout.length [] layout

/-! ## Parsing -/

/-- Go `cutspace(s)`. -/
def cutspace (s : List Nat) : List Nat := dropRun 32 s

/-- The loop of Go `skip(value, prefix)`; every iteration consumes at least
one byte of the literal text, which `fuel` counts. -/
def skipLoop : Nat → List Nat → List Nat → Option (List Nat)
  | _, value, [] => some value
  | 0, _, _ :: _ => none
  | fuel + 1, value, p :: lit =>
    if p = 32 then
      if value ≠ [] ∧ value.head? ≠ some 32 then none
      else skipLoop fuel (cutspace value) (cutspace (p :: lit))
    else
      match value with
      | [] => none
      | v :: value1 => if v ≠ p then none else skipLoop fuel value1 lit

/-- Go `skip(value, prefix)`: match the literal text of the layout; a run of
spaces in the layout matches any run of spaces.  `none` is `errBad`. -/
def skip (value lit : List Nat) : Option (List Nat) := skipLoop lit.length value lit

/-- Go `getnum(s, fixed)`: one or two digits (exactly two when `fixed`). -/
def getnum (s : List Nat) (fixed : Bool) : Option (Int × List Nat) :=
  if ¬ isDigit0 s then none
  else if ¬ isDigit0 s.tail then
    if fixed then none
    else some (((s.headD 0 - 48 : Nat) : Int), s.tail)
  else some ((((s.headD 0 - 48) * 10 + (s.tail.headD 0 - 48) : Nat) : Int), s.tail.tail)

/-- Go `leadingInt(s)`: the value of the leading run of digits and the rest.
The overflow check (beyond `1<<63`) is not modelled. -/
def leadingInt (x : Nat) : List Nat → Nat × List Nat
  | [] => (x, [])
  | c :: s => if c < 48 ∨ c > 57 then (x, c :: s) else leadingInt (x * 10 + (c - 48)) s

/-- Go `atoi(s)`: an optional sign and digits only. -/
def atoi (s : List Nat) : Option Int :=
  let neg := decide (s.head? = some 45)
  let s1 := if s.head? = some 45 ∨ s.head? = some 43 then s.tail else s
  let r := leadingInt 0 s1
  if r.2 ≠ [] then none
  else some (if neg then -(r.1 : Int) else (r.1 : Int))

/-- Go `commaOrPeriod(b)`. -/
def commaOrPeriod (b : Nat) : Bool := decide (b = 46) || decide (b = 44)

/-- Go `parseNanoseconds(value, nbytes)`; `none` is an error (format or range). -/
def parseNanoseconds (value : List Nat) (nbytes : Nat) : Option Int :=
  if ¬ commaOrPeriod (value.headD 0) then none
  else
    let value := if nbytes > 10 then value.take 10 else value
    let nbytes := if nbytes > 10 then 10 else nbytes
    match atoi ((value.take nbytes).drop 1) with
    | none => none
    | some ns =>
      if ns < 0 then none
      else some (ns * 10 ^ (10 - nbytes))

/-- The variables of Go `parse` that the modelled elements assign. -/
structure Fields where
  year : Int := 0
  month : Int := -1
  day : Int := -1
  hour : Int := 0
  min : Int := 0
  sec : Int := 0
  nsec : Int := 0
  z : Option Location := none
  zoneOffset : Int := -1
deriving DecidableEq, Repr

/-- Number of digits after the separator in the seconds special case:
Go `n := 2; for ; n < len(value) && isDigit(value, n); n++ {}`. -/
def fracLen (value : List Nat) : Nat := 2 + (value.drop 2).length - ((value.drop 2).dropWhile (fun c => decide (48 ≤ c) && decide (c ≤ 57))).length

/-- One reference element of Go `parse`: the `switch std & stdMask` body.
`layout` is the layout after the element, `value` the remaining input.
`none` stands for every error (`errBad` or a range error). -/
def parseStd (std : Std) (layout value : List Nat) (f : Fields) : Option (List Nat × Fields) :=
  match std with
  | .stdLongYear =>
    if value.length < 4 ∨ ¬ isDigit0 value then none
    else
      match atoi (value.take 4) with
      | none => none
      | some y => some (value.drop 4, { f with year := y })
  | .stdZeroMonth =>
    match getnum value true with
    | none => none
    | some (m, value) =>
      if m ≤ 0 ∨ 12 < m then none else some (value, { f with month := m })
  | .stdZeroDay =>
    -- any two-digit day is taken here; the date is validated at the end
    match getnum value true with
    | none => none
    | some (d, value) => some (value, { f with day := d })
  | .stdHour =>
    match getnum value false with
    | none => none
    | some (h, value) =>
      if h < 0 ∨ 24 ≤ h then none else some (value, { f with hour := h })
  | .stdZeroMinute =>
    match getnum value true with
    | none => none
    | some (m, value) =>
      if m < 0 ∨ 60 ≤ m then none else some (value, { f with min := m })
  | .stdZeroSecond =>
    match getnum value true with
    | none => none
    | some (s, value) =>
      if s < 0 ∨ 60 ≤ s then none
      else
        -- Special case: a fractional second in the input but none in the layout.
        if value.length ≥ 2 ∧ commaOrPeriod (value.headD 0) ∧ isDigit0 value.tail then
          match (nextStdChunk layout).2.1 with
          | some (.stdFracSecond0 _ _) => some (value, { f with sec := s })
          | _ =>
            let n := fracLen value
            match parseNanoseconds value n with
            | none => none
            | some ns => some (value.drop n, { f with sec := s, nsec := ns })
        else some (value, { f with sec := s })
  | .stdFracSecond0 digits _ =>
    -- exactly the number of digits of the layout
    let ndigit := 1 + digits
    if value.length < ndigit then none
    else
      match parseNanoseconds value ndigit with
      | none => none
      | some ns => some (value.drop ndigit, { f with nsec := ns })
  | .stdISO8601ColonTZ =>
    if value.head? = some 90 then some (value.tail, { f with z := some Location.utcLoc })
    else if value.length < 6 then none
    else if value.get? 3 ≠ some 58 then none
    else
      match getnum ((value.take 3).drop 1) true, getnum ((value.take 6).drop 4) true with
      | some (hr, _), some (mm, _) =>
        -- The range test uses > rather than >=, as some people do write
        -- offsets of 24 hours or 60 minutes.
        if hr > 24 ∨ mm > 60 then none
        else
          let off := (hr * 60 + mm) * 60
          if value.head? = some 43 then some (value.drop 6, { f with zoneOffset := off })
          else if value.head? = some 45 then some (value.drop 6, { f with zoneOffset := -off })
          else none
      | _, _ => none

/-- The loop of Go `parse`: match literal text, then one reference element,
until the layout has no more elements. -/
def parseLoop : Nat → List Nat → List Nat → Fields → Option Fields
  | 0, _, _, _ => none
  | fuel + 1, layout, value, f =>
    let c := nextStdChunk layout
    match skip value c.1 with
    | none => none
    | some value =>
      match c.2.1 with
      | none => if value ≠ [] then none else some f
      | some std =>
        match parseStd std c.2.2 value f with
        | none => none
        | some (value, f) => parseLoop fuel c.2.2 value f

/-- The end of Go `parse`: defaults for month and day, validation of the day
of the month, and construction of the instant. -/
def parseFinish (f : Fields) (defaultLocation lcl : Location) : Option Time :=
  let month := if f.month < 0 then 1 else f.month
  let day := if f.day < 0 then 1 else f.day
  if day < 1 ∨ day > daysIn month f.year then none
  else
    match f.z with
    | some z => some (Date f.year month day f.hour f.min f.sec f.nsec z)
    | none =>
      if f.zoneOffset ≠ -1 then
        let t := (Date f.year month day f.hour f.min f.sec f.nsec Location.utcLoc).addSec
          (-f.zoneOffset)
        -- use the local zone when it has the parsed offset, else a fabricated zone
        if (lcl.lookup t.unixSec).1 = f.zoneOffset then some (t.setLoc lcl)
        else some (t.setLoc (Location.fixed "" f.zoneOffset))
      else some (Date f.year month day f.hour f.min f.sec f.nsec defaultLocation)

/-- Go `time.ParseInLocation(layout, value, loc)`, that is
`parse(layout, value, loc, loc)`.  `none` stands for a `*ParseError`. -/
def ParseInLocation (layout value : List Nat) (loc : Location) : Option Time :=
  match parseLoop (layout.length + 1) layout value {} with
  | none => none
  | some f => parseFinish f loc loc

end time

/-! ## Package `localTime` (`time.go`) -/

namespace localTime

/-- Go `const Layout = "2006-01-02 15:04:05"`. -/
def Layout : List Nat := time.bytes "2006-01-02 15:04:05"

/-- Go `const Zone = "Asia/Shanghai"`. -/
def Zone : List Nat := time.bytes "Asia/Shanghai"

/-- Error values returned by the package: a `*time.ParseError` handed on from
package `time`, or `errors.New(msg)`. -/
inductive Error where
  | parseError : Error
  | errorString (msg : String) : Error
deriving DecidableEq, Repr

/-- Go `type Time time.Time`: a distinct type with the representation of
`time.Time`; `Time.mk` is the conversion `Time(t)` and `.std` is `time.Time(t)`. -/
structure Time where
  std : time.Time
deriving DecidableEq, Repr

/-- Go `ParseLocalLayout(l, val)`; `lcl` is the value of `time.Local`. -/
def ParseLocalLayout (lcl : time.Location) (l val : List Nat) : Time × Option Error :=
  match time.ParseInLocation l val lcl with
  | none => (⟨time.Time.zero⟩, some .parseError)
  | some t => (⟨t⟩, none)

/-- Go `ParseLocal(val)`. -/
def ParseLocal (lcl : time.Location) (val : List Nat) : Time × Option Error :=
  match time.ParseInLocation Layout val lcl with
  | none => (⟨time.Time.zero⟩, some .parseError)
  | some t => (⟨t⟩, none)

/-- Go `ParseDate(val)`. -/
def ParseDate (lcl : time.Location) (val : List Nat) : Time × Option Error :=
  match time.ParseInLocation (time.bytes "2006-01-02") val lcl with
  | none => (⟨time.Time.zero⟩, some .parseError)
  | some t => (⟨t⟩, none)

/-- Go `ParseCompact(val)`. -/
def ParseCompact (lcl : time.Location) (val : List Nat) : Time × Option Error :=
  match time.ParseInLocation (time.bytes "20060102150405") val lcl with
  | none => (⟨time.Time.zero⟩, some .parseError)
  | some t => (⟨t⟩, none)

/-- Go `ParseCompactDate(val)`. -/
def ParseCompactDate (lcl : time.Location) (val : List Nat) : Time × Option Error :=
  match time.ParseInLocation (time.bytes "20060102") val lcl with
  | none => (⟨time.Time.zero⟩, some .parseError)
  | some t => (⟨t⟩, none)

/-- Go `Unix(sec, nsec)`. -/
def Unix (lcl : time.Location) (sec nsec : Int) : Time := ⟨time.Unix lcl sec nsec⟩

namespace Time

/-- Go `(t Time) AddDate(years, months, days)`. -/
def AddDate (t : Time) (years months days : Int) : Time :=
  let ti := t.std.AddDate years months days
  ⟨ti⟩

/-- Go `(t Time) Add(d)`. -/
def Add (t : Time) (d : Int) : Time :=
  let ti := t.std.Add d
  ⟨ti⟩

/-- Go `(t Time) Before(u)`. -/
def Before (t u : Time) : Bool := t.std.Before u.std

/-- Go `(t Time) After(u)`. -/
def After (t u : Time) : Bool := t.std.After u.std

/-- Go `(t Time) Equal(u)`. -/
def Equal (t u : Time) : Bool := t.std.Equal u.std

/-- Go `(t Time) Format(l)`. -/
def Format (t : Time) (l : List Nat) : List Nat := t.std.Format l

/-- Go `reflect.ValueOf(t).IsZero()` on the struct: every field is zero, the
pointer field being nil. -/
def reflectIsZero (t : Time) : Bool :=
  decide (t.std.wall = 0) && decide (t.std.ext = 0) && t.std.loc.isNone

/-- Go `(t Time) IsZero()`. -/
def IsZero (t : Time) : Bool := t.reflectIsZero

/-- Go `(t Time) MarshalJSON()`: the bytes and the error. -/
def MarshalJSON (t : Time) : List Nat × Option Error :=
  if t.reflectIsZero then (time.bytes "\"\"", none)
  else
    let tune := t.Format (time.bytes "\"" ++ Layout ++ time.bytes "\"")
    (tune, none)

/-- Go `(t *Time) UnmarshalJSON(data)`: the value of `*t` after the call and
the error. -/
def UnmarshalJSON (lcl : time.Location) (t : Time) (data : List Nat) : Time × Option Error :=
  if data.length = 0 ∨ data = time.bytes "\"\"" then (t, none)
  else
    let r := ParseLocalLayout lcl (time.bytes "\"" ++ Layout ++ time.bytes "\"") data
    match r.2 with
    | some err => (t, some err)
    | none => (r.1, none)

/-- Go `(t Time) String()`. -/
def String (t : Time) : List Nat :=
  if t.reflectIsZero then []
  else t.Format Layout

/-- Go `(t Time) Compact()`. -/
def Compact (t : Time) : List Nat :=
  if t.reflectIsZero then []
  else t.Format (time.bytes "20060102150405")

end Time

/-- Go `StartTimeOfMonth(t)`. -/
def StartTimeOfMonth (t : Time) : Time :=
  let d := t.std
  ⟨time.Date d.Year d.Month 1 0 0 0 0 d.Location⟩

/-- Go `EndTimeOfMonth(t)`. -/
def EndTimeOfMonth (t : Time) : Time :=
  let d := t.std
  ((StartTimeOfMonth ⟨d⟩).AddDate 0 1 0).Add (-time.Second)

/-- Go `driver.Value` as returned by `Value`: nil or a string. -/
inductive DriverValue where
  | nil : DriverValue
  | string (s : List Nat) : DriverValue
deriving DecidableEq, Repr

/-- Go `(t Time) Value()`. -/
def Time.Value (t : Time) : DriverValue × Option Error :=
  if t.reflectIsZero then (.nil, none)
  else (.string (t.Format Layout), none)

/-- The dynamic value of the `interface{}` argument of `Scan`.  A pointer is
`none` when nil. -/
inductive Src where
  | nil : Src
  | stdTime (v : time.Time) : Src
  | stdTimePtr (p : Option time.Time) : Src
  | localTime (v : Time) : Src
  | localTimePtr (p : Option Time) : Src
  | string (s : List Nat) : Src
  | bytes (b : List Nat) : Src
  | int64 (i : Int) : Src
  | float64 (bits : Nat) : Src
  | bool (b : Bool) : Src
  | other (typeName : String) : Src
deriving DecidableEq, Repr

/-- How a call ends: it returns, or it panics (nil pointer dereference). -/
inductive Outcome (α : Type) where
  | returns (a : α) : Outcome α
  | panics : Outcome α
deriving DecidableEq, Repr

/-- Go `(t *Time) Scan(src)`: the value of `*t` after the call and the error. -/
def Time.Scan (lcl : time.Location) (t : Time) (src : Src) : Outcome (Time × Option Error) :=
  match src with
  | .stdTime v => .returns (⟨v⟩, none)
  | .stdTimePtr p =>
    match p with
    | none => .panics
    | some v => .returns (⟨v⟩, none)
  | .localTime v => .returns (v, none)
  | .localTimePtr p =>
    match p with
    | none => .panics
    | some v => .returns (v, none)
  | .string v =>
    let r := ParseLocal lcl v
    match r.2 with
    | some _ => .returns (t, some (.errorString "Invalid string for LocalTime"))
    | none => .returns (r.1, none)
  | .bytes v =>
    let r := ParseLocal lcl v
    match r.2 with
    | some _ => .returns (t, some (.errorString "Invalid string for LocalTime"))
    | none => .returns (r.1, none)
  | _ => .returns (t, some (.errorString "Incompatible type for LocalTime"))

end localTime

/-! ## Auxiliary definitions for the proofs -/

namespace time

/-- Number of days of a year. -/
def daysInYear (y : Int) : Int := if isLeap y then 366 else 365

/-- Zero-based day of the year of a calendar date, as accumulated by `Date`:
`daysBefore[month-1]`, one more after February of a leap year, plus `day - 1`. -/
def yearDayOf (leap : Bool) (m day : Int) : Int :=
  (if leap && m ≥ 3 then daysBefore (m - 1) + 1 else daysBefore (m - 1)) + (day - 1)

/-- Length of month `m` in a leap or common year (`daysIn`). -/
def monthLen (leap : Bool) (m : Int) : Int :=
  if m = 2 && leap then 29 else daysBefore m - daysBefore (m - 1)

/-- The month estimate of `absDate` on a day of a common year. -/
def monthEstimate (day : Int) : Int × Int :=
  let month := day / 31
  let fin := daysBefore (month + 1)
  let month1 := if day ≥ fin then month + 1 else month
  let start := if day ≥ fin then fin else daysBefore month
  (month1 + 1, day - start + 1)

/-- The exact number of days from the absolute epoch to 1 January of `year`:
`daysSinceEpoch` without the conversions to `uint64`. -/
def daysSinceEpochZ (year : Int) : Int :=
  let y := year - absoluteZeroYear
  let n := y / 400
  let y := y - 400 * n
  let d := daysPer400Years * n
  let n := y / 100
  let y := y - 100 * n
  let d := d + daysPer100Years * n
  let n := y / 4
  let y := y - 4 * n
  let d := d + daysPer4Years * n
  let n := y
  d + 365 * n

/-- Absolute seconds of a calendar date and clock reading, as `Date` computes
them before the zone adjustment when nothing wraps around. -/
def absOf (year month day hour min sec : Int) : Int :=
  (daysSinceEpochZ year + yearDayOf (isLeap year) month day) * 86400
    + (hour * 3600 + min * 60 + sec)

/-- A location without zone transitions: `UTC`, or a zone made by
`time.FixedZone` with an offset in the `int32` range of the time zone
database. -/
def Location.Fixed (l : Location) : Prop :=
  match l with
  | .utcLoc => True
  | .fixed _ offset => -2147483648 ≤ offset ∧ offset ≤ 2147483647
  | .zoned _ _ _ => False

instance (l : Location) : Decidable l.Fixed := by
  unfold Location.Fixed
  cases l <;> infer_instance

/-- The offset of a location without zone transitions. -/
def Location.fixedOffset : Location → Int
  | .utcLoc => 0
  | .fixed _ offset => offset
  | .zoned _ _ _ => 0

/-- An instant within `2^62` seconds (about 146 billion years) of
0001-01-01 00:00:00 UTC, so far from the ends of the `int64` range that the
arithmetic of package `time` on it and on the instants of the same year does
not wrap around. -/
def Time.Near (t : Time) : Prop :=
  -4611686018427387904 ≤ t.sec ∧ t.sec ≤ 4611686018427387904

instance (t : Time) : Decidable t.Near := by
  unfold Time.Near
  infer_instance

/-- The zone Asia/Shanghai (the `Zone` constant of the package): the zones and
transitions of the time zone database.  Its rule string is `CST-8`, without
daylight saving, so the last zone of the table stays in force. -/
def Shanghai : Location :=
  Location.zoned "Asia/Shanghai"
    [⟨"LMT", 29143, false⟩, ⟨"CDT", 32400, true⟩, ⟨"CST", 28800, false⟩]
    [⟨-2177481943, 2⟩, ⟨-1600675200, 1⟩, ⟨-1585904400, 2⟩, ⟨-933667200, 1⟩, ⟨-922093200, 2⟩,
     ⟨-908870400, 1⟩, ⟨-888829200, 2⟩, ⟨-881049600, 1⟩, ⟨-767869200, 2⟩, ⟨-745833600, 1⟩,
     ⟨-733827600, 2⟩, ⟨-716889600, 1⟩, ⟨-699613200, 2⟩, ⟨-683884800, 1⟩, ⟨-670669200, 2⟩,
     ⟨-652348800, 1⟩, ⟨-650019600, 2⟩, ⟨515527200, 1⟩, ⟨527014800, 2⟩, ⟨545162400, 1⟩,
     ⟨558464400, 2⟩, ⟨577216800, 1⟩, ⟨589914000, 2⟩, ⟨608666400, 1⟩, ⟨621968400, 2⟩,
     ⟨640116000, 1⟩, ⟨653418000, 2⟩, ⟨671565600, 1⟩, ⟨684867600, 2⟩]

/-- The zone America/Asuncion from March 2016 to October 2018: its two zones
of that period (UTC-4, and UTC-3 in daylight time) and its six transitions in
it, at 00:00 local time on 2016-03-27, 2016-10-02, 2017-03-26, 2017-10-01,
2018-03-25 and 2018-10-07.  Between these `lookup` answers as for the whole
table of the time zone database. -/
def Asuncion : Location :=
  Location.zoned "America/Asuncion"
    [⟨"-04", -14400, false⟩, ⟨"-03", -10800, true⟩]
    [⟨1459047600, 0⟩, ⟨1475380800, 1⟩, ⟨1490497200, 0⟩, ⟨1506830400, 1⟩, ⟨1521946800, 0⟩,
     ⟨1538884800, 1⟩]

/-- The zone America/Sao_Paulo from February 2016 to November 2018: its two
zones of that period (UTC-3, and UTC-2 in daylight time) and its six
transitions in it, at 00:00 local time on 2016-02-21, 2016-10-16, 2017-02-19,
2017-10-15, 2018-02-18 and 2018-11-04. -/
def SaoPaulo : Location :=
  Location.zoned "America/Sao_Paulo"
    [⟨"-03", -10800, false⟩, ⟨"-02", -7200, true⟩]
    [⟨1456020000, 0⟩, ⟨1476586800, 1⟩, ⟨1487469600, 0⟩, ⟨1508036400, 1⟩, ⟨1518919200, 0⟩,
     ⟨1541300400, 1⟩]

end time

namespace time

/-- The `w` low decimal digits of `n` as ASCII bytes, least significant first. -/
def lowDigits : Nat → Nat → List Nat
  | 0, _ => []
  | w + 1, n => (48 + n % 10) :: lowDigits w (n / 10)

end time

/-! ## More of package `time`: week days, ISO weeks, durations, Unix readings -/

namespace time

def secondsPerWeek : Int := 604800

/-- One millisecond as a `time.Duration` (nanoseconds). -/
def Millisecond : Int := 1000000

/-- Go `minDuration`: `-1 << 63`. -/
def minDuration : Int := -2 ^ 63

/-- Go `maxDuration`: `1<<63 - 1`. -/
def maxDuration : Int := 2 ^ 63 - 1

/-- Go `absWeekday(abs)`: the day of the week, Sunday = 0.  January 1 of the
absolute year, like January 1 of 2001, was a Monday. -/
def absWeekday (abs : Int) : Int :=
  let sec := (abs + 1 * secondsPerDay) % secondsPerWeek
  sec / secondsPerDay

namespace Time

/-- Go `t.Weekday()`. -/
def Weekday (t : Time) : Int := absWeekday t.abs

/-- Go `t.ISOWeek()`: the year and the week number of the Thursday of the
Monday-to-Sunday week of `t`. -/
def ISOWeek (t : Time) : Int × Int :=
  let abs := t.abs
  -- the offset to Thursday
  let d := 4 - absWeekday abs
  -- handle Sunday
  let d := if d = 4 then -3 else d
  -- find the Thursday of the calendar week
  let abs := abs + d * secondsPerDay
  let r := absDate abs false
  (r.1, r.2.2.2 / 7 + 1)

/-- Go `t.Unix()`. -/
def Unix (t : Time) : Int := t.unixSec

/-- Go `t.UnixNano()`: `(t.unixSec())*1e9 + int64(t.nsec())` in `int64`
arithmetic, which wraps around when the count does not fit. -/
def UnixNano (t : Time) : Int := wrapInt64 (t.unixSec * 1000000000 + t.nsec)

/-- Go `t.Sub(u)`: the duration `t-u` in nanoseconds, saturated at
`minDuration` and `maxDuration`.  The difference is computed in `int64`
arithmetic and checked by adding it back to `u`. -/
def Sub (t u : Time) : Int :=
  if t.hasMono && u.hasMono then
    let te := t.ext
    let ue := u.ext
    let d := wrapInt64 (te - ue)
    if d < 0 ∧ te > ue then maxDuration
    else if d > 0 ∧ te < ue then minDuration
    else d
  else
    let d := wrapInt64 ((t.sec - u.sec) * Second + (t.nsec - u.nsec))
    if (u.Add d).Equal t then d
    else if t.Before u then minDuration
    else maxDuration

end Time

end time

/-! ## Packages `strconv`, `fmt` and `strings` -/

namespace strconv

/-- Go `strconv.Itoa(i)`: the decimal digits of `i`, after a minus sign when
`i` is negative. -/
def Itoa (i : Int) : List Nat :=
  let ds := (time.revDigits 20 i.natAbs).reverse
  if i < 0 then 45 :: ds else ds

end strconv

namespace fmt

/-- Go `fmt`: the verb `%0<wid>d` applied to an integer (`fmtInteger` in base
ten with the zero flag and a width; `wid = 0` is the plain verb `%d`).  The
digits are padded with zeros up to the width, less one when a sign is
written. -/
def fmtInteger (v : Int) (wid : Nat) : List Nat :=
  let negative := decide (v < 0)
  let prec := if negative then wid - 1 else wid
  let ds := (time.revDigits 20 v.natAbs).reverse
  let ds := List.replicate (prec - ds.length) 48 ++ ds
  if negative then 45 :: ds else ds

end fmt

namespace strings

/-- Go `strings.Replace(s, old, "", 1)` for a one-byte `old`: the first
occurrence of the byte is removed. -/
def Replace (s : List Nat) (old : Nat) : List Nat :=
  match s with
  | [] => []
  | c :: r => if c = old then r else c :: Replace r old

end strings

/-! ## Package `localTime`: day and week bounds, Unix readings, formatters -/

namespace localTime

/-- Go `StartTimeOfDate(t)`. -/
def StartTimeOfDate (t : Time) : Time :=
  let d := t.std
  ⟨time.Date d.Year d.Month d.Day 0 0 0 0 d.Location⟩

/-- Go `EndTimeOfDate(t)`. -/
def EndTimeOfDate (t : Time) : Time :=
  let d := t.std
  ⟨time.Date d.Year d.Month d.Day 23 59 59 0 d.Location⟩

/-- Go `StartTimeOfWeek(t)`; `time.Monday` is 1. -/
def StartTimeOfWeek (t : Time) : Time :=
  let d := t.std
  let offset := 1 - d.Weekday
  let offset := if offset > 0 then -6 else offset
  ⟨(time.Date d.Year d.Month d.Day 23 59 59 0 d.Location).AddDate 0 0 offset⟩

/-- Go `EndTimeOfWeek(t)`. -/
def EndTimeOfWeek (t : Time) : Time :=
  let d := t.std
  let offset := 7 - d.Weekday
  let offset := if offset = 7 then 0 else offset
  ⟨(time.Date d.Year d.Month d.Day 0 0 0 0 d.Location).AddDate 0 0 offset⟩

/-- Go `(t Time) Sub(u)`. -/
def Time.Sub (t u : Time) : Int := t.std.Sub u.std

/-- Go `(t Time) Unix()`. -/
def Time.Unix (t : Time) : Int := t.std.Unix

/-- Go `(t Time) UnixNano()`. -/
def Time.UnixNano (t : Time) : Int := t.std.UnixNano

/-- Go `(t Time) UnixMillisecond()`: `UnixNano() / int64(time.Millisecond)`;
Go's integer division truncates towards zero. -/
def Time.UnixMillisecond (t : Time) : Int := t.std.UnixNano.tdiv time.Millisecond

/-- Go `(t Time) StringMillisecond()`. -/
def Time.StringMillisecond (t : Time) : List Nat :=
  t.Format (Layout ++ time.bytes ".000")

/-- Go `(t Time) Date()`. -/
def Time.Date (t : Time) : List Nat :=
  if t.reflectIsZero then []
  else t.Format (time.bytes "2006-01-02")

/-- Go `(t Time) Month()`. -/
def Time.Month (t : Time) : List Nat :=
  if t.reflectIsZero then []
  else t.Format (time.bytes "2006-01")

/-- Go `(t Time) Week()`; the text is `fmt.Sprintf("%d-%02d", y, w)`. -/
def Time.Week (t : Time) : List Nat :=
  if t.reflectIsZero then []
  else
    let yw := t.std.ISOWeek
    fmt.fmtInteger yw.1 0 ++ time.bytes "-" ++ fmt.fmtInteger yw.2 2

/-- Go `(t Time) Year()`. -/
def Time.Year (t : Time) : List Nat :=
  if t.reflectIsZero then []
  else strconv.Itoa t.std.Year

/-- Go `(t Time) TimeMillisecond()`. -/
def Time.TimeMillisecond (t : Time) : List Nat :=
  if t.reflectIsZero then []
  else t.Format (time.bytes "15:04:05.000")

/-- Go `(t Time) RFC3339()`. -/
def Time.RFC3339 (t : Time) : List Nat :=
  if t.reflectIsZero then []
  else t.Format (time.bytes "2006-01-02T15:04:05Z07:00")

/-- Go `(t Time) CompactMillisecond()`. -/
def Time.CompactMillisecond (t : Time) : List Nat :=
  if t.reflectIsZero then []
  else strings.Replace (t.Format (time.bytes "20060102150405.000")) 46

/-- Go `(t Time) Time()`. -/
def Time.Time (t : Time) : List Nat :=
  if t.reflectIsZero then []
  else t.Format (time.bytes "15:04:05")

end localTime

/-! ## Calendar lemmas -/

namespace time

theorem isLeap_iff (y : Int) : isLeap y = true ↔ (y % 4 = 0 ∧ (y % 100 ≠ 0 ∨ y % 400 = 0)) := by
  simp [isLeap]

/-- Decomposition of a year count into 400/100/4/1-year cycles. -/
theorem cycles_exist (Y : Int) : ∃ a b c e : Int, Y = 400 * a + 100 * b + 4 * c + e ∧
    0 ≤ b ∧ b < 4 ∧ 0 ≤ c ∧ c < 25 ∧ 0 ≤ e ∧ e < 4 :=
  ⟨Y / 400, Y % 400 / 100, Y % 100 / 4, Y % 4, by omega, by omega, by omega, by omega, by omega,
    by omega, by omega⟩

theorem daysSinceEpochZ_cycles (y a b c e : Int) (hY : y - absoluteZeroYear = 400 * a + 100 * b + 4 * c + e)
    (hb0 : 0 ≤ b) (hb : b < 4) (hc0 : 0 ≤ c) (hc : c < 25) (he0 : 0 ≤ e) (he : e < 4) :
    daysSinceEpochZ y = 146097 * a + 36524 * b + 1461 * c + 365 * e := by
  simp only [daysSinceEpochZ, daysPer400Years, daysPer100Years, daysPer4Years]
  rw [hY]
  have h1 : (400 * a + 100 * b + 4 * c + e) / 400 = a := by omega
  rw [h1]
  have h2 : (400 * a + 100 * b + 4 * c + e - 400 * a) / 100 = b := by omega
  rw [h2]
  have h3 : (400 * a + 100 * b + 4 * c + e - 400 * a - 100 * b) / 4 = c := by omega
  rw [h3]
  omega

theorem isLeap_cycles (y a b c e : Int) (hY : y - absoluteZeroYear = 400 * a + 100 * b + 4 * c + e)
    (hb0 : 0 ≤ b) (hb : b < 4) (hc0 : 0 ≤ c) (hc : c < 25) (he0 : 0 ≤ e) (he : e < 4) :
    isLeap y = true ↔ (e = 3 ∧ (c ≠ 24 ∨ b = 3)) := by
  rw [isLeap_iff]
  simp only [absoluteZeroYear] at hY
  constructor
  · intro h; omega
  · intro h; omega


theorem absDateYear_cycles (a b c e k : Int)
    (hb0 : 0 ≤ b) (hb : b < 4) (hc0 : 0 ≤ c) (hc : c < 25) (he0 : 0 ≤ e) (he : e < 4)
    (hk0 : 0 ≤ k) (hk : k < 366) (hk' : k = 365 → (e = 3 ∧ (c ≠ 24 ∨ b = 3))) :
    absDateYear (146097 * a + 36524 * b + 1461 * c + 365 * e + k)
      = (400 * a + 100 * b + 4 * c + e, k) := by
  simp only [absDateYear, daysPer400Years, daysPer100Years, daysPer4Years]
  have h1 : (146097 * a + 36524 * b + 1461 * c + 365 * e + k) / 146097 = a := by omega
  rw [h1]
  have h2 : (146097 * a + 36524 * b + 1461 * c + 365 * e + k - 146097 * a) / 36524
      - (146097 * a + 36524 * b + 1461 * c + 365 * e + k - 146097 * a) / 36524 / 4 = b := by
    have hb' : b = 0 ∨ b = 1 ∨ b = 2 ∨ b = 3 := by omega
    rcases hb' with rfl | rfl | rfl | rfl <;> omega
  rw [h2]
  have h3 : (146097 * a + 36524 * b + 1461 * c + 365 * e + k - 146097 * a - 36524 * b) / 1461 = c := by
    omega
  rw [h3]
  have h4 : (146097 * a + 36524 * b + 1461 * c + 365 * e + k - 146097 * a - 36524 * b - 1461 * c) / 365
     - (146097 * a + 36524 * b + 1461 * c + 365 * e + k - 146097 * a - 36524 * b - 1461 * c) / 365 / 4 = e := by
    have he' : e = 0 ∨ e = 1 ∨ e = 2 ∨ e = 3 := by omega
    rcases he' with rfl | rfl | rfl | rfl <;> omega
  rw [h4]
  simp only [Prod.mk.injEq, true_and]
  omega

/-- Year recovery: a day `k` of year `y` is decoded as `(y, k)`. -/
theorem absDateYear_of (y k : Int) (hk0 : 0 ≤ k) (hk : k < daysInYear y) :
    absDateYear (daysSinceEpochZ y + k) = (y - absoluteZeroYear, k) := by
  obtain ⟨a, b, c, e, hY, hb0, hb, hc0, hc, he0, he⟩ := cycles_exist (y - absoluteZeroYear)
  rw [daysSinceEpochZ_cycles y a b c e hY hb0 hb hc0 hc he0 he, hY]
  have hl := isLeap_cycles y a b c e hY hb0 hb hc0 hc he0 he
  apply absDateYear_cycles a b c e k hb0 hb hc0 hc he0 he hk0
  · simp only [daysInYear] at hk; split at hk <;> omega
  · intro h365
    by_cases h : isLeap y = true
    · exact hl.1 h
    · simp only [daysInYear, h] at hk; simp at hk; omega

/-- Decomposition of a day count into cycles and a day of the year. -/
theorem day_cycles_exist (d : Int) : ∃ a b c e k : Int,
    d = 146097 * a + 36524 * b + 1461 * c + 365 * e + k ∧
    0 ≤ b ∧ b < 4 ∧ 0 ≤ c ∧ c < 25 ∧ 0 ≤ e ∧ e < 4 ∧ 0 ≤ k ∧ k < 366 ∧
    (k = 365 → (e = 3 ∧ (c ≠ 24 ∨ b = 3))) := by
  obtain ⟨b, r1, h1, hb0, hb, hr10, hr1⟩ : ∃ b r1 : Int, d % 146097 = 36524 * b + r1 ∧ 0 ≤ b ∧ b < 4 ∧
      0 ≤ r1 ∧ (r1 < 36524 ∨ (b = 3 ∧ r1 = 36524)) := by
    by_cases h : d % 146097 < 146096
    · exact ⟨d % 146097 / 36524, d % 146097 % 36524, by omega, by omega, by omega, by omega,
        by omega⟩
    · exact ⟨3, 36524, by omega, by omega, by omega, by omega, by omega⟩
  obtain ⟨c, r2, h2, hc0, hc, hr20, hr2, hr2'⟩ : ∃ c r2 : Int, r1 = 1461 * c + r2 ∧ 0 ≤ c ∧ c < 25 ∧
      0 ≤ r2 ∧ r2 < 1461 ∧ (r2 = 1460 → (c ≠ 24 ∨ b = 3)) :=
    ⟨r1 / 1461, r1 % 1461, by omega, by omega, by omega, by omega, by omega, by omega⟩
  obtain ⟨e, k, h3, he0, he, hk0, hk, hk'⟩ : ∃ e k : Int, r2 = 365 * e + k ∧ 0 ≤ e ∧ e < 4 ∧
      0 ≤ k ∧ k < 366 ∧ (k = 365 → (e = 3 ∧ r2 = 1460)) := by
    by_cases h : r2 < 1460
    · exact ⟨r2 / 365, r2 % 365, by omega, by omega, by omega, by omega, by omega, by omega⟩
    · exact ⟨3, 365, by omega, by omega, by omega, by omega, by omega, by omega⟩
  refine ⟨d / 146097, b, c, e, k, by omega, hb0, hb, hc0, hc, he0, he, hk0, hk, ?_⟩
  intro h
  exact ⟨(hk' h).1, hr2' (hk' h).2⟩

/-- Every day count is a day `k` of some year `y`. -/
theorem absDateYear_spec (d : Int) :
    daysSinceEpochZ ((absDateYear d).1 + absoluteZeroYear) + (absDateYear d).2 = d ∧
    0 ≤ (absDateYear d).2 ∧ (absDateYear d).2 < daysInYear ((absDateYear d).1 + absoluteZeroYear) := by
  obtain ⟨a, b, c, e, k, hd, hb0, hb, hc0, hc, he0, he, hk0, hk, hk'⟩ := day_cycles_exist d
  have hyd := absDateYear_cycles a b c e k hb0 hb hc0 hc he0 he hk0 hk hk'
  rw [← hd] at hyd
  rw [hyd]
  simp only
  have hY : (400 * a + 100 * b + 4 * c + e + absoluteZeroYear) - absoluteZeroYear
      = 400 * a + 100 * b + 4 * c + e := by omega
  rw [daysSinceEpochZ_cycles _ a b c e hY hb0 hb hc0 hc he0 he]
  have hl := isLeap_cycles _ a b c e hY hb0 hb hc0 hc he0 he
  refine ⟨by omega, hk0, ?_⟩
  simp only [daysInYear]
  split
  · omega
  · rename_i h
    have : k ≠ 365 := fun h365 => h (hl.2 (hk' h365))
    omega


theorem daysBefore_vals : daysBefore 0 = 0 ∧ daysBefore 1 = 31 ∧ daysBefore 2 = 59 ∧
    daysBefore 3 = 90 ∧ daysBefore 4 = 120 ∧ daysBefore 5 = 151 ∧ daysBefore 6 = 181 ∧
    daysBefore 7 = 212 ∧ daysBefore 8 = 243 ∧ daysBefore 9 = 273 ∧ daysBefore 10 = 304 ∧
    daysBefore 11 = 334 ∧ daysBefore 12 = 365 := by
  refine ⟨?_, ?_, ?_, ?_, ?_, ?_, ?_, ?_, ?_, ?_, ?_, ?_, ?_⟩ <;> rfl

theorem monthEstimate_spec (d : Int) (h0 : 0 ≤ d) (h : d < 365) :
    1 ≤ (monthEstimate d).1 ∧ (monthEstimate d).1 ≤ 12 ∧ 1 ≤ (monthEstimate d).2 ∧
    (monthEstimate d).2 ≤ daysBefore (monthEstimate d).1 - daysBefore ((monthEstimate d).1 - 1) ∧
    d = daysBefore ((monthEstimate d).1 - 1) + ((monthEstimate d).2 - 1) := by
  obtain ⟨v0, v1, v2, v3, v4, v5, v6, v7, v8, v9, v10, v11, v12⟩ := daysBefore_vals
  have hq : d / 31 = 0 ∨ d / 31 = 1 ∨ d / 31 = 2 ∨ d / 31 = 3 ∨ d / 31 = 4 ∨ d / 31 = 5 ∨
      d / 31 = 6 ∨ d / 31 = 7 ∨ d / 31 = 8 ∨ d / 31 = 9 ∨ d / 31 = 10 ∨ d / 31 = 11 := by omega
  simp only [monthEstimate]
  rcases hq with q | q | q | q | q | q | q | q | q | q | q | q <;> rw [q] <;>
    (try norm_num) <;>
    (try simp only [v0, v1, v2, v3, v4, v5, v6, v7, v8, v9, v10, v11, v12]) <;>
    split <;> (try norm_num) <;>
    (try simp only [v0, v1, v2, v3, v4, v5, v6, v7, v8, v9, v10, v11, v12]) <;> (try simp only [and_true, true_and]) <;> omega

theorem monthEstimate_of (m day : Int) (hm1 : 1 ≤ m) (hm : m ≤ 12)
    (hd1 : 1 ≤ day) (hd : day ≤ daysBefore m - daysBefore (m - 1)) :
    monthEstimate (daysBefore (m - 1) + (day - 1)) = (m, day) := by
  obtain ⟨v0, v1, v2, v3, v4, v5, v6, v7, v8, v9, v10, v11, v12⟩ := daysBefore_vals
  have hm' : m = 1 ∨ m = 2 ∨ m = 3 ∨ m = 4 ∨ m = 5 ∨ m = 6 ∨ m = 7 ∨ m = 8 ∨ m = 9 ∨ m = 10 ∨
      m = 11 ∨ m = 12 := by omega
  have key : ∀ d, 0 ≤ d → d < 365 → d = daysBefore (m - 1) + (day - 1) → monthEstimate d = (m, day) := by
    intro d h0 h hdd
    obtain ⟨s1, s2, s3, s4, s5⟩ := monthEstimate_spec d h0 h
    generalize (monthEstimate d) = r at *
    obtain ⟨m2, day2⟩ := r
    simp only at s1 s2 s3 s4 s5
    have hm2 : m2 = 1 ∨ m2 = 2 ∨ m2 = 3 ∨ m2 = 4 ∨ m2 = 5 ∨ m2 = 6 ∨ m2 = 7 ∨ m2 = 8 ∨ m2 = 9 ∨
      m2 = 10 ∨ m2 = 11 ∨ m2 = 12 := by omega
    rcases hm' with rfl | rfl | rfl | rfl | rfl | rfl | rfl | rfl | rfl | rfl | rfl | rfl <;>
      norm_num at hd hdd <;>
      simp only [v0, v1, v2, v3, v4, v5, v6, v7, v8, v9, v10, v11, v12] at hd hdd <;>
      rcases hm2 with rfl | rfl | rfl | rfl | rfl | rfl | rfl | rfl | rfl | rfl | rfl | rfl <;>
      norm_num at s4 s5 <;>
      simp only [v0, v1, v2, v3, v4, v5, v6, v7, v8, v9, v10, v11, v12] at s4 s5 <;>
      first | (exfalso; omega) | (simp only [Prod.mk.injEq, true_and]; omega)
  apply key _ _ _ rfl
  · rcases hm' with rfl | rfl | rfl | rfl | rfl | rfl | rfl | rfl | rfl | rfl | rfl | rfl <;>
      norm_num <;> simp only [v0, v1, v2, v3, v4, v5, v6, v7, v8, v9, v10, v11, v12] <;> omega
  · rcases hm' with rfl | rfl | rfl | rfl | rfl | rfl | rfl | rfl | rfl | rfl | rfl | rfl <;>
      norm_num at hd ⊢ <;> simp only [v0, v1, v2, v3, v4, v5, v6, v7, v8, v9, v10, v11, v12] at hd ⊢ <;> omega


end time

/-! ## Month and day of the month -/

namespace time

theorem daysIn_eq (m y : Int) : daysIn m y = monthLen (isLeap y) m := rfl

theorem absDateMonth_eq (leap : Bool) (yday : Int) :
    absDateMonth leap yday =
      if leap && yday = 59 then (2, 29)
      else monthEstimate (if leap && yday > 59 then yday - 1 else yday) := by
  unfold absDateMonth monthEstimate
  rfl

theorem monthLen_pos (leap : Bool) (m : Int) (hm1 : 1 ≤ m) (hm : m ≤ 12) :
    28 ≤ monthLen leap m ∧ monthLen leap m ≤ 31 := by
  obtain ⟨v0, v1, v2, v3, v4, v5, v6, v7, v8, v9, v10, v11, v12⟩ := daysBefore_vals
  have hm' : m = 1 ∨ m = 2 ∨ m = 3 ∨ m = 4 ∨ m = 5 ∨ m = 6 ∨ m = 7 ∨ m = 8 ∨ m = 9 ∨ m = 10 ∨
      m = 11 ∨ m = 12 := by omega
  cases leap <;>
  rcases hm' with rfl | rfl | rfl | rfl | rfl | rfl | rfl | rfl | rfl | rfl | rfl | rfl <;>
    simp [monthLen, v0, v1, v2, v3, v4, v5, v6, v7, v8, v9, v10, v11, v12]

/-- The day of the year of a valid date lies within the year. -/
theorem yearDayOf_bounds (leap : Bool) (m day : Int) (hm1 : 1 ≤ m) (hm : m ≤ 12)
    (hd1 : 1 ≤ day) (hd : day ≤ monthLen leap m) :
    0 ≤ yearDayOf leap m day ∧ yearDayOf leap m day < (if leap then 366 else 365) := by
  obtain ⟨v0, v1, v2, v3, v4, v5, v6, v7, v8, v9, v10, v11, v12⟩ := daysBefore_vals
  have hm' : m = 1 ∨ m = 2 ∨ m = 3 ∨ m = 4 ∨ m = 5 ∨ m = 6 ∨ m = 7 ∨ m = 8 ∨ m = 9 ∨ m = 10 ∨
      m = 11 ∨ m = 12 := by omega
  cases leap <;>
  rcases hm' with rfl | rfl | rfl | rfl | rfl | rfl | rfl | rfl | rfl | rfl | rfl | rfl <;>
    simp [monthLen, v0, v1, v2, v3, v4, v5, v6, v7, v8, v9, v10, v11, v12] at hd <;>
    simp [yearDayOf, v0, v1, v2, v3, v4, v5, v6, v7, v8, v9, v10, v11, v12] <;> omega

theorem absDateMonth_of (leap : Bool) (m day : Int) (hm1 : 1 ≤ m) (hm : m ≤ 12)
    (hd1 : 1 ≤ day) (hd : day ≤ monthLen leap m) :
    absDateMonth leap (yearDayOf leap m day) = (m, day) := by
  obtain ⟨v0, v1, v2, v3, v4, v5, v6, v7, v8, v9, v10, v11, v12⟩ := daysBefore_vals
  rw [absDateMonth_eq]
  cases leap
  · -- common year
    have hd' : day ≤ daysBefore m - daysBefore (m - 1) := by
      simpa [monthLen] using hd
    simp only [Bool.false_and, Bool.false_eq_true, ↓reduceIte, yearDayOf]
    exact monthEstimate_of m day hm1 hm hd1 hd'
  · -- leap year
    by_cases h2 : m = 2
    · subst h2
      have hd' : day ≤ 29 := by simpa [monthLen] using hd
      by_cases h29 : day = 29
      · subst h29
        simp [yearDayOf, v1]
      · have hd'' : day ≤ daysBefore 2 - daysBefore (2 - 1) := by
          norm_num; rw [v1, v2]; omega
        have := monthEstimate_of 2 day (by omega) (by omega) hd1 hd''
        norm_num at this
        rw [v1] at this
        simp only [yearDayOf, Bool.true_and]
        norm_num
        rw [v1]
        have e1 : ¬ (31 + (day - 1) = 59) := by omega
        have e2 : ¬ (59 < 31 + (day - 1)) := by omega
        simp only [e1, e2, ↓reduceIte]
        exact this
    · have hd' : day ≤ daysBefore m - daysBefore (m - 1) := by
        simpa [monthLen, h2] using hd
      have hme := monthEstimate_of m day hm1 hm hd1 hd'
      by_cases h1 : m = 1
      · subst h1
        norm_num at hd' hme
        rw [v0] at hme
        rw [v0, v1] at hd'
        simp only [yearDayOf, Bool.true_and]
        norm_num
        rw [v0]
        have e1 : ¬ (0 + (day - 1) = 59) := by omega
        have e2 : ¬ (59 < 0 + (day - 1)) := by omega
        simp only [e1, e2, ↓reduceIte]
        exact hme
      · have hm3 : 3 ≤ m := by omega
        have hb : 59 ≤ daysBefore (m - 1) := by
          have hm' : m = 3 ∨ m = 4 ∨ m = 5 ∨ m = 6 ∨ m = 7 ∨ m = 8 ∨ m = 9 ∨ m = 10 ∨
            m = 11 ∨ m = 12 := by omega
          rcases hm' with rfl | rfl | rfl | rfl | rfl | rfl | rfl | rfl | rfl | rfl <;>
            norm_num <;> simp only [v2, v3, v4, v5, v6, v7, v8, v9, v10, v11] <;> omega
        simp only [yearDayOf, Bool.true_and, ge_iff_le, hm3, decide_True, ↓reduceIte]
        have e1 : ¬ (daysBefore (m - 1) + 1 + (day - 1) = 59) := by omega
        have e2 : (59 < daysBefore (m - 1) + 1 + (day - 1)) := by omega
        simp only [e1, e2, decide_True, decide_False, Bool.false_eq_true, ↓reduceIte]
        have e3 : daysBefore (m - 1) + 1 + (day - 1) - 1 = daysBefore (m - 1) + (day - 1) := by
          omega
        rw [e3]
        exact hme

theorem absDateMonth_spec (leap : Bool) (yday : Int) (h0 : 0 ≤ yday)
    (h : yday < (if leap then 366 else 365)) :
    1 ≤ (absDateMonth leap yday).1 ∧ (absDateMonth leap yday).1 ≤ 12 ∧
    1 ≤ (absDateMonth leap yday).2 ∧
    (absDateMonth leap yday).2 ≤ monthLen leap (absDateMonth leap yday).1 ∧
    yearDayOf leap (absDateMonth leap yday).1 (absDateMonth leap yday).2 = yday := by
  obtain ⟨v0, v1, v2, v3, v4, v5, v6, v7, v8, v9, v10, v11, v12⟩ := daysBefore_vals
  rw [absDateMonth_eq]
  cases leap
  · simp only [Bool.false_eq_true, ↓reduceIte] at h
    obtain ⟨s1, s2, s3, s4, s5⟩ := monthEstimate_spec yday h0 h
    simp only [Bool.false_and, Bool.false_eq_true, ↓reduceIte]
    refine ⟨s1, s2, s3, ?_, ?_⟩
    · simp only [monthLen, Bool.and_false, Bool.false_eq_true, ↓reduceIte]; exact s4
    · simp only [yearDayOf, Bool.false_and, Bool.false_eq_true, ↓reduceIte]; omega
  · simp only [↓reduceIte] at h
    by_cases h59 : yday = 59
    · subst h59
      simp [monthLen, yearDayOf, v1]
    · have e1 : (true && decide (yday = 59)) = false := by simp [h59]
      rw [e1]
      simp only [Bool.false_eq_true, ↓reduceIte, Bool.true_and, decide_eq_true_eq]
      by_cases hgt : yday > 59
      · simp only [hgt, ↓reduceIte]
        obtain ⟨s1, s2, s3, s4, s5⟩ := monthEstimate_spec (yday - 1) (by omega) (by omega)
        generalize monthEstimate (yday - 1) = r at *
        obtain ⟨m, day⟩ := r
        simp only at s1 s2 s3 s4 s5 ⊢
        have hm' : m = 1 ∨ m = 2 ∨ m = 3 ∨ m = 4 ∨ m = 5 ∨ m = 6 ∨ m = 7 ∨ m = 8 ∨ m = 9 ∨
          m = 10 ∨ m = 11 ∨ m = 12 := by omega
        rcases hm' with rfl | rfl | rfl | rfl | rfl | rfl | rfl | rfl | rfl | rfl | rfl | rfl <;>
          norm_num at s4 s5 <;>
          simp only [v0, v1, v2, v3, v4, v5, v6, v7, v8, v9, v10, v11, v12] at s4 s5 <;>
          simp [monthLen, yearDayOf, v0, v1, v2, v3, v4, v5, v6, v7, v8, v9, v10, v11, v12] <;>
          omega
      · simp only [hgt, ↓reduceIte]
        obtain ⟨s1, s2, s3, s4, s5⟩ := monthEstimate_spec yday (by omega) (by omega)
        generalize monthEstimate yday = r at *
        obtain ⟨m, day⟩ := r
        simp only at s1 s2 s3 s4 s5 ⊢
        have hm' : m = 1 ∨ m = 2 ∨ m = 3 ∨ m = 4 ∨ m = 5 ∨ m = 6 ∨ m = 7 ∨ m = 8 ∨ m = 9 ∨
          m = 10 ∨ m = 11 ∨ m = 12 := by omega
        rcases hm' with rfl | rfl | rfl | rfl | rfl | rfl | rfl | rfl | rfl | rfl | rfl | rfl <;>
          norm_num at s4 s5 <;>
          simp only [v0, v1, v2, v3, v4, v5, v6, v7, v8, v9, v10, v11, v12] at s4 s5 <;>
          simp [monthLen, yearDayOf, v0, v1, v2, v3, v4, v5, v6, v7, v8, v9, v10, v11, v12] <;>
          omega

end time

/-! ## `absDate`, `absClock` and `Date` -/

namespace time

/-- A calendar date is valid: month in range, day within the month. -/
theorem yearDayOf_lt_daysInYear (y m day : Int) (hm1 : 1 ≤ m) (hm : m ≤ 12)
    (hd1 : 1 ≤ day) (hd : day ≤ daysIn m y) :
    0 ≤ yearDayOf (isLeap y) m day ∧ yearDayOf (isLeap y) m day < daysInYear y := by
  rw [daysIn_eq] at hd
  have := yearDayOf_bounds (isLeap y) m day hm1 hm hd1 hd
  simp only [daysInYear]
  exact this

/-- Decoding: an absolute time on day `day` of month `m` of year `y` is read
back by `absDate` as that date. -/
theorem absDate_of (abs y m day : Int) (hm1 : 1 ≤ m) (hm : m ≤ 12)
    (hd1 : 1 ≤ day) (hd : day ≤ daysIn m y)
    (hdiv : abs / 86400 = daysSinceEpochZ y + yearDayOf (isLeap y) m day) :
    absDate abs true = (y, m, day, yearDayOf (isLeap y) m day) ∧
    absDate abs false = (y, 0, 0, yearDayOf (isLeap y) m day) := by
  obtain ⟨hk0, hk⟩ := yearDayOf_lt_daysInYear y m day hm1 hm hd1 hd
  have hy := absDateYear_of y _ hk0 hk
  rw [daysIn_eq] at hd
  have hmd := absDateMonth_of (isLeap y) m day hm1 hm hd1 hd
  have e : y - absoluteZeroYear + absoluteZeroYear = y := by omega
  simp only [absDate, secondsPerDay, hdiv, hy, e, hmd]
  simp

/-- Encoding: every absolute time lies on a valid calendar date, whose fields
`absDate` returns. -/
theorem absDate_spec (abs : Int) :
    1 ≤ (absDate abs true).2.1 ∧ (absDate abs true).2.1 ≤ 12 ∧
    1 ≤ (absDate abs true).2.2.1 ∧
    (absDate abs true).2.2.1 ≤ daysIn (absDate abs true).2.1 (absDate abs true).1 ∧
    abs / 86400 = daysSinceEpochZ (absDate abs true).1
      + yearDayOf (isLeap (absDate abs true).1) (absDate abs true).2.1 (absDate abs true).2.2.1 ∧
    (absDate abs false).1 = (absDate abs true).1 := by
  obtain ⟨s1, s2, s3⟩ := absDateYear_spec (abs / 86400)
  simp only [daysInYear] at s3
  obtain ⟨m1, m2, m3, m4, m5⟩ := absDateMonth_spec
    (isLeap ((absDateYear (abs / 86400)).1 + absoluteZeroYear)) (absDateYear (abs / 86400)).2 s2 s3
  simp only [absDate, secondsPerDay, daysIn_eq]
  simp only [Bool.not_true, Bool.false_eq_true, ↓reduceIte, Bool.not_false]
  refine ⟨m1, m2, m3, m4, ?_, trivial⟩
  rw [m5]
  omega

theorem absClock_spec (abs : Int) :
    0 ≤ (absClock abs).1 ∧ (absClock abs).1 < 24 ∧
    0 ≤ (absClock abs).2.1 ∧ (absClock abs).2.1 < 60 ∧
    0 ≤ (absClock abs).2.2 ∧ (absClock abs).2.2 < 60 ∧
    abs % 86400 = (absClock abs).1 * 3600 + (absClock abs).2.1 * 60 + (absClock abs).2.2 := by
  simp only [absClock, secondsPerDay, secondsPerHour, secondsPerMinute]
  refine ⟨?_, ?_, ?_, ?_, ?_, ?_, ?_⟩ <;> omega

theorem absClock_of (abs h mi s : Int) (_hh0 : 0 ≤ h) (_hh : h < 24) (hm0 : 0 ≤ mi) (hm : mi < 60)
    (hs0 : 0 ≤ s) (hs : s < 60) (hmod : abs % 86400 = h * 3600 + mi * 60 + s) :
    absClock abs = (h, mi, s) := by
  simp only [absClock, secondsPerDay, secondsPerHour, secondsPerMinute, hmod]
  have e1 : (h * 3600 + mi * 60 + s) / 3600 = h := by omega
  rw [e1]
  have e2 : (h * 3600 + mi * 60 + s - h * 3600) / 60 = mi := by omega
  rw [e2]
  simp only [Prod.mk.injEq, true_and]
  omega

/-- The absolute time of a date and clock reading splits into day and second
of the day. -/
theorem absOf_div_mod (y m day h mi s : Int) (_hh0 : 0 ≤ h) (_hh : h < 24) (hm0 : 0 ≤ mi)
    (hm : mi < 60) (hs0 : 0 ≤ s) (hs : s < 60) :
    absOf y m day h mi s / 86400 = daysSinceEpochZ y + yearDayOf (isLeap y) m day ∧
    absOf y m day h mi s % 86400 = h * 3600 + mi * 60 + s := by
  simp only [absOf]
  constructor <;> omega

/-- Every absolute time is `absOf` of the fields that `absDate` and `absClock`
return. -/
theorem absOf_absDate (abs : Int) :
    absOf (absDate abs true).1 (absDate abs true).2.1 (absDate abs true).2.2.1
      (absClock abs).1 (absClock abs).2.1 (absClock abs).2.2 = abs := by
  obtain ⟨_, _, _, _, h5, _⟩ := absDate_spec abs
  obtain ⟨_, _, _, _, _, _, c7⟩ := absClock_spec abs
  simp only [absOf]
  rw [← h5]
  omega

end time

/-! ## Instants built by `Date` -/

namespace time

theorem norm_id (hi lo base : Int) (h0 : 0 ≤ lo) (h : lo < base) : norm hi lo base = (hi, lo) := by
  simp only [norm]
  have e1 : ¬ lo < 0 := by omega
  have e2 : ¬ lo ≥ base := by omega
  simp only [e1, e2, ↓reduceIte]

theorem hasMono_of_lt (t : Time) (h : t.wall < 2 ^ 63) : t.hasMono = false := by
  simp only [Time.hasMono]
  have : t.wall / 2 ^ 63 = 0 := Nat.div_eq_of_lt h
  rw [this]
  rfl

/-- Conversion to `int64` leaves a value in range as it is. -/
theorem wrapInt64_of_fits (x : Int) (h0 : -9223372036854775808 ≤ x)
    (h1 : x < 9223372036854775808) : wrapInt64 x = x := by
  unfold wrapInt64
  norm_num
  omega

/-- The result of a conversion to `int64` is an `int64`. -/
theorem wrapInt64_range (x : Int) :
    -9223372036854775808 ≤ wrapInt64 x ∧ wrapInt64 x < 9223372036854775808 := by
  unfold wrapInt64
  norm_num
  omega

/-- The day count of a year grows by 365 or 366 a year. -/
theorem daysSinceEpochZ_bounds (y : Int) (h : absoluteZeroYear ≤ y) :
    365 * (y - absoluteZeroYear) ≤ daysSinceEpochZ y ∧
    daysSinceEpochZ y ≤ 366 * (y - absoluteZeroYear) := by
  obtain ⟨a, b, c, e, hY, hb0, hb, hc0, hc, he0, he⟩ := cycles_exist (y - absoluteZeroYear)
  rw [daysSinceEpochZ_cycles y a b c e hY hb0 hb hc0 hc he0 he, hY]
  have ha : 0 ≤ a := by omega
  constructor <;> omega

/-- For a year within 200 billion years of year 0 the `uint64` arithmetic of
`daysSinceEpoch` does not wrap around. -/
theorem daysSinceEpoch_eq (y : Int) (h0 : -200000000000 ≤ y) (h1 : y ≤ 200000000000) :
    daysSinceEpoch y = daysSinceEpochZ y := by
  have hb := daysSinceEpochZ_bounds y (by simp only [absoluteZeroYear]; omega)
  simp only [absoluteZeroYear] at hb
  have e1 : (y - absoluteZeroYear) % 2 ^ 64 = y - absoluteZeroYear := by
    simp only [absoluteZeroYear]
    norm_num
    omega
  have e2 : daysSinceEpoch y = daysSinceEpochZ y % 2 ^ 64 := by
    simp only [daysSinceEpoch, daysSinceEpochZ, e1]
  rw [e2]
  norm_num
  omega

/-- A location without transitions answers every lookup with its offset. -/
theorem lookup_fixed (loc : Location) (hfix : loc.Fixed) (sec : Int) :
    loc.lookup sec = (loc.fixedOffset, alpha, omega) := by
  cases loc with
  | utcLoc => rfl
  | fixed n o => rfl
  | zoned n z t => exact absurd hfix (by simp [Location.Fixed])

/-- The offset of a location without transitions is in the `int32` range. -/
theorem fixedOffset_range (loc : Location) (hfix : loc.Fixed) :
    -2147483648 ≤ loc.fixedOffset ∧ loc.fixedOffset ≤ 2147483647 := by
  cases loc with
  | utcLoc => simp [Location.fixedOffset]
  | fixed n o => exact hfix
  | zoned n z t => exact absurd hfix (by simp [Location.Fixed])

theorem unixTime_setLoc (u ns : Int) (l : Option Location) (loc : Location) (hn0 : 0 ≤ ns)
    (hn : ns < 1000000000) (hu0 : -9223372098990372608 ≤ u) (hu1 : u < 9223371974719179008) :
    (unixTime u ns l).setLoc loc =
      ⟨ns.toNat, u + unixToInternal, if loc = Location.utcLoc then none else some loc⟩ := by
  have hw : (unixTime u ns l).hasMono = false := by
    apply hasMono_of_lt
    simp only [unixTime]
    omega
  have he : wrapInt64 (u + unixToInternal) = u + unixToInternal := by
    apply wrapInt64_of_fits <;> simp only [unixToInternal] <;> omega
  simp only [Time.setLoc, Time.stripMono, hw, Bool.false_eq_true, ↓reduceIte]
  simp only [unixTime, he]

/-- Bounds of the absolute seconds of a date whose year is within 200 billion
years of year 0 and whose day argument is within a thousand days. -/
theorem absOf_bounds (y m d h mi s : Int) (hm1 : 1 ≤ m) (hm : m ≤ 12) (hh0 : 0 ≤ h)
    (hh : h < 24) (hmi0 : 0 ≤ mi) (hmi : mi < 60) (hs0 : 0 ≤ s) (hs : s < 60)
    (hy0 : -200000000000 ≤ y) (hy1 : y ≤ 200000000000) (hd0 : -1000 ≤ d) (hd1 : d ≤ 1000) :
    2900000000000000000 ≤ absOf y m d h mi s ∧ absOf y m d h mi s ≤ 15600000000000000000 ∧
    0 ≤ daysSinceEpochZ y + yearDayOf (isLeap y) m d ∧
    daysSinceEpochZ y + yearDayOf (isLeap y) m d ≤ 180555555555555 := by
  have hb := daysSinceEpochZ_bounds y (by simp only [absoluteZeroYear]; omega)
  simp only [absoluteZeroYear] at hb
  obtain ⟨v0, v1, v2, v3, v4, v5, v6, v7, v8, v9, v10, v11, v12⟩ := daysBefore_vals
  have hyd : -1001 ≤ yearDayOf (isLeap y) m d ∧ yearDayOf (isLeap y) m d ≤ 1400 := by
    have hm' : m = 1 ∨ m = 2 ∨ m = 3 ∨ m = 4 ∨ m = 5 ∨ m = 6 ∨ m = 7 ∨ m = 8 ∨ m = 9 ∨
      m = 10 ∨ m = 11 ∨ m = 12 := by omega
    rcases hm' with rfl | rfl | rfl | rfl | rfl | rfl | rfl | rfl | rfl | rfl | rfl | rfl <;>
      cases isLeap y <;>
      simp [yearDayOf, v0, v1, v2, v3, v4, v5, v6, v7, v8, v9, v10, v11] <;> omega
  simp only [absOf]
  refine ⟨?_, ?_, ?_, ?_⟩ <;> omega

/-- The instant that `Date` builds in a location without transitions from
fields already in range (the day may be any integer within a thousand days),
for a year within 200 billion years of year 0. -/
theorem Date_eq (y m d h mi s ns : Int) (loc : Location) (hm1 : 1 ≤ m) (hm : m ≤ 12)
    (hh0 : 0 ≤ h) (hh : h < 24) (hmi0 : 0 ≤ mi) (hmi : mi < 60) (hs0 : 0 ≤ s) (hs : s < 60)
    (hn0 : 0 ≤ ns) (hn : ns < 1000000000) (hfix : loc.Fixed)
    (hy0 : -200000000000 ≤ y) (hy1 : y ≤ 200000000000) (hd0 : -1000 ≤ d) (hd1 : d ≤ 1000) :
    Date y m d h mi s ns loc =
      ⟨ns.toNat, absOf y m d h mi s + absoluteToInternal - loc.fixedOffset,
        if loc = Location.utcLoc then none else some loc⟩ := by
  have n1 : norm y (m - 1) 12 = (y, m - 1) := norm_id _ _ _ (by omega) (by omega)
  have n2 : norm s ns 1000000000 = (s, ns) := norm_id _ _ _ hn0 hn
  have n3 : norm mi s 60 = (mi, s) := norm_id _ _ _ hs0 hs
  have n4 : norm h mi 60 = (h, mi) := norm_id _ _ _ hmi0 hmi
  have n5 : norm d h 24 = (d, h) := norm_id _ _ _ hh0 hh
  obtain ⟨b1, b2, b3, b4⟩ := absOf_bounds y m d h mi s hm1 hm hh0 hh hmi0 hmi hs0 hs hy0 hy1
    hd0 hd1
  obtain ⟨o1, o2⟩ := fixedOffset_range loc hfix
  have e : m - 1 + 1 = m := by omega
  -- the day count and the absolute seconds do not wrap around
  have hd : ((if (isLeap y && decide (m ≥ 3)) = true then
        daysSinceEpoch y + daysBefore (m - 1) + 1
      else daysSinceEpoch y + daysBefore (m - 1)) + (d - 1)) % 2 ^ 64
      = daysSinceEpochZ y + yearDayOf (isLeap y) m d := by
    rw [daysSinceEpoch_eq y hy0 hy1]
    have : (if (isLeap y && decide (m ≥ 3)) = true then
        daysSinceEpochZ y + daysBefore (m - 1) + 1
      else daysSinceEpochZ y + daysBefore (m - 1)) + (d - 1)
        = daysSinceEpochZ y + yearDayOf (isLeap y) m d := by
      simp only [yearDayOf]
      split <;> omega
    rw [this]
    norm_num
    omega
  have habs : ((daysSinceEpochZ y + yearDayOf (isLeap y) m d) * secondsPerDay
      + (h * secondsPerHour + mi * secondsPerMinute + s)) % 2 ^ 64 = absOf y m d h mi s := by
    simp only [absOf, secondsPerDay, secondsPerHour, secondsPerMinute] at b1 b2 ⊢
    norm_num
    omega
  have hunix : wrapInt64 (absOf y m d h mi s + (absoluteToInternal + internalToUnix))
      = absOf y m d h mi s + (absoluteToInternal + internalToUnix) := by
    apply wrapInt64_of_fits <;> simp only [absoluteToInternal, internalToUnix] <;> omega
  have hl := lookup_fixed loc hfix
  have hoff : wrapInt64 (absOf y m d h mi s + (absoluteToInternal + internalToUnix)
      - loc.fixedOffset)
      = absOf y m d h mi s + (absoluteToInternal + internalToUnix) - loc.fixedOffset := by
    apply wrapInt64_of_fits <;> simp only [absoluteToInternal, internalToUnix] <;> omega
  have hper : ¬ (absOf y m d h mi s + (absoluteToInternal + internalToUnix) - loc.fixedOffset
        < alpha ∨
      absOf y m d h mi s + (absoluteToInternal + internalToUnix) - loc.fixedOffset ≥ omega) := by
    simp only [alpha, omega, absoluteToInternal, internalToUnix]
    norm_num
    omega
  simp only [Date, n1, n2, n3, n4, n5, e, hd, habs, hunix, hl, hoff, hper, ↓reduceIte]
  have hfin : (if loc.fixedOffset ≠ 0 then
        absOf y m d h mi s + (absoluteToInternal + internalToUnix) - loc.fixedOffset
      else absOf y m d h mi s + (absoluteToInternal + internalToUnix))
      = absOf y m d h mi s + (absoluteToInternal + internalToUnix) - loc.fixedOffset := by
    split
    · rfl
    · rename_i h0
      have : loc.fixedOffset = 0 := by simpa using h0
      omega
  rw [hfin, unixTime_setLoc _ _ _ _ hn0 hn (by
    simp only [absoluteToInternal, internalToUnix]; omega) (by
    simp only [absoluteToInternal, internalToUnix]; omega)]
  simp only [internalToUnix, unixToInternal, absoluteToInternal]
  congr 1
  omega

/-- The Unix seconds of an instant whose seconds do not wrap around. -/
theorem unixSec_eq (t : Time) (h0 : -9223371974000000000 ≤ t.sec)
    (h1 : t.sec ≤ 9223372036000000000) : t.unixSec = t.sec + internalToUnix := by
  simp only [Time.unixSec]
  apply wrapInt64_of_fits <;> simp only [internalToUnix] <;> omega

/-- The absolute seconds of an instant in a location without transitions,
away from the ends of the `int64` range. -/
theorem abs_eq (t : Time) (hfix : t.Location.Fixed) (h0 : -9223371960000000000 ≤ t.sec)
    (h1 : t.sec ≤ 9223372036000000000) :
    t.abs = t.sec + t.Location.fixedOffset + internalToAbsolute := by
  obtain ⟨o1, o2⟩ := fixedOffset_range _ hfix
  have hu := unixSec_eq t (by omega) h1
  have hw : wrapInt64 (t.sec + internalToUnix + t.Location.fixedOffset)
      = t.sec + internalToUnix + t.Location.fixedOffset := by
    apply wrapInt64_of_fits <;> simp only [internalToUnix] <;> omega
  simp only [Time.abs, hu, lookup_fixed _ hfix, hw]
  simp only [internalToUnix, unixToInternal, internalToAbsolute]
  norm_num
  omega

/-- The absolute seconds of any instant are a `uint64`. -/
theorem abs_range (t : Time) : 0 ≤ t.abs ∧ t.abs < 18446744073709551616 := by
  simp only [Time.abs]
  norm_num
  omega

theorem sec_of_lt (t : Time) (h : t.wall < 2 ^ 63) : t.sec = t.ext := by
  simp only [Time.sec, hasMono_of_lt t h, Bool.false_eq_true, ↓reduceIte]

/-- The year count of a non-negative day number. -/
theorem absDateYear_bounds (d : Int) (h0 : 0 ≤ d) :
    0 ≤ (absDateYear d).1 ∧ 365 * (absDateYear d).1 ≤ d ∧ d < 366 * ((absDateYear d).1 + 1) := by
  obtain ⟨a, b, c, e, k, hd, hb0, hb, hc0, hc, he0, he, hk0, hk, hk'⟩ := day_cycles_exist d
  rw [hd, absDateYear_cycles a b c e k hb0 hb hc0 hc he0 he hk0 hk hk']
  simp only
  have ha : 0 ≤ a := by omega
  refine ⟨by omega, by omega, by omega⟩

/-- The year of an absolute time within 6 * 10^18 seconds of year 1 is within
200 billion years of year 0 (with room for a year more). -/
theorem year_range (abs : Int) (h0 : 3223371966579724800 ≤ abs)
    (h1 : abs ≤ 15223371966579724800) :
    -199999999990 ≤ (absDate abs true).1 ∧ (absDate abs true).1 ≤ 199999999990 := by
  obtain ⟨y0, y1, y2⟩ := absDateYear_bounds (abs / 86400) (by omega)
  have hy : (absDate abs true).1 = (absDateYear (abs / 86400)).1 + absoluteZeroYear := by
    simp only [absDate, secondsPerDay]
    rfl
  rw [hy]
  simp only [absoluteZeroYear]
  constructor <;> omega

/-- An instant near year 1 in a location without transitions: its absolute
seconds, and the range of its year. -/
theorem Near_abs (t : Time) (hfix : t.Location.Fixed) (hnear : t.Near) :
    t.abs = t.sec + t.Location.fixedOffset + internalToAbsolute ∧
    -199999999990 ≤ (absDate t.abs true).1 ∧ (absDate t.abs true).1 ≤ 199999999990 := by
  obtain ⟨n0, n1⟩ := hnear
  obtain ⟨o1, o2⟩ := fixedOffset_range _ hfix
  have ha := abs_eq t hfix (by omega) (by omega)
  refine ⟨ha, ?_⟩
  apply year_range
  · rw [ha]; simp only [internalToAbsolute]; omega
  · rw [ha]; simp only [internalToAbsolute]; omega

/-- Fields of an instant without nanoseconds or monotonic reading whose
location pointer was stored by `setLoc`, in a location without transitions. -/
theorem mk0_fields (e : Int) (loc : Location) (hfix : loc.Fixed)
    (h0 : -9223371960000000000 ≤ e) (h1 : e ≤ 9223372036000000000) :
    (⟨0, e, if loc = Location.utcLoc then none else some loc⟩ : time.Time).hasMono = false ∧
    (⟨0, e, if loc = Location.utcLoc then none else some loc⟩ : time.Time).sec = e ∧
    (⟨0, e, if loc = Location.utcLoc then none else some loc⟩ : time.Time).nsec = 0 ∧
    (⟨0, e, if loc = Location.utcLoc then none else some loc⟩ : time.Time).Location = loc ∧
    (⟨0, e, if loc = Location.utcLoc then none else some loc⟩ : time.Time).abs
      = e + loc.fixedOffset + internalToAbsolute := by
  have hw : (0 : Nat) < 2 ^ 63 := by norm_num
  have hl : (⟨0, e, if loc = Location.utcLoc then none else some loc⟩ : time.Time).Location
      = loc := by
    by_cases hl : loc = Location.utcLoc
    · simp [time.Time.Location, hl]
    · simp [time.Time.Location, hl]
  have hs := sec_of_lt (⟨0, e, if loc = Location.utcLoc then none else some loc⟩ : time.Time) hw
  refine ⟨hasMono_of_lt _ hw, hs, rfl, hl, ?_⟩
  rw [abs_eq _ (by rw [hl]; exact hfix) (by rw [hs]; exact h0) (by rw [hs]; exact h1), hs, hl]

/-- Fields of a `Date` instant built from fields in range. -/
theorem Date_fields (y m d h mi s ns : Int) (loc : Location) (hm1 : 1 ≤ m) (hm : m ≤ 12)
    (hh0 : 0 ≤ h) (hh : h < 24) (hmi0 : 0 ≤ mi) (hmi : mi < 60) (hs0 : 0 ≤ s) (hs : s < 60)
    (hn0 : 0 ≤ ns) (hn : ns < 1000000000) (hfix : loc.Fixed)
    (hy0 : -200000000000 ≤ y) (hy1 : y ≤ 200000000000) (hd0 : -1000 ≤ d) (hd1 : d ≤ 1000) :
    (Date y m d h mi s ns loc).hasMono = false ∧
    (Date y m d h mi s ns loc).sec = absOf y m d h mi s + absoluteToInternal - loc.fixedOffset ∧
    (Date y m d h mi s ns loc).nsec = ns ∧
    (Date y m d h mi s ns loc).Location = loc ∧
    (Date y m d h mi s ns loc).abs = absOf y m d h mi s := by
  have hD := Date_eq y m d h mi s ns loc hm1 hm hh0 hh hmi0 hmi hs0 hs hn0 hn hfix hy0 hy1 hd0
    hd1
  obtain ⟨b1, b2, _, _⟩ := absOf_bounds y m d h mi s hm1 hm hh0 hh hmi0 hmi hs0 hs hy0 hy1
    hd0 hd1
  obtain ⟨o1, o2⟩ := fixedOffset_range loc hfix
  have hw : (Date y m d h mi s ns loc).wall < 2 ^ 63 := by rw [hD]; simp only; omega
  have hsec := sec_of_lt _ hw
  have hloc : (Date y m d h mi s ns loc).Location = loc := by
    rw [hD]
    simp only [Time.Location]
    by_cases hl : loc = Location.utcLoc
    · simp [hl]
    · simp [hl]
  have hsec' : (Date y m d h mi s ns loc).sec
      = absOf y m d h mi s + absoluteToInternal - loc.fixedOffset := by rw [hsec, hD]
  refine ⟨hasMono_of_lt _ hw, hsec', ?_, hloc, ?_⟩
  · rw [hD]; simp only [Time.nsec]; omega
  · rw [abs_eq _ (by rw [hloc]; exact hfix) (by
      rw [hsec']; simp only [absoluteToInternal]; omega) (by
      rw [hsec']; simp only [absoluteToInternal]; omega), hsec', hloc]
    simp only [absoluteToInternal, internalToAbsolute]
    omega

/-- A month argument one past December rolls into January of the next year. -/
theorem Date_month_succ (y m d h mi s ns : Int) (loc : Location) (hm1 : 1 ≤ m) (hm : m ≤ 12) :
    Date y (m + 1) d h mi s ns loc =
      Date (if m = 12 then y + 1 else y) (if m = 12 then 1 else m + 1) d h mi s ns loc := by
  by_cases h12 : m = 12
  · subst h12
    simp only [↓reduceIte]
    have n1 : norm y (12 + 1 - 1) 12 = (y + 1, 0) := by
      simp only [norm]; norm_num
    have n2 : norm (y + 1) (1 - 1) 12 = (y + 1, 0) := by
      simp only [norm]; norm_num
    simp only [Date, n1, n2]
  · simp only [h12, ↓reduceIte]

theorem daysSinceEpochZ_succ (y : Int) :
    daysSinceEpochZ (y + 1) = daysSinceEpochZ y + daysInYear y := by
  obtain ⟨a, b, c, e, hY, hb0, hb, hc0, hc, he0, he⟩ := cycles_exist (y - absoluteZeroYear)
  have hl := isLeap_cycles y a b c e hY hb0 hb hc0 hc he0 he
  rw [daysSinceEpochZ_cycles y a b c e hY hb0 hb hc0 hc he0 he]
  simp only [daysInYear]
  by_cases h3 : e = 3
  · by_cases h24 : c = 24
    · by_cases hb3 : b = 3
      · have hleap : isLeap y = true := hl.2 ⟨h3, Or.inr hb3⟩
        rw [daysSinceEpochZ_cycles (y + 1) (a + 1) 0 0 0 (by omega) (by omega) (by omega) (by omega)
          (by omega) (by omega) (by omega)]
        simp only [hleap, ↓reduceIte]
        omega
      · have hleap : ¬ isLeap y = true := fun hh => by
          have := hl.1 hh; omega
        rw [daysSinceEpochZ_cycles (y + 1) a (b + 1) 0 0 (by omega) (by omega) (by omega) (by omega)
          (by omega) (by omega) (by omega)]
        simp only [hleap, Bool.false_eq_true, ↓reduceIte]
        omega
    · have hleap : isLeap y = true := hl.2 ⟨h3, Or.inl h24⟩
      rw [daysSinceEpochZ_cycles (y + 1) a b (c + 1) 0 (by omega) (by omega) (by omega) (by omega)
        (by omega) (by omega) (by omega)]
      simp only [hleap, ↓reduceIte]
      omega
  · have hleap : ¬ isLeap y = true := fun hh => by
      have := hl.1 hh; omega
    rw [daysSinceEpochZ_cycles (y + 1) a b c (e + 1) (by omega) (by omega) (by omega) (by omega)
      (by omega) (by omega) (by omega)]
    simp only [hleap, Bool.false_eq_true, ↓reduceIte]
    omega

/-- The first day of the following month comes `daysIn` days after the first
day of a month. -/
theorem absOf_next_month (y m : Int) (hm1 : 1 ≤ m) (hm : m ≤ 12) :
    absOf (if m = 12 then y + 1 else y) (if m = 12 then 1 else m + 1) 1 0 0 0 =
      absOf y m 1 0 0 0 + daysIn m y * 86400 := by
  obtain ⟨v0, v1, v2, v3, v4, v5, v6, v7, v8, v9, v10, v11, v12⟩ := daysBefore_vals
  have hm' : m = 1 ∨ m = 2 ∨ m = 3 ∨ m = 4 ∨ m = 5 ∨ m = 6 ∨ m = 7 ∨ m = 8 ∨ m = 9 ∨ m = 10 ∨
      m = 11 ∨ m = 12 := by omega
  have hs := daysSinceEpochZ_succ y
  simp only [daysInYear] at hs
  rcases hm' with rfl | rfl | rfl | rfl | rfl | rfl | rfl | rfl | rfl | rfl | rfl | rfl <;>
    cases hleap : isLeap y <;>
    simp [absOf, yearDayOf, daysIn, hleap, v0, v1, v2, v3, v4, v5, v6, v7, v8, v9, v10, v11, v12]
      at hs ⊢ <;>
    omega

end time

/-! ## Formatting with the layouts of the package -/

namespace time

theorem appendInt_append (b : List Nat) (x : Int) (w : Nat) :
    appendInt b x w = b ++ appendInt [] x w := by
  simp only [appendInt]
  split <;> simp

theorem appendInt_append2 (b c : List Nat) (x : Int) (w : Nat) :
    appendInt (b ++ c) x w = b ++ c ++ appendInt [] x w := appendInt_append _ _ _

/-- The default layout prints year, month, day, hour, minute and second. -/
theorem Format_Layout (t : Time) :
    t.Format (bytes "2006-01-02 15:04:05") =
      appendInt [] (absDate t.abs true).1 4 ++ [45] ++ appendInt [] (absDate t.abs true).2.1 2
        ++ [45] ++ appendInt [] (absDate t.abs true).2.2.1 2 ++ [32]
        ++ appendInt [] (absClock t.abs).1 2 ++ [58] ++ appendInt [] (absClock t.abs).2.1 2
        ++ [58] ++ appendInt [] (absClock t.abs).2.2 2 := by
  have h : t.Format (bytes "2006-01-02 15:04:05") =
      appendInt (appendInt (appendInt (appendInt (appendInt (appendInt [] (absDate t.abs true).1 4
        ++ [45]) (absDate t.abs true).2.1 2 ++ [45]) (absDate t.abs true).2.2.1 2 ++ [32])
        (absClock t.abs).1 2 ++ [58]) (absClock t.abs).2.1 2 ++ [58]) (absClock t.abs).2.2 2 := by
    rfl
  rw [h]
  simp only [appendInt_append2, List.append_assoc]



theorem revDigits_lt10 (f n : Nat) (h : n < 10) : revDigits (f + 1) n = [48 + n] := by
  simp only [revDigits]
  have : ¬ n ≥ 10 := by omega
  simp only [this, ↓reduceIte]

theorem revDigits_ge10 (f n : Nat) (h : 10 ≤ n) :
    revDigits (f + 1) n = (48 + n % 10) :: revDigits f (n / 10) := by
  simp only [revDigits]
  simp only [ge_iff_le, h, ↓reduceIte]

/-- Two-digit fields. -/
theorem appendInt_two (n : Nat) (h : n < 100) :
    appendInt [] (n : Int) 2 = [48 + n / 10, 48 + n % 10] := by
  have hneg : ¬ ((n : Int) < 0) := by omega
  simp only [appendInt, hneg, ↓reduceIte, Int.natAbs_ofNat, List.nil_append]
  by_cases h10 : n < 10
  · rw [revDigits_lt10 19 n h10]
    have : n / 10 = 0 := by omega
    have : n % 10 = n := by omega
    simp [*, List.replicate]
  · rw [revDigits_ge10 19 n (by omega), revDigits_lt10 18 (n / 10) (by omega)]
    simp

/-- Four-digit fields. -/
theorem appendInt_four (n : Nat) (h : n < 10000) :
    appendInt [] (n : Int) 4 = [48 + n / 1000, 48 + n / 100 % 10, 48 + n / 10 % 10, 48 + n % 10] := by
  have hneg : ¬ ((n : Int) < 0) := by omega
  simp only [appendInt, hneg, ↓reduceIte, Int.natAbs_ofNat, List.nil_append]
  by_cases h10 : n < 10
  · rw [revDigits_lt10 19 n h10]
    have e1 : n / 1000 = 0 := by omega
    have e2 : n / 100 = 0 := by omega
    have e3 : n / 10 = 0 := by omega
    have e4 : n % 10 = n := by omega
    simp [e1, e2, e3, e4, List.replicate]
  · rw [revDigits_ge10 19 n (by omega)]
    by_cases h100 : n < 100
    · rw [revDigits_lt10 18 (n / 10) (by omega)]
      have e1 : n / 1000 = 0 := by omega
      have e2 : n / 100 = 0 := by omega
      have e3 : n / 10 % 10 = n / 10 := by omega
      simp [e1, e2, e3, List.replicate]
    · rw [revDigits_ge10 18 (n / 10) (by omega)]
      by_cases h1000 : n < 1000
      · rw [revDigits_lt10 17 (n / 10 / 10) (by omega)]
        have e1 : n / 1000 = 0 := by omega
        have e2 : n / 100 % 10 = n / 100 := by omega
        have e3 : n / 10 / 10 = n / 100 := by omega
        simp [e1, e2, e3, List.replicate]
      · rw [revDigits_ge10 17 (n / 10 / 10) (by omega),
          revDigits_lt10 16 (n / 10 / 10 / 10) (by omega)]
        have e1 : n / 10 / 10 / 10 = n / 1000 := by omega
        have e3 : n / 10 / 10 = n / 100 := by omega
        have e4 : n / 100 / 10 = n / 1000 := by omega
        simp [e1, e3, e4]

end time

/-! ## Parsing: the loop, literal text and digits -/

namespace time

theorem parseLoop_std (n : Nat) (layout v : List Nat) (f : Fields) (lit : List Nat) (std : Std)
    (suffix v1 v2 : List Nat) (f2 : Fields)
    (hc : nextStdChunk layout = (lit, some std, suffix)) (hs : skip v lit = some v1)
    (hp : parseStd std suffix v1 f = some (v2, f2)) :
    parseLoop (n + 1) layout v f = parseLoop n suffix v2 f2 := by
  simp only [parseLoop, hc, hs, hp]

theorem parseLoop_end (n : Nat) (layout v : List Nat) (f : Fields) (lit suffix : List Nat)
    (hc : nextStdChunk layout = (lit, none, suffix)) (hs : skip v lit = some []) :
    parseLoop (n + 1) layout v f = some f := by
  simp only [parseLoop, hc, hs]
  simp

theorem parseLoop_std_inv (n : Nat) (layout v : List Nat) (f r : Fields) (lit : List Nat)
    (std : Std) (suffix : List Nat)
    (hc : nextStdChunk layout = (lit, some std, suffix))
    (h : parseLoop (n + 1) layout v f = some r) :
    ∃ v1 v2 f2, skip v lit = some v1 ∧ parseStd std suffix v1 f = some (v2, f2) ∧
      parseLoop n suffix v2 f2 = some r := by
  simp only [parseLoop, hc] at h
  cases hs : skip v lit with
  | none => simp [hs] at h
  | some v1 =>
    simp only [hs] at h
    cases hp : parseStd std suffix v1 f with
    | none => simp [hp] at h
    | some p =>
      obtain ⟨v2, f2⟩ := p
      simp only [hp] at h
      exact ⟨v1, v2, f2, rfl, hp, h⟩

theorem parseLoop_end_inv (n : Nat) (layout v : List Nat) (f r : Fields) (lit suffix : List Nat)
    (hc : nextStdChunk layout = (lit, none, suffix))
    (h : parseLoop (n + 1) layout v f = some r) :
    skip v lit = some [] ∧ r = f := by
  simp only [parseLoop, hc] at h
  cases hs : skip v lit with
  | none => simp [hs] at h
  | some v1 =>
    simp only [hs] at h
    by_cases hv : v1 = []
    · subst hv
      simp at h
      exact ⟨rfl, h.symm⟩
    · simp [hv] at h

theorem skip_nil (v : List Nat) : skip v [] = some v := by
  simp [skip, skipLoop]

theorem skip_one (p : Nat) (v : List Nat) (hp : p ≠ 32) : skip (p :: v) [p] = some v := by
  simp [skip, skipLoop, hp]

theorem skip_one_inv (p : Nat) (v v1 : List Nat) (hp : p ≠ 32) (h : skip v [p] = some v1) :
    v = p :: v1 := by
  cases v with
  | nil => simp [skip, skipLoop, hp] at h
  | cons a v =>
    simp only [skip, skipLoop, List.length_singleton, hp, ↓reduceIte] at h
    by_cases ha : a = p
    · subst ha
      simp [skipLoop] at h
      rw [h]
    · simp [ha] at h

theorem skip_space (c : Nat) (v : List Nat) (hc : c ≠ 32) :
    skip (32 :: c :: v) [32] = some (c :: v) := by
  simp [skip, skipLoop, cutspace, dropRun, hc]

theorem getnum_digits (a b : Nat) (r : List Nat) (fixed : Bool) (ha : a < 10) (hb : b < 10) :
    getnum ((48 + a) :: (48 + b) :: r) fixed = some (((a * 10 + b : Nat) : Int), r) := by
  have e1 : isDigit0 ((48 + a) :: (48 + b) :: r) = true := by
    simp [isDigit0]; omega
  have e2 : isDigit0 ((48 + b) :: r) = true := by
    simp [isDigit0]; omega
  simp [getnum, e1, e2]

theorem atoi_four (a b c d : Nat) (ha : a < 10) (hb : b < 10) (hc : c < 10) (hd : d < 10) :
    atoi [48 + a, 48 + b, 48 + c, 48 + d] = some ((a * 1000 + b * 100 + c * 10 + d : Nat) : Int) := by
  have h1 : ¬ (48 + a = 45) := by omega
  have h2 : ¬ (48 + a = 43) := by omega
  have l1 : ¬ (48 + a < 48 ∨ 48 + a > 57) := by omega
  have l2 : ¬ (48 + b < 48 ∨ 48 + b > 57) := by omega
  have l3 : ¬ (48 + c < 48 ∨ 48 + c > 57) := by omega
  have l4 : ¬ (48 + d < 48 ∨ 48 + d > 57) := by omega
  simp only [atoi, List.head?_cons, Option.some.injEq, h1, h2, or_self, ↓reduceIte, leadingInt,
    l1, l2, l3, l4, decide_False]
  simp
  omega

theorem parseStd_year (a b c d : Nat) (r layout : List Nat) (f : Fields)
    (ha : a < 10) (hb : b < 10) (hc : c < 10) (hd : d < 10) :
    parseStd .stdLongYear layout ((48 + a) :: (48 + b) :: (48 + c) :: (48 + d) :: r) f =
      some (r, { f with year := ((a * 1000 + b * 100 + c * 10 + d : Nat) : Int) }) := by
  have e1 : isDigit0 ((48 + a) :: (48 + b) :: (48 + c) :: (48 + d) :: r) = true := by
    simp [isDigit0]; omega
  simp only [parseStd, List.length_cons, e1]
  have e2 : ¬ (r.length + 1 + 1 + 1 + 1 < 4 ∨ ¬ (true = true)) := by simp
  simp only [e2, ↓reduceIte, List.take_succ_cons, List.take_zero]
  rw [atoi_four a b c d ha hb hc hd]
  simp

theorem parseStd_month (a b : Nat) (r layout : List Nat) (f : Fields)
    (ha : a < 10) (hb : b < 10) (h1 : 1 ≤ a * 10 + b) (h12 : a * 10 + b ≤ 12) :
    parseStd .stdZeroMonth layout ((48 + a) :: (48 + b) :: r) f =
      some (r, { f with month := ((a * 10 + b : Nat) : Int) }) := by
  simp only [parseStd, getnum_digits a b r true ha hb]
  have : ¬ ((((a * 10 + b : Nat) : Int) ≤ 0) ∨ (12 < ((a * 10 + b : Nat) : Int))) := by omega
  simp only [this, ↓reduceIte]

theorem parseStd_day (a b : Nat) (r layout : List Nat) (f : Fields)
    (ha : a < 10) (hb : b < 10) :
    parseStd .stdZeroDay layout ((48 + a) :: (48 + b) :: r) f =
      some (r, { f with day := ((a * 10 + b : Nat) : Int) }) := by
  simp only [parseStd, getnum_digits a b r true ha hb]

theorem parseStd_hour (a b : Nat) (r layout : List Nat) (f : Fields)
    (ha : a < 10) (hb : b < 10) (h24 : a * 10 + b < 24) :
    parseStd .stdHour layout ((48 + a) :: (48 + b) :: r) f =
      some (r, { f with hour := ((a * 10 + b : Nat) : Int) }) := by
  simp only [parseStd, getnum_digits a b r false ha hb]
  have : ¬ ((((a * 10 + b : Nat) : Int) < 0) ∨ (24 ≤ ((a * 10 + b : Nat) : Int))) := by omega
  simp only [this, ↓reduceIte]

theorem parseStd_minute (a b : Nat) (r layout : List Nat) (f : Fields)
    (ha : a < 10) (hb : b < 10) (h60 : a * 10 + b < 60) :
    parseStd .stdZeroMinute layout ((48 + a) :: (48 + b) :: r) f =
      some (r, { f with min := ((a * 10 + b : Nat) : Int) }) := by
  simp only [parseStd, getnum_digits a b r true ha hb]
  have : ¬ ((((a * 10 + b : Nat) : Int) < 0) ∨ (60 ≤ ((a * 10 + b : Nat) : Int))) := by omega
  simp only [this, ↓reduceIte]

/-- Seconds, when no fractional second follows in the input. -/
theorem parseStd_second (a b : Nat) (r layout : List Nat) (f : Fields)
    (ha : a < 10) (hb : b < 10) (h60 : a * 10 + b < 60)
    (hr : ¬ (r.length ≥ 2 ∧ commaOrPeriod (r.headD 0) = true ∧ isDigit0 r.tail = true)) :
    parseStd .stdZeroSecond layout ((48 + a) :: (48 + b) :: r) f =
      some (r, { f with sec := ((a * 10 + b : Nat) : Int) }) := by
  simp only [parseStd, getnum_digits a b r true ha hb]
  have : ¬ ((((a * 10 + b : Nat) : Int) < 0) ∨ (60 ≤ ((a * 10 + b : Nat) : Int))) := by omega
  simp only [this, ↓reduceIte, hr]

theorem quoted_chunks :
    nextStdChunk (bytes "\"2006-01-02 15:04:05\"") =
      ([34], some .stdLongYear, bytes "-01-02 15:04:05\"") ∧
    nextStdChunk (bytes "-01-02 15:04:05\"") = ([45], some .stdZeroMonth, bytes "-02 15:04:05\"") ∧
    nextStdChunk (bytes "-02 15:04:05\"") = ([45], some .stdZeroDay, bytes " 15:04:05\"") ∧
    nextStdChunk (bytes " 15:04:05\"") = ([32], some .stdHour, bytes ":04:05\"") ∧
    nextStdChunk (bytes ":04:05\"") = ([58], some .stdZeroMinute, bytes ":05\"") ∧
    nextStdChunk (bytes ":05\"") = ([58], some .stdZeroSecond, bytes "\"") ∧
    nextStdChunk (bytes "\"") = ([34], none, []) := by
  refine ⟨?_, ?_, ?_, ?_, ?_, ?_, ?_⟩ <;> rfl

/-- Parsing the quoted default layout on a canonical input: four-digit year and
two-digit month, day, hour, minute and second between the separators. -/
theorem parseLoop_quoted (n : Nat) (Y M D h mi s : Nat) (hY : Y < 10000) (hM1 : 1 ≤ M)
    (hM : M ≤ 12) (hD : D < 100) (hh : h < 24) (hmi : mi < 60) (hs : s < 60) :
    parseLoop (n + 8) (bytes "\"2006-01-02 15:04:05\"")
      ([34] ++ (appendInt [] (Y : Int) 4 ++ [45] ++ appendInt [] (M : Int) 2 ++ [45]
        ++ appendInt [] (D : Int) 2 ++ [32] ++ appendInt [] (h : Int) 2 ++ [58]
        ++ appendInt [] (mi : Int) 2 ++ [58] ++ appendInt [] (s : Int) 2) ++ [34]) {} =
      some { year := Y, month := M, day := D, hour := h, min := mi, sec := s } := by
  obtain ⟨c0, c1, c2, c3, c4, c5, c6⟩ := quoted_chunks
  rw [appendInt_four Y hY, appendInt_two M (by omega), appendInt_two D hD,
    appendInt_two h (by omega), appendInt_two mi (by omega), appendInt_two s (by omega)]
  simp only [List.cons_append, List.nil_append, List.append_assoc]
  rw [parseLoop_std (n + 7) _ _ _ _ _ _ _ _ _ c0 (skip_one 34 _ (by decide))
    (parseStd_year (Y / 1000) (Y / 100 % 10) (Y / 10 % 10) (Y % 10) _ _ _ (by omega) (by omega)
      (by omega) (by omega))]
  rw [parseLoop_std (n + 6) _ _ _ _ _ _ _ _ _ c1 (skip_one 45 _ (by decide))
    (parseStd_month (M / 10) (M % 10) _ _ _ (by omega) (by omega) (by omega) (by omega))]
  rw [parseLoop_std (n + 5) _ _ _ _ _ _ _ _ _ c2 (skip_one 45 _ (by decide))
    (parseStd_day (D / 10) (D % 10) _ _ _ (by omega) (by omega))]
  rw [parseLoop_std (n + 4) _ _ _ _ _ _ _ _ _ c3 (skip_space _ _ (by omega))
    (parseStd_hour (h / 10) (h % 10) _ _ _ (by omega) (by omega) (by omega))]
  rw [parseLoop_std (n + 3) _ _ _ _ _ _ _ _ _ c4 (skip_one 58 _ (by decide))
    (parseStd_minute (mi / 10) (mi % 10) _ _ _ (by omega) (by omega) (by omega))]
  rw [parseLoop_std (n + 2) _ _ _ _ _ _ _ _ _ c5 (skip_one 58 _ (by decide))
    (parseStd_second (s / 10) (s % 10) _ _ _ (by omega) (by omega) (by omega) (by simp))]
  rw [parseLoop_end (n + 1) _ _ _ _ _ c6 (skip_one 34 _ (by decide))]
  simp only [Option.some.injEq, Fields.mk.injEq, and_true, true_and]
  refine ⟨?_, ?_, ?_, ?_, ?_, ?_⟩ <;> omega

/-- The quoted default layout prints the default layout between two quotes. -/
theorem Format_quoted (t : Time) :
    t.Format (bytes "\"2006-01-02 15:04:05\"") =
      [34] ++ t.Format (bytes "2006-01-02 15:04:05") ++ [34] := by
  rw [Format_Layout]
  have h : t.Format (bytes "\"2006-01-02 15:04:05\"") =
      appendInt (appendInt (appendInt (appendInt (appendInt (appendInt ([] ++ [34])
        (absDate t.abs true).1 4
        ++ [45]) (absDate t.abs true).2.1 2 ++ [45]) (absDate t.abs true).2.2.1 2 ++ [32])
        (absClock t.abs).1 2 ++ [58]) (absClock t.abs).2.1 2 ++ [58]) (absClock t.abs).2.2 2
        ++ [34] := by
    rfl
  rw [h]
  simp only [appendInt_append2, List.append_assoc, List.nil_append]
  rw [appendInt_append [34]]
  simp only [List.append_assoc]

/-- Decoding after encoding at the level of package `time`: for an instant
whose year has four digits, parsing the quoted default layout reads back the
calendar fields and rebuilds them in the parse location. -/
theorem Parse_Format_quoted (loc : Location) (t : Time) (hy0 : 0 ≤ (absDate t.abs true).1)
    (hy : (absDate t.abs true).1 ≤ 9999) :
    ParseInLocation (bytes "\"2006-01-02 15:04:05\"")
        (t.Format (bytes "\"2006-01-02 15:04:05\"")) loc =
      some (Date (absDate t.abs true).1 (absDate t.abs true).2.1 (absDate t.abs true).2.2.1
        (absClock t.abs).1 (absClock t.abs).2.1 (absClock t.abs).2.2 0 loc) := by
  obtain ⟨m1, m2, d1, d2, hdiv, h6⟩ := absDate_spec t.abs
  obtain ⟨c1, c2, c3, c4, c5, c6, c7⟩ := absClock_spec t.abs
  rw [Format_quoted, Format_Layout]
  generalize (absDate t.abs true).1 = y at *
  generalize (absDate t.abs true).2.1 = m at *
  generalize (absDate t.abs true).2.2.1 = d at *
  generalize (absClock t.abs).1 = h at *
  generalize (absClock t.abs).2.1 = mi at *
  generalize (absClock t.abs).2.2 = s at *
  have hlen := monthLen_pos (isLeap y) m m1 m2
  rw [← daysIn_eq] at hlen
  obtain ⟨Y, rfl⟩ := Int.eq_ofNat_of_zero_le hy0
  obtain ⟨M, rfl⟩ := Int.eq_ofNat_of_zero_le (by omega : 0 ≤ m)
  obtain ⟨D, rfl⟩ := Int.eq_ofNat_of_zero_le (by omega : 0 ≤ d)
  obtain ⟨H, rfl⟩ := Int.eq_ofNat_of_zero_le c1
  obtain ⟨Mi, rfl⟩ := Int.eq_ofNat_of_zero_le c3
  obtain ⟨S, rfl⟩ := Int.eq_ofNat_of_zero_le c5
  have hp := parseLoop_quoted 14 Y M D H Mi S (by omega) (by omega) (by omega) (by omega)
    (by omega) (by omega) (by omega)
  have hlenQ : (bytes "\"2006-01-02 15:04:05\"").length + 1 = 14 + 8 := by rfl
  simp only [ParseInLocation, hlenQ, hp, parseFinish]
  have e1 : ¬ ((M : Int) < 0) := by omega
  have e2 : ¬ ((D : Int) < 0) := by omega
  have e3 : ¬ ((D : Int) < 1 ∨ (D : Int) > daysIn M Y) := by omega
  simp only [e1, e2, e3, ↓reduceIte]
  simp

end time

/-! ## Dropping the nanoseconds with `Add` -/

namespace time

theorem neg_tdiv_small (a : Int) (h0 : 0 ≤ a) (h : a < 1000000000) :
    (-a).tdiv 1000000000 = 0 := by
  rw [Int.neg_tdiv, Int.tdiv_eq_ediv h0 (by norm_num)]
  omega

theorem neg_tmod_small (a : Int) (h0 : 0 ≤ a) (h : a < 1000000000) :
    (-a).tmod 1000000000 = -a := by
  have h1 := Int.tmod_add_tdiv (-a) 1000000000
  rw [neg_tdiv_small a h0 h] at h1
  omega

theorem hasMono_iff (t : Time) : t.hasMono = true ↔ t.wall / 9223372036854775808 % 2 = 1 := by
  simp [Time.hasMono]

theorem sec_mono (t : Time) (h : t.hasMono = true) :
    t.sec = wallToInternal + ((t.wall % 9223372036854775808 / 1073741824 : Nat) : Int) := by
  simp [Time.sec, h]

theorem sec_not_mono (t : Time) (h : t.hasMono = false) : t.sec = t.ext := by
  simp [Time.sec, h]

theorem nsec_eq (t : Time) : t.nsec = ((t.wall % 1073741824 : Nat) : Int) := by
  simp [Time.nsec]

/-- Adding zero seconds changes neither the second nor the nanosecond of an
instant whose `ext` is an `int64`. -/
theorem addSec_zero (t : Time) (he0 : -9223372036854775808 ≤ t.ext)
    (he1 : t.ext < 9223372036854775808) :
    (t.addSec 0).sec = t.sec ∧ (t.addSec 0).nsec = t.nsec := by
  have hd : wrapInt64 (((t.wall % 2 ^ 63 / 2 ^ 30 : Nat) : Int) + 0)
      = ((t.wall % 2 ^ 63 / 2 ^ 30 : Nat) : Int) := by
    rw [add_zero]
    apply wrapInt64_of_fits <;> norm_num <;> omega
  by_cases hm : t.hasMono = true
  · have hr : (0 : Int) ≤ ((t.wall % 2 ^ 63 / 2 ^ 30 : Nat) : Int) ∧
        ((t.wall % 2 ^ 63 / 2 ^ 30 : Nat) : Int) ≤ 2 ^ 33 - 1 := by
      norm_num
      omega
    have hw : t.addSec 0 = { t with wall := t.wall % 2 ^ 30
        + (((t.wall % 2 ^ 63 / 2 ^ 30 : Nat) : Int)).toNat * 2 ^ 30 + 2 ^ 63 } := by
      simp only [Time.addSec, hd, hm, hr, and_self, ↓reduceIte]
    have hm' := (hasMono_iff t).1 hm
    have hm2 : (t.addSec 0).hasMono = true := by
      rw [hasMono_iff, hw]
      norm_num
      omega
    rw [sec_mono _ hm2, sec_mono _ hm, nsec_eq, nsec_eq, hw]
    norm_num
    constructor <;> omega
  · have hm0 : t.hasMono = false := by simpa using hm
    have hs : t.stripMono = t := by
      simp only [Time.stripMono, hm0, Bool.false_eq_true, ↓reduceIte]
    have hsum : wrapInt64 (t.ext + 0) = t.ext := by
      rw [add_zero]
      exact wrapInt64_of_fits _ he0 he1
    have hw : t.addSec 0 = { t with ext := t.ext } := by
      simp only [Time.addSec, hm0, Bool.false_eq_true, false_and, ↓reduceIte, hs, hsum]
      simp
    have hm2 : (t.addSec 0).hasMono = false := by
      rw [hw]; exact hm0
    rw [sec_not_mono _ hm2, sec_not_mono _ hm0, hw]
    simp [Time.nsec]

/-- Dropping the monotonic reading changes neither the second nor the
nanosecond. -/
theorem stripMono_sec (t : Time) :
    t.stripMono.sec = t.sec ∧ t.stripMono.nsec = t.nsec := by
  by_cases hm : t.hasMono = true
  · have hm' := (hasMono_iff t).1 hm
    have hw : t.stripMono = { t with ext := t.sec, wall := t.wall % 2 ^ 30 } := by
      simp only [Time.stripMono, hm, ↓reduceIte]
    have hm2 : t.stripMono.hasMono = false := by
      have : ¬ (t.stripMono.hasMono = true) := by
        rw [hasMono_iff, hw]; norm_num; omega
      simpa using this
    rw [sec_not_mono _ hm2, nsec_eq, nsec_eq, hw]
    norm_num
  · have hm0 : t.hasMono = false := by simpa using hm
    have hs : t.stripMono = t := by
      simp only [Time.stripMono, hm0, Bool.false_eq_true, ↓reduceIte]
    rw [hs]
    exact ⟨rfl, rfl⟩

/-- Subtracting its own nanoseconds from a valid instant keeps the second and
clears the nanoseconds: truncation to whole seconds. -/
theorem Add_neg_nsec (t : Time) (hv : t.Valid) (he0 : -9223372036854775808 ≤ t.ext)
    (he1 : t.ext < 9223372036854775808) :
    (t.Add (-t.nsec)).sec = t.sec ∧ (t.Add (-t.nsec)).nsec = 0 := by
  have hn0 : 0 ≤ t.nsec := by simp only [Time.nsec]; omega
  have hn : t.nsec < 1000000000 := hv
  have e0 : t.nsec + -t.nsec = 0 := by omega
  have hA : t.Add (-t.nsec) =
      (if (({ t with wall := t.wall - t.wall % 2 ^ 30 + (0 : Int).toNat } : Time).addSec 0).hasMono
        then
          (if (-t.nsec < 0 ∧ wrapInt64 ((({ t with wall := t.wall - t.wall % 2 ^ 30
                + (0 : Int).toNat } : Time).addSec 0).ext + -t.nsec)
              > (({ t with wall := t.wall - t.wall % 2 ^ 30 + (0 : Int).toNat } :
                Time).addSec 0).ext) ∨
            (-t.nsec > 0 ∧ wrapInt64 ((({ t with wall := t.wall - t.wall % 2 ^ 30
                + (0 : Int).toNat } : Time).addSec 0).ext + -t.nsec)
              < (({ t with wall := t.wall - t.wall % 2 ^ 30 + (0 : Int).toNat } :
                Time).addSec 0).ext)
          then (({ t with wall := t.wall - t.wall % 2 ^ 30 + (0 : Int).toNat } :
            Time).addSec 0).stripMono
          else { (({ t with wall := t.wall - t.wall % 2 ^ 30 + (0 : Int).toNat } :
              Time).addSec 0)
            with ext := wrapInt64 ((({ t with wall := t.wall - t.wall % 2 ^ 30
              + (0 : Int).toNat } : Time).addSec 0).ext + -t.nsec) })
        else (({ t with wall := t.wall - t.wall % 2 ^ 30 + (0 : Int).toNat } : Time).addSec 0)) := by
    simp only [Time.Add, neg_tdiv_small _ hn0 hn, neg_tmod_small _ hn0 hn, e0]
    norm_num
  obtain ⟨a1, a2⟩ := addSec_zero ({ t with wall := t.wall - t.wall % 2 ^ 30 + (0 : Int).toNat })
    he0 he1
  generalize ({ t with wall := t.wall - t.wall % 2 ^ 30 + (0 : Int).toNat } : Time).addSec 0 = t2
    at hA a1 a2
  have b1 : ({ t with wall := t.wall - t.wall % 2 ^ 30 + (0 : Int).toNat } : Time).sec = t.sec := by
    by_cases hm : t.hasMono = true
    · have hm' := (hasMono_iff t).1 hm
      have hm2 : ({ t with wall := t.wall - t.wall % 2 ^ 30 + (0 : Int).toNat } : Time).hasMono
          = true := by
        rw [hasMono_iff]; norm_num; omega
      rw [sec_mono _ hm2, sec_mono _ hm]
      norm_num
      omega
    · have hm0 : t.hasMono = false := by simpa using hm
      have hm' : ¬ (t.wall / 9223372036854775808 % 2 = 1) := fun h => hm ((hasMono_iff t).2 h)
      have hm2 : ({ t with wall := t.wall - t.wall % 2 ^ 30 + (0 : Int).toNat } : Time).hasMono
          = false := by
        have : ¬ (({ t with wall := t.wall - t.wall % 2 ^ 30 + (0 : Int).toNat } : Time).hasMono
          = true) := by
          rw [hasMono_iff]; norm_num; omega
        simpa using this
      rw [sec_not_mono _ hm2, sec_not_mono _ hm0]
  have b2 : ({ t with wall := t.wall - t.wall % 2 ^ 30 + (0 : Int).toNat } : Time).nsec = 0 := by
    rw [nsec_eq]; norm_num; omega
  rw [b1] at a1
  rw [b2] at a2
  rw [hA]
  by_cases h2 : t2.hasMono = true
  · simp only [h2, ↓reduceIte]
    split
    · obtain ⟨c1, c2⟩ := stripMono_sec t2
      exact ⟨by rw [c1, a1], by rw [c2, a2]⟩
    · have h3 : ({ t2 with ext := wrapInt64 (t2.ext + -t.nsec) } : Time).hasMono = true := h2
      constructor
      · rw [sec_mono _ h3, ← a1, sec_mono _ h2]
      · rw [← a2]; rfl
  · simp only [h2, Bool.false_eq_true, ↓reduceIte]
    exact ⟨a1, a2⟩

/-- The seconds of an instant whose `ext` is an `int64` are an `int64`. -/
theorem sec_int64 (t : Time) (he0 : -9223372036854775808 ≤ t.ext)
    (he1 : t.ext < 9223372036854775808) :
    -9223372036854775808 ≤ t.sec ∧ t.sec < 9223372036854775808 := by
  by_cases hm : t.hasMono = true
  · rw [sec_mono t hm]
    simp only [wallToInternal]
    constructor <;> omega
  · have hm0 : t.hasMono = false := by simpa using hm
    rw [sec_not_mono t hm0]
    exact ⟨he0, he1⟩

/-- The absolute seconds of an instant whose year is within 0..9999. -/
theorem year_small_abs (abs : Int) (h : 0 ≤ abs) (hy0 : 0 ≤ (absDate abs true).1)
    (hy : (absDate abs true).1 ≤ 9999) :
    9200000000000000000 ≤ abs ∧ abs ≤ 9300000000000000000 := by
  obtain ⟨y0, y1, y2⟩ := absDateYear_bounds (abs / 86400) (by omega)
  have hyy : (absDate abs true).1 = (absDateYear (abs / 86400)).1 + absoluteZeroYear := by
    simp only [absDate, secondsPerDay]
    rfl
  rw [hyy] at hy0 hy
  simp only [absoluteZeroYear] at hy0 hy
  constructor <;> omega

/-- An instant in a location without transitions whose year is within 0..9999:
its absolute seconds do not wrap around. -/
theorem abs_eq_of_year (t : Time) (hfix : t.Location.Fixed)
    (he0 : -9223372036854775808 ≤ t.ext) (he1 : t.ext < 9223372036854775808)
    (hy0 : 0 ≤ (absDate t.abs true).1) (hy : (absDate t.abs true).1 ≤ 9999) :
    t.abs = t.sec + t.Location.fixedOffset + internalToAbsolute := by
  obtain ⟨s0, s1⟩ := sec_int64 t he0 he1
  obtain ⟨o1, o2⟩ := fixedOffset_range _ hfix
  obtain ⟨r0, r1⟩ := abs_range t
  obtain ⟨a0, a1⟩ := year_small_abs t.abs r0 hy0 hy
  have hs : -9223371960000000000 ≤ t.sec ∧ t.sec ≤ 9223372036000000000 := by
    simp only [Time.abs, Time.unixSec, lookup_fixed _ hfix, wrapInt64, internalToUnix,
      unixToInternal, internalToAbsolute] at a0 a1
    norm_num at a0 a1
    constructor <;> omega
  exact abs_eq t hfix hs.1 hs.2

end time

/-! ## Parsing: what an accepted input looks like -/

namespace time

theorem isDigit0_cons (c : Nat) (r : List Nat) : isDigit0 (c :: r) = true ↔ (48 ≤ c ∧ c ≤ 57) := by
  simp [isDigit0]

theorem getnum_fixed_inv (v r : List Nat) (x : Int) (h : getnum v true = some (x, r)) :
    ∃ a b : Nat, a < 10 ∧ b < 10 ∧ v = (48 + a) :: (48 + b) :: r ∧
      x = ((a * 10 + b : Nat) : Int) := by
  cases v with
  | nil => simp [getnum, isDigit0] at h
  | cons c v1 =>
    cases v1 with
    | nil => simp [getnum, isDigit0] at h
    | cons d v2 =>
      by_cases hc : 48 ≤ c ∧ c ≤ 57
      · by_cases hd : 48 ≤ d ∧ d ≤ 57
        · have e1 : isDigit0 (c :: d :: v2) = true := (isDigit0_cons _ _).2 hc
          have e2 : isDigit0 (d :: v2) = true := (isDigit0_cons _ _).2 hd
          simp only [getnum, e1, e2, not_true_eq_false, ↓reduceIte, List.tail_cons,
            List.headD_cons, Option.some.injEq, Prod.mk.injEq] at h
          refine ⟨c - 48, d - 48, by omega, by omega, ?_, ?_⟩
          · rw [← h.2]
            have : 48 + (c - 48) = c := by omega
            have : 48 + (d - 48) = d := by omega
            simp [*]
          · rw [← h.1]
        · have e1 : isDigit0 (c :: d :: v2) = true := (isDigit0_cons _ _).2 hc
          have e2 : ¬ (isDigit0 (d :: v2) = true) := fun hh => hd ((isDigit0_cons _ _).1 hh)
          simp [getnum, e1, e2] at h
      · have e1 : ¬ (isDigit0 (c :: d :: v2) = true) := fun hh => hc ((isDigit0_cons _ _).1 hh)
        simp [getnum, e1] at h

/-- A one- or two-digit number followed by a digit has two digits. -/
theorem getnum_free_inv (v r : List Nat) (x : Int) (h : getnum v false = some (x, r))
    (hr : isDigit0 r = true) :
    ∃ a b : Nat, a < 10 ∧ b < 10 ∧ v = (48 + a) :: (48 + b) :: r ∧
      x = ((a * 10 + b : Nat) : Int) := by
  cases v with
  | nil => simp [getnum, isDigit0] at h
  | cons c v1 =>
    by_cases hc : 48 ≤ c ∧ c ≤ 57
    · have e1 : isDigit0 (c :: v1) = true := (isDigit0_cons _ _).2 hc
      by_cases e2 : isDigit0 v1 = true
      · have hf : getnum (c :: v1) true = some (x, r) := by
          simp only [getnum, e1, List.tail_cons, e2, not_true_eq_false, ↓reduceIte] at h ⊢
          exact h
        exact getnum_fixed_inv _ _ _ hf
      · simp only [getnum, e1, e2, not_true_eq_false, ↓reduceIte, Bool.false_eq_true,
          not_false_eq_true, List.tail_cons, Option.some.injEq, Prod.mk.injEq] at h
        rw [h.2] at e2
        exact absurd hr e2
    · have e1 : ¬ (isDigit0 (c :: v1) = true) := fun hh => hc ((isDigit0_cons _ _).1 hh)
      simp [getnum, e1] at h

theorem atoi_four_inv (c0 c1 c2 c3 : Nat) (y : Int) (h0 : 48 ≤ c0 ∧ c0 ≤ 57)
    (h : atoi [c0, c1, c2, c3] = some y) :
    ∃ a b c d : Nat, a < 10 ∧ b < 10 ∧ c < 10 ∧ d < 10 ∧ c0 = 48 + a ∧ c1 = 48 + b ∧
      c2 = 48 + c ∧ c3 = 48 + d ∧ y = ((a * 1000 + b * 100 + c * 10 + d : Nat) : Int) := by
  have s1 : ¬ (c0 = 45) := by omega
  have s2 : ¬ (c0 = 43) := by omega
  have l0 : ¬ (c0 < 48 ∨ c0 > 57) := by omega
  simp only [atoi, List.head?_cons, Option.some.injEq, s1, s2, or_self, ↓reduceIte, leadingInt,
    l0, decide_False] at h
  by_cases l1 : c1 < 48 ∨ c1 > 57
  · simp [l1] at h
  · simp only [l1, ↓reduceIte] at h
    by_cases l2 : c2 < 48 ∨ c2 > 57
    · simp [leadingInt, l2] at h
    · simp only [leadingInt, l2, ↓reduceIte] at h
      by_cases l3 : c3 < 48 ∨ c3 > 57
      · simp [leadingInt, l3] at h
      · simp only [leadingInt, l3, ↓reduceIte] at h
        simp at h
        refine ⟨c0 - 48, c1 - 48, c2 - 48, c3 - 48, by omega, by omega, by omega, by omega,
          by omega, by omega, by omega, by omega, ?_⟩
        rw [← h]
        push_cast
        omega

theorem parseStd_year_inv (layout v v' : List Nat) (f f' : Fields)
    (h : parseStd .stdLongYear layout v f = some (v', f')) :
    ∃ a b c d : Nat, a < 10 ∧ b < 10 ∧ c < 10 ∧ d < 10 ∧
      v = (48 + a) :: (48 + b) :: (48 + c) :: (48 + d) :: v' ∧
      f' = { f with year := ((a * 1000 + b * 100 + c * 10 + d : Nat) : Int) } := by
  simp only [parseStd] at h
  by_cases hc : v.length < 4 ∨ ¬ (isDigit0 v = true)
  · rw [if_pos hc] at h
    exact absurd h (by simp)
  · rw [if_neg hc] at h
    match v, hc, h with
    | c0 :: c1 :: c2 :: c3 :: r, hc, h =>
      have hd : 48 ≤ c0 ∧ c0 ≤ 57 := by
        have : isDigit0 (c0 :: c1 :: c2 :: c3 :: r) = true := by
          by_contra hh; exact hc (Or.inr hh)
        exact (isDigit0_cons _ _).1 this
      simp only [List.take_succ_cons, List.take_zero, List.drop_succ_cons, List.drop_zero] at h
      cases ha : atoi [c0, c1, c2, c3] with
      | none => simp [ha] at h
      | some y =>
        simp only [ha, Option.some.injEq, Prod.mk.injEq] at h
        obtain ⟨a, b, c, d, h1, h2, h3, h4, e0, e1, e2, e3, ey⟩ := atoi_four_inv c0 c1 c2 c3 y hd ha
        refine ⟨a, b, c, d, h1, h2, h3, h4, ?_, ?_⟩
        · rw [e0, e1, e2, e3, h.1]
        · rw [← h.2, ey]
    | [], hc, h => simp at hc
    | [_], hc, h => simp at hc
    | [_, _], hc, h => simp at hc
    | [_, _, _], hc, h => simp at hc

theorem parseStd_month_inv (layout v v' : List Nat) (f f' : Fields)
    (h : parseStd .stdZeroMonth layout v f = some (v', f')) :
    ∃ a b : Nat, a < 10 ∧ b < 10 ∧ 1 ≤ a * 10 + b ∧ a * 10 + b ≤ 12 ∧
      v = (48 + a) :: (48 + b) :: v' ∧ f' = { f with month := ((a * 10 + b : Nat) : Int) } := by
  simp only [parseStd] at h
  cases hg : getnum v true with
  | none => simp [hg] at h
  | some p =>
    obtain ⟨x, r⟩ := p
    simp only [hg] at h
    obtain ⟨a, b, ha, hb, hv, hx⟩ := getnum_fixed_inv v r x hg
    by_cases hc : x ≤ 0 ∨ 12 < x
    · simp [hc] at h
    · simp only [hc, ↓reduceIte, Option.some.injEq, Prod.mk.injEq] at h
      refine ⟨a, b, ha, hb, by omega, by omega, ?_, ?_⟩
      · rw [hv, h.1]
      · rw [← h.2, hx]

theorem parseStd_day_inv (layout v v' : List Nat) (f f' : Fields)
    (h : parseStd .stdZeroDay layout v f = some (v', f')) :
    ∃ a b : Nat, a < 10 ∧ b < 10 ∧
      v = (48 + a) :: (48 + b) :: v' ∧ f' = { f with day := ((a * 10 + b : Nat) : Int) } := by
  simp only [parseStd] at h
  cases hg : getnum v true with
  | none => simp [hg] at h
  | some p =>
    obtain ⟨x, r⟩ := p
    simp only [hg, Option.some.injEq, Prod.mk.injEq] at h
    obtain ⟨a, b, ha, hb, hv, hx⟩ := getnum_fixed_inv v r x hg
    refine ⟨a, b, ha, hb, ?_, ?_⟩
    · rw [hv, h.1]
    · rw [← h.2, hx]

/-- An accepted hour that is followed by a digit has two digits. -/
theorem parseStd_hour_inv (layout v v' : List Nat) (f f' : Fields)
    (h : parseStd .stdHour layout v f = some (v', f')) (hr : isDigit0 v' = true) :
    ∃ a b : Nat, a < 10 ∧ b < 10 ∧ a * 10 + b < 24 ∧
      v = (48 + a) :: (48 + b) :: v' ∧ f' = { f with hour := ((a * 10 + b : Nat) : Int) } := by
  simp only [parseStd] at h
  cases hg : getnum v false with
  | none => simp [hg] at h
  | some p =>
    obtain ⟨x, r⟩ := p
    simp only [hg] at h
    by_cases hc : x < 0 ∨ 24 ≤ x
    · simp [hc] at h
    · simp only [hc, ↓reduceIte, Option.some.injEq, Prod.mk.injEq] at h
      rw [← h.1] at hr
      obtain ⟨a, b, ha, hb, hv, hx⟩ := getnum_free_inv v r x hg hr
      refine ⟨a, b, ha, hb, by omega, ?_, ?_⟩
      · rw [hv, h.1]
      · rw [← h.2, hx]

theorem parseStd_minute_inv (layout v v' : List Nat) (f f' : Fields)
    (h : parseStd .stdZeroMinute layout v f = some (v', f')) :
    ∃ a b : Nat, a < 10 ∧ b < 10 ∧ a * 10 + b < 60 ∧
      v = (48 + a) :: (48 + b) :: v' ∧ f' = { f with min := ((a * 10 + b : Nat) : Int) } := by
  simp only [parseStd] at h
  cases hg : getnum v true with
  | none => simp [hg] at h
  | some p =>
    obtain ⟨x, r⟩ := p
    simp only [hg] at h
    obtain ⟨a, b, ha, hb, hv, hx⟩ := getnum_fixed_inv v r x hg
    by_cases hc : x < 0 ∨ 60 ≤ x
    · simp [hc] at h
    · simp only [hc, ↓reduceIte, Option.some.injEq, Prod.mk.injEq] at h
      refine ⟨a, b, ha, hb, by omega, ?_, ?_⟩
      · rw [hv, h.1]
      · rw [← h.2, hx]

theorem leadingInt_bound (s : List Nat) (x : Nat) :
    (leadingInt x s).1 < (x + 1) * 10 ^ s.length := by
  induction s generalizing x with
  | nil => simp [leadingInt]
  | cons c s ih =>
    simp only [leadingInt]
    by_cases hc : c < 48 ∨ c > 57
    · simp only [hc, ↓reduceIte, List.length_cons]
      have : 1 ≤ 10 ^ (s.length + 1) := Nat.one_le_pow _ _ (by norm_num)
      calc x < x + 1 := by omega
        _ = (x + 1) * 1 := by ring
        _ ≤ (x + 1) * 10 ^ (s.length + 1) := Nat.mul_le_mul_left _ this
    · simp only [hc, ↓reduceIte, List.length_cons]
      have h1 := ih (x * 10 + (c - 48))
      have h2 : x * 10 + (c - 48) + 1 ≤ (x + 1) * 10 := by omega
      calc (leadingInt (x * 10 + (c - 48)) s).1 < (x * 10 + (c - 48) + 1) * 10 ^ s.length := h1
        _ ≤ ((x + 1) * 10) * 10 ^ s.length := Nat.mul_le_mul_right _ h2
        _ = (x + 1) * 10 ^ (s.length + 1) := by ring

theorem atoi_bound (s : List Nat) (y : Int) (h : atoi s = some y) (hy : 0 ≤ y) :
    y < 10 ^ s.length := by
  simp only [atoi] at h
  by_cases hr : (leadingInt 0 (if s.head? = some 45 ∨ s.head? = some 43 then s.tail else s)).2 ≠ []
  · rw [if_pos hr] at h
    exact absurd h (by simp)
  · rw [if_neg hr] at h
    have hb := leadingInt_bound (if s.head? = some 45 ∨ s.head? = some 43 then s.tail else s) 0
    have hl : (if s.head? = some 45 ∨ s.head? = some 43 then s.tail else s).length ≤ s.length := by
      split
      · simp
      · exact le_refl _
    have hp : 10 ^ (if s.head? = some 45 ∨ s.head? = some 43 then s.tail else s).length
        ≤ 10 ^ s.length := Nat.pow_le_pow_right (by norm_num) hl
    simp only [Option.some.injEq] at h
    have hlt : (leadingInt 0 (if s.head? = some 45 ∨ s.head? = some 43 then s.tail else s)).1
        < 10 ^ s.length := by omega
    have hpos : (0 : Int) < 10 ^ s.length := by positivity
    split at h
    · have hy' : y ≤ 0 := by rw [← h]; omega
      exact lt_of_le_of_lt hy' hpos
    · rw [← h]
      exact_mod_cast hlt

/-- A parsed fractional second is a nanosecond count below one second. -/
theorem parseNanoseconds_bound (value : List Nat) (n : Nat) (ns : Int)
    (h : parseNanoseconds value n = some ns) : 0 ≤ ns ∧ ns < 1000000000 := by
  simp only [parseNanoseconds] at h
  by_cases hc : ¬ (commaOrPeriod (value.headD 0) = true)
  · rw [if_pos hc] at h
    exact absurd h (by simp)
  · rw [if_neg hc] at h
    cases ha : atoi (List.drop 1 (List.take (if n > 10 then 10 else n)
        (if n > 10 then List.take 10 value else value))) with
    | none =>
      rw [ha] at h
      exact absurd h (by simp)
    | some y =>
      rw [ha] at h
      by_cases hy : y < 0
      · simp [hy] at h
      · simp only [hy, ↓reduceIte, Option.some.injEq] at h
        have hb := atoi_bound _ y ha (by omega)
        have hlen : (List.drop 1 (List.take (if n > 10 then 10 else n)
            (if n > 10 then List.take 10 value else value))).length
            ≤ (if n > 10 then 10 else n) - 1 := by
          simp only [List.length_drop, List.length_take]
          omega
        have hk : (if n > 10 then 10 else n) ≤ 10 := by split <;> omega
        generalize (if n > 10 then 10 else n) = k at *
        generalize (List.drop 1 (List.take k (if n > 10 then List.take 10 value else value))).length
          = l at *
        have hy0 : 0 ≤ y := by omega
        obtain ⟨Y, rfl⟩ := Int.eq_ofNat_of_zero_le hy0
        have hb' : Y < 10 ^ l := by exact_mod_cast hb
        rw [← h]
        constructor
        · positivity
        · by_cases hk0 : k = 0
          · have hl0 : l = 0 := by omega
            subst hl0
            have hY : Y = 0 := by simpa using hb'
            subst hY
            simp
          · have hpow : 10 ^ l * 10 ^ (10 - k) ≤ 10 ^ 9 := by
              rw [← pow_add]
              exact Nat.pow_le_pow_right (by norm_num) (by omega)
            have hpos : 0 < 10 ^ (10 - k) := by positivity
            have hlt : Y * 10 ^ (10 - k) < 10 ^ 9 :=
              lt_of_lt_of_le (Nat.mul_lt_mul_of_pos_right hb' hpos) hpow
            have : ((Y * 10 ^ (10 - k) : Nat) : Int) < 1000000000 := by exact_mod_cast hlt
            push_cast at this
            exact this

theorem parseStd_second_inv (layout v v' : List Nat) (f f' : Fields)
    (h : parseStd .stdZeroSecond layout v f = some (v', f')) :
    ∃ (a b : Nat) (r : List Nat), a < 10 ∧ b < 10 ∧ a * 10 + b < 60 ∧
      v = (48 + a) :: (48 + b) :: r ∧
      f' = { f with sec := ((a * 10 + b : Nat) : Int), nsec := f'.nsec } ∧
      (f'.nsec = f.nsec ∨ (0 ≤ f'.nsec ∧ f'.nsec < 1000000000)) := by
  simp only [parseStd] at h
  cases hg : getnum v true with
  | none => simp [hg] at h
  | some p =>
    obtain ⟨x, r⟩ := p
    simp only [hg] at h
    obtain ⟨a, b, ha, hb, hv, hx⟩ := getnum_fixed_inv v r x hg
    by_cases hc : x < 0 ∨ 60 ≤ x
    · simp [hc] at h
    · simp only [hc, ↓reduceIte] at h
      by_cases hfr : r.length ≥ 2 ∧ commaOrPeriod (r.headD 0) = true ∧ isDigit0 r.tail = true
      · simp only [hfr, and_self, ↓reduceIte] at h
        split at h
        · simp only [Option.some.injEq, Prod.mk.injEq] at h
          refine ⟨a, b, r, ha, hb, by omega, hv, ?_, Or.inl ?_⟩
          · rw [← h.2, hx]
          · rw [← h.2]
        · cases hp : parseNanoseconds r (fracLen r) with
          | none => simp [hp] at h
          | some ns =>
            simp only [hp, Option.some.injEq, Prod.mk.injEq] at h
            have hb2 := parseNanoseconds_bound r _ ns hp
            refine ⟨a, b, r, ha, hb, by omega, hv, ?_, Or.inr ?_⟩
            · rw [← h.2, hx]
            · rw [← h.2]; exact hb2
      · simp only [hfr, ↓reduceIte, Option.some.injEq, Prod.mk.injEq] at h
        refine ⟨a, b, r, ha, hb, by omega, hv, ?_, Or.inl ?_⟩
        · rw [← h.2, hx]
        · rw [← h.2]

theorem compact_chunks :
    nextStdChunk (bytes "20060102150405") = ([], some .stdLongYear, bytes "0102150405") ∧
    nextStdChunk (bytes "0102150405") = ([], some .stdZeroMonth, bytes "02150405") ∧
    nextStdChunk (bytes "02150405") = ([], some .stdZeroDay, bytes "150405") ∧
    nextStdChunk (bytes "150405") = ([], some .stdHour, bytes "0405") ∧
    nextStdChunk (bytes "0405") = ([], some .stdZeroMinute, bytes "05") ∧
    nextStdChunk (bytes "05") = ([], some .stdZeroSecond, []) ∧
    nextStdChunk [] = ([], none, []) := by
  refine ⟨?_, ?_, ?_, ?_, ?_, ?_, ?_⟩ <;> rfl

/-- What the compact layout accepts: fourteen digits (year, month in 1..12,
day, hour below 24, minute and second below 60), followed by an optional
fractional second. -/
theorem parseLoop_compact_inv (n : Nat) (s : List Nat) (f : Fields)
    (h : parseLoop (n + 7) (bytes "20060102150405") s {} = some f) :
    ∃ (Y M D H Mi S : Nat) (r : List Nat),
      Y < 10000 ∧ 1 ≤ M ∧ M ≤ 12 ∧ D < 100 ∧ H < 24 ∧ Mi < 60 ∧ S < 60 ∧
      s = [48 + Y / 1000, 48 + Y / 100 % 10, 48 + Y / 10 % 10, 48 + Y % 10,
           48 + M / 10, 48 + M % 10, 48 + D / 10, 48 + D % 10, 48 + H / 10, 48 + H % 10,
           48 + Mi / 10, 48 + Mi % 10, 48 + S / 10, 48 + S % 10] ++ r ∧
      0 ≤ f.nsec ∧ f.nsec < 1000000000 ∧
      f = { year := Y, month := M, day := D, hour := H, min := Mi, sec := S, nsec := f.nsec } := by
  obtain ⟨c0, c1, c2, c3, c4, c5, c6⟩ := compact_chunks
  obtain ⟨u1, v1, f1, hs1, hp1, h⟩ := parseLoop_std_inv (n + 6) _ _ _ _ _ _ _ c0 h
  obtain ⟨u2, v2, f2, hs2, hp2, h⟩ := parseLoop_std_inv (n + 5) _ _ _ _ _ _ _ c1 h
  obtain ⟨u3, v3, f3, hs3, hp3, h⟩ := parseLoop_std_inv (n + 4) _ _ _ _ _ _ _ c2 h
  obtain ⟨u4, v4, f4, hs4, hp4, h⟩ := parseLoop_std_inv (n + 3) _ _ _ _ _ _ _ c3 h
  obtain ⟨u5, v5, f5, hs5, hp5, h⟩ := parseLoop_std_inv (n + 2) _ _ _ _ _ _ _ c4 h
  obtain ⟨u6, v6, f6, hs6, hp6, h⟩ := parseLoop_std_inv (n + 1) _ _ _ _ _ _ _ c5 h
  obtain ⟨hs7, hf⟩ := parseLoop_end_inv n _ _ _ _ _ _ c6 h
  rw [skip_nil] at hs1 hs2 hs3 hs4 hs5 hs6 hs7
  simp only [Option.some.injEq] at hs1 hs2 hs3 hs4 hs5 hs6 hs7
  subst hs1 hs2 hs3 hs4 hs5 hs6 hs7 hf
  obtain ⟨y0, y1, y2, y3, hy0, hy1, hy2, hy3, e1, g1⟩ := parseStd_year_inv _ _ _ _ _ hp1
  obtain ⟨m0, m1, hm0, hm1, hml, hmu, e2, g2⟩ := parseStd_month_inv _ _ _ _ _ hp2
  obtain ⟨d0, d1, hd0, hd1, e3, g3⟩ := parseStd_day_inv _ _ _ _ _ hp3
  obtain ⟨i0, i1, hi0, hi1, hiu, e5, g5⟩ := parseStd_minute_inv _ _ _ _ _ hp5
  have hdig : isDigit0 v4 = true := by
    rw [e5]; simp [isDigit0]; omega
  obtain ⟨h0, h1, hh0, hh1, hhu, e4, g4⟩ := parseStd_hour_inv _ _ _ _ _ hp4 hdig
  obtain ⟨s0, s1, r, hs0, hs1, hsu, e6, g6, hns⟩ := parseStd_second_inv _ _ _ _ _ hp6
  refine ⟨y0 * 1000 + y1 * 100 + y2 * 10 + y3, m0 * 10 + m1, d0 * 10 + d1, h0 * 10 + h1,
    i0 * 10 + i1, s0 * 10 + s1, r, by omega, hml, hmu, by omega, hhu, hiu, hsu, ?_, ?_, ?_, ?_⟩
  · rw [e1, e2, e3, e4, e5, e6]
    have a1 : (y0 * 1000 + y1 * 100 + y2 * 10 + y3) / 1000 = y0 := by omega
    have a2 : (y0 * 1000 + y1 * 100 + y2 * 10 + y3) / 100 % 10 = y1 := by omega
    have a3 : (y0 * 1000 + y1 * 100 + y2 * 10 + y3) / 10 % 10 = y2 := by omega
    have a4 : (y0 * 1000 + y1 * 100 + y2 * 10 + y3) % 10 = y3 := by omega
    have b1 : (m0 * 10 + m1) / 10 = m0 := by omega
    have b2 : (m0 * 10 + m1) % 10 = m1 := by omega
    have b3 : (d0 * 10 + d1) / 10 = d0 := by omega
    have b4 : (d0 * 10 + d1) % 10 = d1 := by omega
    have b5 : (h0 * 10 + h1) / 10 = h0 := by omega
    have b6 : (h0 * 10 + h1) % 10 = h1 := by omega
    have b7 : (i0 * 10 + i1) / 10 = i0 := by omega
    have b8 : (i0 * 10 + i1) % 10 = i1 := by omega
    have b9 : (s0 * 10 + s1) / 10 = s0 := by omega
    have b10 : (s0 * 10 + s1) % 10 = s1 := by omega
    simp only [a1, a2, a3, a4, b1, b2, b3, b4, b5, b6, b7, b8, b9, b10, List.cons_append,
      List.nil_append]
  · rcases hns with hns | hns
    · rw [hns, g5, g4, g3, g2, g1]
    · exact hns.1
  · rcases hns with hns | hns
    · rw [hns, g5, g4, g3, g2, g1]; norm_num
    · exact hns.2
  · rw [g6, g5, g4, g3, g2, g1]

end time
/-! ## Month boundaries -/

namespace localTime
open time

/-- Subtracting one second from an instant without nanoseconds or monotonic
reading, away from the ends of the `int64` range. -/
theorem Add_neg_Second (t : time.Time) (hw : t.wall = 0)
    (he0 : -9223372036854775807 ≤ t.ext) (he1 : t.ext ≤ 9223372036854775807) :
    t.Add (-Second) = ⟨0, t.ext - 1, t.loc⟩ := by
  obtain ⟨w, e, l⟩ := t
  simp only at hw he0 he1
  subst hw
  have e1 : (-Second).tdiv 1000000000 = -1 := by decide
  have e2 : (-Second).tmod 1000000000 = 0 := by decide
  have e3 : wrapInt64 (e + -1) = e - 1 := by
    apply wrapInt64_of_fits <;> omega
  have e4 : wrapInt64 (((0 % 2 ^ 63 / 2 ^ 30 : Nat) : Int) + -1) = -1 := by decide
  have hm : (⟨0, e, l⟩ : time.Time).hasMono = false := hasMono_of_lt _ (by norm_num)
  have hs : (⟨0, e, l⟩ : time.Time).stripMono = ⟨0, e, l⟩ := by
    simp only [time.Time.stripMono, hm, Bool.false_eq_true, ↓reduceIte]
  have hd : decide (e - 1 > e) = decide ((-1 : Int) > 0) := by
    have : ¬ (e - 1 > e) := by omega
    simp [this]
  have hA : (⟨0, e, l⟩ : time.Time).addSec (-1) = ⟨0, e - 1, l⟩ := by
    simp only [time.Time.addSec, hm, Bool.false_eq_true, false_and, ↓reduceIte, hs, e3, hd]
  have hm2 : (⟨0, e - 1, l⟩ : time.Time).hasMono = false := hasMono_of_lt _ (by norm_num)
  simp only [time.Time.Add, e1, e2, time.Time.nsec]
  norm_num
  rw [hA]
  simp only [hm2, Bool.false_eq_true, ↓reduceIte]

/-- The instant `StartTimeOfMonth` builds. -/
theorem StartTimeOfMonth_eq (t : Time) :
    StartTimeOfMonth t =
      ⟨Date (absDate t.std.abs true).1 (absDate t.std.abs true).2.1 1 0 0 0 0 t.std.Location⟩ := by
  obtain ⟨_, _, _, _, _, h6⟩ := absDate_spec t.std.abs
  simp only [StartTimeOfMonth, time.Time.Year, time.Time.Month, time.Time.date, h6]

/-- One month after the start of a month is the start of the next month. -/
theorem StartTimeOfMonth_AddDate (t : Time) (hfix : t.std.Location.Fixed) (hnear : t.std.Near) :
    (StartTimeOfMonth t).AddDate 0 1 0 =
      ⟨Date (if (absDate t.std.abs true).2.1 = 12 then (absDate t.std.abs true).1 + 1
              else (absDate t.std.abs true).1)
        (if (absDate t.std.abs true).2.1 = 12 then 1 else (absDate t.std.abs true).2.1 + 1)
        1 0 0 0 0 t.std.Location⟩ := by
  obtain ⟨m1, m2, d1, d2, hdiv, h6⟩ := absDate_spec t.std.abs
  obtain ⟨_, y0, y1⟩ := Near_abs t.std hfix hnear
  rw [StartTimeOfMonth_eq t]
  generalize (absDate t.std.abs true).1 = y at *
  generalize (absDate t.std.abs true).2.1 = m at *
  generalize t.std.Location = loc at *
  have hlen := monthLen_pos (isLeap y) m m1 m2
  rw [← daysIn_eq] at hlen
  obtain ⟨f1, f2, f3, f4, f5⟩ := Date_fields y m 1 0 0 0 0 loc m1 m2 (by omega) (by omega)
    (by omega) (by omega) (by omega) (by omega) (by omega) (by omega) hfix (by omega) (by omega)
    (by omega) (by omega)
  obtain ⟨dm1, dm2⟩ := absOf_div_mod y m 1 0 0 0 (by omega) (by omega) (by omega) (by omega)
    (by omega) (by omega)
  have hdate := (absDate_of (absOf y m 1 0 0 0) y m 1 m1 m2 (by omega) (by omega) dm1).1
  have hclock := absClock_of (absOf y m 1 0 0 0) 0 0 0 (by omega) (by omega) (by omega) (by omega)
    (by omega) (by omega) (by rw [dm2])
  simp only [Time.AddDate, time.Time.AddDate, time.Time.Date, time.Time.Clock, time.Time.date,
    f5, hdate, hclock, f3, f4]
  have := Date_month_succ y m 1 0 0 0 0 loc m1 m2
  simpa using this

/-- The instant `EndTimeOfMonth` builds: the last second of the month. -/
theorem EndTimeOfMonth_eq (t : Time) (hfix : t.std.Location.Fixed) (hnear : t.std.Near) :
    EndTimeOfMonth t =
      ⟨⟨0, absOf (absDate t.std.abs true).1 (absDate t.std.abs true).2.1
          (daysIn (absDate t.std.abs true).2.1 (absDate t.std.abs true).1) 23 59 59
          + absoluteToInternal - t.std.Location.fixedOffset,
        if t.std.Location = Location.utcLoc then none else some t.std.Location⟩⟩ := by
  obtain ⟨m1, m2, d1, d2, hdiv, h6⟩ := absDate_spec t.std.abs
  obtain ⟨_, y0, y1⟩ := Near_abs t.std hfix hnear
  have hadd := StartTimeOfMonth_AddDate t hfix hnear
  generalize (absDate t.std.abs true).1 = y at *
  generalize (absDate t.std.abs true).2.1 = m at *
  generalize t.std.Location = loc at *
  obtain ⟨o1, o2⟩ := fixedOffset_range loc hfix
  have hnm1 : 1 ≤ (if m = 12 then 1 else m + 1) := by split <;> omega
  have hnm2 : (if m = 12 then 1 else m + 1) ≤ 12 := by split <;> omega
  have hny0 : -200000000000 ≤ (if m = 12 then y + 1 else y) := by split <;> omega
  have hny1 : (if m = 12 then y + 1 else y) ≤ 200000000000 := by split <;> omega
  have hD := Date_eq (if m = 12 then y + 1 else y) (if m = 12 then 1 else m + 1) 1 0 0 0 0 loc
    hnm1 hnm2 (by omega) (by omega) (by omega) (by omega) (by omega) (by omega) (by omega)
    (by omega) hfix hny0 hny1 (by omega) (by omega)
  obtain ⟨b1, b2, _, _⟩ := absOf_bounds (if m = 12 then y + 1 else y)
    (if m = 12 then 1 else m + 1) 1 0 0 0 hnm1 hnm2 (by omega) (by omega) (by omega) (by omega)
    (by omega) (by omega) hny0 hny1 (by omega) (by omega)
  have hnext := absOf_next_month y m m1 m2
  have hE : EndTimeOfMonth t = ((StartTimeOfMonth t).AddDate 0 1 0).Add (-Second) := rfl
  rw [hE, hadd]
  simp only [Time.Add, hD]
  rw [Add_neg_Second _ rfl (by simp only [absoluteToInternal]; omega)
    (by simp only [absoluteToInternal]; omega)]
  simp only [hnext, Time.mk.injEq, time.Time.mk.injEq, true_and, and_true]
  simp only [absOf, yearDayOf]
  split <;> omega

/-- Fields of the instant `EndTimeOfMonth` builds. -/
theorem EndTimeOfMonth_fields (t : Time) (hfix : t.std.Location.Fixed) (hnear : t.std.Near) :
    (EndTimeOfMonth t).std.hasMono = false ∧
    (EndTimeOfMonth t).std.sec = absOf (absDate t.std.abs true).1 (absDate t.std.abs true).2.1
          (daysIn (absDate t.std.abs true).2.1 (absDate t.std.abs true).1) 23 59 59
          + absoluteToInternal - t.std.Location.fixedOffset ∧
    (EndTimeOfMonth t).std.nsec = 0 ∧
    (EndTimeOfMonth t).std.abs = absOf (absDate t.std.abs true).1 (absDate t.std.abs true).2.1
          (daysIn (absDate t.std.abs true).2.1 (absDate t.std.abs true).1) 23 59 59 := by
  rw [EndTimeOfMonth_eq t hfix hnear]
  obtain ⟨m1, m2, d1, d2, hdiv, h6⟩ := absDate_spec t.std.abs
  obtain ⟨_, y0, y1⟩ := Near_abs t.std hfix hnear
  have hlen := monthLen_pos (isLeap (absDate t.std.abs true).1) (absDate t.std.abs true).2.1 m1 m2
  rw [← daysIn_eq] at hlen
  obtain ⟨b1, b2, _, _⟩ := absOf_bounds (absDate t.std.abs true).1 (absDate t.std.abs true).2.1
    (daysIn (absDate t.std.abs true).2.1 (absDate t.std.abs true).1) 23 59 59 m1 m2 (by omega)
    (by omega) (by omega) (by omega) (by omega) (by omega) (by omega) (by omega) (by omega)
    (by omega)
  obtain ⟨o1, o2⟩ := fixedOffset_range _ hfix
  obtain ⟨g1, g2, g3, g4, g5⟩ := mk0_fields (absOf (absDate t.std.abs true).1
    (absDate t.std.abs true).2.1 (daysIn (absDate t.std.abs true).2.1 (absDate t.std.abs true).1)
    23 59 59 + absoluteToInternal - t.std.Location.fixedOffset) t.std.Location hfix
    (by simp only [absoluteToInternal]; omega) (by simp only [absoluteToInternal]; omega)
  refine ⟨g1, g2, g3, ?_⟩
  rw [g5]
  simp only [absoluteToInternal, internalToAbsolute]
  omega

end localTime

/-! ## JSON encoding and decoding -/

namespace localTime
open time

theorem quotedLayout_eq :
    time.bytes "\"" ++ Layout ++ time.bytes "\"" = time.bytes "\"2006-01-02 15:04:05\"" := by
  rfl

theorem Layout_eq : Layout = time.bytes "2006-01-02 15:04:05" := rfl

theorem reflectIsZero_iff (t : Time) : t.reflectIsZero = true ↔ t = ⟨time.Time.zero⟩ := by
  obtain ⟨⟨w, e, l⟩⟩ := t
  simp only [Time.reflectIsZero, time.Time.zero, Bool.and_eq_true, decide_eq_true_eq,
    Option.isNone_iff_eq_none, Time.mk.injEq, time.Time.mk.injEq, and_assoc]

/-- Encoding a non-zero value prints the quoted default layout. -/
theorem MarshalJSON_nonzero (t : Time) (hz : t.reflectIsZero = false) :
    t.MarshalJSON = (t.std.Format (time.bytes "\"2006-01-02 15:04:05\""), none) := by
  simp only [Time.MarshalJSON, hz, Bool.false_eq_true, ↓reduceIte, Time.Format, quotedLayout_eq]

/-- A formatted default layout is longer than the empty JSON string. -/
theorem Format_quoted_length (t : time.Time) :
    7 ≤ (t.Format (time.bytes "\"2006-01-02 15:04:05\"")).length := by
  rw [Format_quoted, Format_Layout]
  simp only [List.length_append, List.length_singleton]
  omega

/-- Decoding a formatted default layout parses it in the local zone. -/
theorem UnmarshalJSON_Format (lcl : Location) (u : Time) (t : time.Time)
    (hy0 : 0 ≤ (absDate t.abs true).1) (hy : (absDate t.abs true).1 ≤ 9999) :
    Time.UnmarshalJSON lcl u (t.Format (time.bytes "\"2006-01-02 15:04:05\"")) =
      (⟨Date (absDate t.abs true).1 (absDate t.abs true).2.1 (absDate t.abs true).2.2.1
        (absClock t.abs).1 (absClock t.abs).2.1 (absClock t.abs).2.2 0 lcl⟩, none) := by
  have hlen := Format_quoted_length t
  have h1 : ¬ ((t.Format (time.bytes "\"2006-01-02 15:04:05\"")).length = 0 ∨
      (t.Format (time.bytes "\"2006-01-02 15:04:05\"")) = time.bytes "\"\"") := by
    rintro (h | h)
    · omega
    · rw [h] at hlen
      have : (time.bytes "\"\"").length = 2 := rfl
      omega
  simp only [Time.UnmarshalJSON, h1, ↓reduceIte, ParseLocalLayout, quotedLayout_eq,
    Parse_Format_quoted lcl t hy0 hy]

end localTime
/-! ## Claims C7 and C8: month boundaries -/

namespace localTime
open time

/-- C7, counterexample: three instants that are after `EndTimeOfMonth` of
themselves.  (1) 2024-01-31 23:59:59.5 UTC: the end of the month is
2024-01-31 23:59:59.0.  (2) 2017-10-31 12:00:00 in America/Asuncion: midnight
of 1 October 2017 was skipped there, so `StartTimeOfMonth` is 2017-09-30
23:00:00 and `EndTimeOfMonth`, one month later less a second, is 2017-10-30
22:59:59.  (3) The last instant of the `int64` range, `Unix(9223371974719179007,
0)` in UTC: the start of the next month wraps around. -/
theorem month_bounds_counterexample :
    (⟨⟨500000000, 63842342399, none⟩⟩ : Time).After
      (EndTimeOfMonth ⟨⟨500000000, 63842342399, none⟩⟩) = true ∧
    ((Unix Asuncion 1509462000 0).std.Date = (2017, 10, 31) ∧
      (Unix Asuncion 1509462000 0).std.Clock = (12, 0, 0) ∧
      (EndTimeOfMonth (Unix Asuncion 1509462000 0)).std.Date = (2017, 10, 30) ∧
      (Unix Asuncion 1509462000 0).After (EndTimeOfMonth (Unix Asuncion 1509462000 0)) = true) ∧
    (Unix Location.utcLoc 9223371974719179007 0).After
      (EndTimeOfMonth (Unix Location.utcLoc 9223371974719179007 0)) = true := by
  decide

/-- Seconds of `t`, of the start and of the end of its month, in a location
without transitions and away from the ends of the `int64` range. -/
theorem month_seconds (t : Time) (hfix : t.std.Location.Fixed) (hnear : t.std.Near) :
    (StartTimeOfMonth t).std.hasMono = false ∧ (StartTimeOfMonth t).std.nsec = 0 ∧
    (EndTimeOfMonth t).std.hasMono = false ∧ (EndTimeOfMonth t).std.nsec = 0 ∧
    t.std.sec - (StartTimeOfMonth t).std.sec =
      (t.std.Day - 1) * 86400
        + (t.std.Clock.1 * 3600 + t.std.Clock.2.1 * 60 + t.std.Clock.2.2) ∧
    (EndTimeOfMonth t).std.sec - (StartTimeOfMonth t).std.sec =
      daysIn t.std.Month t.std.Year * 86400 - 1 ∧
    1 ≤ t.std.Day ∧ t.std.Day ≤ daysIn t.std.Month t.std.Year ∧
    0 ≤ t.std.Clock.1 * 3600 + t.std.Clock.2.1 * 60 + t.std.Clock.2.2 ∧
    t.std.Clock.1 * 3600 + t.std.Clock.2.1 * 60 + t.std.Clock.2.2 ≤ 86399 := by
  obtain ⟨m1, m2, d1, d2, hdiv, h6⟩ := absDate_spec t.std.abs
  obtain ⟨c1, c2, c3, c4, c5, c6, c7⟩ := absClock_spec t.std.abs
  obtain ⟨e1, e2, e3, e4⟩ := EndTimeOfMonth_fields t hfix hnear
  obtain ⟨habs, y0, y1⟩ := Near_abs t.std hfix hnear
  have hst := StartTimeOfMonth_eq t
  have hY : t.std.Year = (absDate t.std.abs true).1 := h6
  have hM : t.std.Month = (absDate t.std.abs true).2.1 := rfl
  have hD : t.std.Day = (absDate t.std.abs true).2.2.1 := rfl
  have hC : t.std.Clock = absClock t.std.abs := rfl
  rw [hY, hM, hD, hC]
  generalize (absDate t.std.abs true).1 = y at *
  generalize (absDate t.std.abs true).2.1 = m at *
  generalize (absDate t.std.abs true).2.2.1 = dd at *
  obtain ⟨f1, f2, f3, f4, f5⟩ := Date_fields y m 1 0 0 0 0 t.std.Location m1 m2 (by omega)
    (by omega) (by omega) (by omega) (by omega) (by omega) (by omega) (by omega) hfix (by omega)
    (by omega) (by omega) (by omega)
  -- seconds of the start, of `t` and of the end, relative to the first of the month
  have k1 : yearDayOf (isLeap y) m dd = yearDayOf (isLeap y) m 1 + (dd - 1) := by
    simp only [yearDayOf]; omega
  have k2 : yearDayOf (isLeap y) m (daysIn m y) = yearDayOf (isLeap y) m 1 + (daysIn m y - 1) := by
    simp only [yearDayOf]; omega
  rw [k1] at hdiv
  simp only [absOf, k2] at e2 f2
  simp only [absoluteToInternal, internalToAbsolute] at habs e2 f2
  have hm : (StartTimeOfMonth t).std.hasMono = false := by rw [hst]; exact f1
  have hz : (StartTimeOfMonth t).std.nsec = 0 := by rw [hst]; exact f3
  have hs : (StartTimeOfMonth t).std.sec = (Date y m 1 0 0 0 0 t.std.Location).sec := by
    rw [hst]
  refine ⟨hm, hz, e1, e3, ?_, ?_, d1, d2, by omega, by omega⟩
  · rw [hs, f2]
    omega
  · rw [hs, f2, e2]
    omega

/-- C7 (amended): for every `t` in a location without zone transitions (UTC or
a `time.FixedZone`) and within `2^62` seconds of 0001-01-01 00:00:00 UTC,
`StartTimeOfMonth t` is not after `t`: it lies exactly the elapsed part of the
month before `t` (day of the month less one, and the clock reading);
`EndTimeOfMonth t` is the last whole second of the month, `daysIn * 86400 - 1`
seconds after the start, and `t` is never a whole second past it; `t` is after
`EndTimeOfMonth t` exactly when it lies in that last second with a non-zero
nanosecond part. -/
theorem month_bounds (t : Time) (hfix : t.std.Location.Fixed) (hnear : t.std.Near) :
    (StartTimeOfMonth t).After t = false ∧
    t.std.sec - (StartTimeOfMonth t).std.sec =
      (t.std.Day - 1) * 86400
        + (t.std.Clock.1 * 3600 + t.std.Clock.2.1 * 60 + t.std.Clock.2.2) ∧
    (EndTimeOfMonth t).std.sec - (StartTimeOfMonth t).std.sec =
      daysIn t.std.Month t.std.Year * 86400 - 1 ∧
    (StartTimeOfMonth t).std.Nanosecond = 0 ∧ (EndTimeOfMonth t).std.Nanosecond = 0 ∧
    t.std.sec ≤ (EndTimeOfMonth t).std.sec ∧
    (t.After (EndTimeOfMonth t) = true ↔
      (t.std.sec = (EndTimeOfMonth t).std.sec ∧ 0 < t.std.nsec)) := by
  obtain ⟨hm, hz, e1, e3, hs, he, d1, d2, q0, q1⟩ := month_seconds t hfix hnear
  have hn0 : 0 ≤ t.std.nsec := by simp only [time.Time.nsec]; omega
  have hle : t.std.sec ≤ (EndTimeOfMonth t).std.sec := by
    have : 0 ≤ (daysIn t.std.Month t.std.Year - t.std.Day) * 86400 := by
      have : 0 ≤ daysIn t.std.Month t.std.Year - t.std.Day := by omega
      omega
    omega
  have hge : (StartTimeOfMonth t).std.sec ≤ t.std.sec := by
    have : 0 ≤ (t.std.Day - 1) * 86400 := by
      have : 0 ≤ t.std.Day - 1 := by omega
      omega
    omega
  refine ⟨?_, hs, he, hz, e3, hle, ?_⟩
  · simp only [Time.After, time.Time.After, hm, Bool.false_and, Bool.false_eq_true, ↓reduceIte,
      hz]
    simp only [Bool.or_eq_false_iff, decide_eq_false_iff_not, Bool.and_eq_false_imp,
      decide_eq_true_eq]
    constructor
    · omega
    · intro _; omega
  · simp only [Time.After, time.Time.After, e1, Bool.and_false, Bool.false_eq_true, ↓reduceIte,
      e3]
    simp only [Bool.or_eq_true, decide_eq_true_eq, Bool.and_eq_true]
    constructor
    · rintro (h | h)
      · omega
      · exact h
    · intro h; exact Or.inr h

/-- C7, witness: 2024-02-15 12:30:45.5 in the zone UTC+8: the start of the
month is 14 days and 45045 seconds before it, and the end of the month 29 days
less a second after the start. -/
theorem month_bounds_witness :
    (StartTimeOfMonth ⟨⟨500000000, 63843568245, some (Location.fixed "Local" 28800)⟩⟩).After
      ⟨⟨500000000, 63843568245, some (Location.fixed "Local" 28800)⟩⟩ = false ∧
    (⟨⟨500000000, 63843568245, some (Location.fixed "Local" 28800)⟩⟩ : Time).After
      (EndTimeOfMonth ⟨⟨500000000, 63843568245, some (Location.fixed "Local" 28800)⟩⟩)
        = false ∧
    (EndTimeOfMonth ⟨⟨500000000, 63843568245, some (Location.fixed "Local" 28800)⟩⟩).std.sec
      - (StartTimeOfMonth ⟨⟨500000000, 63843568245,
          some (Location.fixed "Local" 28800)⟩⟩).std.sec = 29 * 86400 - 1 :=
  ⟨(month_bounds ⟨⟨500000000, 63843568245, some (Location.fixed "Local" 28800)⟩⟩
      (by decide) (by decide)).1,
   by decide, by decide⟩

/-- C8, counterexample: in America/Asuncion midnight of 1 October 2017 was
skipped, and for `t` = 2017-10-31 12:00:00 `EndTimeOfMonth` is 2017-10-30
22:59:59, neither the last day of October nor 23:59:59; in Asia/Shanghai
midnight of 1 June 1940 was skipped, and for `t` = 1940-06-15 12:00:00
`EndTimeOfMonth` is 1940-07-01 00:59:59, in the next month. -/
theorem EndTimeOfMonth_counterexample :
    ((Unix Asuncion 1509462000 0).std.Date = (2017, 10, 31) ∧
      (Unix Asuncion 1509462000 0).std.Clock = (12, 0, 0) ∧
      (EndTimeOfMonth (Unix Asuncion 1509462000 0)).std.Date = (2017, 10, 30) ∧
      (EndTimeOfMonth (Unix Asuncion 1509462000 0)).std.Clock = (22, 59, 59)) ∧
    ((Unix Shanghai (-932418000) 0).std.Date = (1940, 6, 15) ∧
      (Unix Shanghai (-932418000) 0).std.Clock = (12, 0, 0) ∧
      (EndTimeOfMonth (Unix Shanghai (-932418000) 0)).std.Date = (1940, 7, 1) ∧
      (EndTimeOfMonth (Unix Shanghai (-932418000) 0)).std.Clock = (0, 59, 59)) := by
  decide

/-- C8 (amended): for every `t` in a location without zone transitions (UTC or
a `time.FixedZone`) and within `2^62` seconds of 0001-01-01 00:00:00 UTC,
`EndTimeOfMonth t` has the year and month of `t`, its day is the last day of
that month (`daysIn`: 28 or 29 for February according to the leap year, 30 for
April, June, September and November, 31 otherwise), its clock reads 23:59:59
with zero nanoseconds, and it is the start of the next month minus one
second. -/
theorem EndTimeOfMonth_last_second (t : Time) (hfix : t.std.Location.Fixed)
    (hnear : t.std.Near) :
    (EndTimeOfMonth t).std.Year = t.std.Year ∧
    (EndTimeOfMonth t).std.Month = t.std.Month ∧
    (EndTimeOfMonth t).std.Day = daysIn t.std.Month t.std.Year ∧
    (EndTimeOfMonth t).std.Day =
      (if t.std.Month = 2 then (if isLeap t.std.Year then 29 else 28)
       else if t.std.Month = 4 ∨ t.std.Month = 6 ∨ t.std.Month = 9 ∨ t.std.Month = 11 then 30
       else 31) ∧
    (EndTimeOfMonth t).std.Clock = (23, 59, 59) ∧
    (EndTimeOfMonth t).std.Nanosecond = 0 ∧
    EndTimeOfMonth t =
      (⟨time.Date (if t.std.Month = 12 then t.std.Year + 1 else t.std.Year)
          (if t.std.Month = 12 then 1 else t.std.Month + 1) 1 0 0 0 0 t.std.Location⟩ : Time).Add
        (-Second) := by
  obtain ⟨m1, m2, d1, d2, hdiv, h6⟩ := absDate_spec t.std.abs
  obtain ⟨e1, e2, e3, e4⟩ := EndTimeOfMonth_fields t hfix hnear
  have hadd := StartTimeOfMonth_AddDate t hfix hnear
  have hE : EndTimeOfMonth t = ((StartTimeOfMonth t).AddDate 0 1 0).Add (-Second) := rfl
  have hY : t.std.Year = (absDate t.std.abs true).1 := h6
  have hM : t.std.Month = (absDate t.std.abs true).2.1 := rfl
  rw [hY, hM]
  generalize (absDate t.std.abs true).1 = y at *
  generalize (absDate t.std.abs true).2.1 = m at *
  have hlen := monthLen_pos (isLeap y) m m1 m2
  rw [← daysIn_eq] at hlen
  obtain ⟨dm1, dm2⟩ := absOf_div_mod y m (daysIn m y) 23 59 59 (by omega) (by omega) (by omega)
    (by omega) (by omega) (by omega)
  obtain ⟨hdate, hdate'⟩ := absDate_of (absOf y m (daysIn m y) 23 59 59) y m (daysIn m y) m1 m2
    (by omega) (le_refl _) dm1
  have hclock := absClock_of (absOf y m (daysIn m y) 23 59 59) 23 59 59 (by omega) (by omega)
    (by omega) (by omega) (by omega) (by omega) (by rw [dm2])
  refine ⟨?_, ?_, ?_, ?_, ?_, ?_, ?_⟩
  · simp only [time.Time.Year, time.Time.date, e4, hdate']
  · simp only [time.Time.Month, time.Time.date, e4, hdate]
  · simp only [time.Time.Day, time.Time.date, e4, hdate]
  · simp only [time.Time.Day, time.Time.date, e4, hdate]
    obtain ⟨v0, v1, v2, v3, v4, v5, v6, v7, v8, v9, v10, v11, v12⟩ := daysBefore_vals
    have hm' : m = 1 ∨ m = 2 ∨ m = 3 ∨ m = 4 ∨ m = 5 ∨ m = 6 ∨ m = 7 ∨ m = 8 ∨ m = 9 ∨ m = 10 ∨
      m = 11 ∨ m = 12 := by omega
    clear hlen hdate hdate' dm1 dm2 hclock e2 e4 hadd hdiv d2
    rcases hm' with rfl | rfl | rfl | rfl | rfl | rfl | rfl | rfl | rfl | rfl | rfl | rfl <;>
      cases hleap : isLeap y <;>
      simp [daysIn, hleap, v0, v1, v2, v3, v4, v5, v6, v7, v8, v9, v10, v11, v12]
  · simp only [time.Time.Clock, e4, hclock]
  · exact e3
  · rw [hE, hadd]

/-- C8, witness: 2024-02-15 12:30:45.5 in the zone UTC+8: the end of the month
is 2024-02-29 23:59:59. -/
theorem EndTimeOfMonth_last_second_witness :
    (EndTimeOfMonth ⟨⟨500000000, 63843568245, some (Location.fixed "Local" 28800)⟩⟩).std.Day
      = 29 ∧
    (EndTimeOfMonth ⟨⟨500000000, 63843568245, some (Location.fixed "Local" 28800)⟩⟩).std.Clock
      = (23, 59, 59) :=
  ⟨by
    rw [(EndTimeOfMonth_last_second
      ⟨⟨500000000, 63843568245, some (Location.fixed "Local" 28800)⟩⟩ (by decide)
      (by decide)).2.2.1]
    decide,
   (EndTimeOfMonth_last_second ⟨⟨500000000, 63843568245, some (Location.fixed "Local" 28800)⟩⟩
      (by decide) (by decide)).2.2.2.2.1⟩

end localTime

/-! ## Claims C1 and C2: JSON round trips -/

namespace localTime
open time

/-- C1, counterexample: (1) the instant 2024-01-15 12:30:45 UTC (a value in the
UTC location, as `FromTimestamppb` returns) is encoded without its zone and
decoded in the local zone (here UTC+8), eight hours earlier: the decoded value
is not `Equal` to the original.  (2) With `time.Local` = Asia/Shanghai,
`Unix(527011200, 0)` is 1986-09-14 01:00:00 in daylight time, an hour that
came twice; the text is decoded to the second pass, 3600 seconds later. -/
theorem Unmarshal_Marshal_counterexample :
    ((Time.UnmarshalJSON (Location.fixed "Local" 28800) ⟨time.Time.zero⟩
        (Time.MarshalJSON ⟨⟨0, 63840918645, none⟩⟩).1).2 = none ∧
      (Time.UnmarshalJSON (Location.fixed "Local" 28800) ⟨time.Time.zero⟩
          (Time.MarshalJSON ⟨⟨0, 63840918645, none⟩⟩).1).1.Equal
        ((⟨⟨0, 63840918645, none⟩⟩ : Time).Add
          (-(⟨⟨0, 63840918645, none⟩⟩ : Time).std.nsec)) = false) ∧
    ((Time.MarshalJSON (Unix Shanghai 527011200 0)).1 = time.bytes "\"1986-09-14 01:00:00\"" ∧
      (Time.UnmarshalJSON Shanghai ⟨time.Time.zero⟩
        (Time.MarshalJSON (Unix Shanghai 527011200 0)).1).2 = none ∧
      (Time.UnmarshalJSON Shanghai ⟨time.Time.zero⟩
        (Time.MarshalJSON (Unix Shanghai 527011200 0)).1).1.Unix = 527011200 + 3600 ∧
      (Time.UnmarshalJSON Shanghai ⟨time.Time.zero⟩
          (Time.MarshalJSON (Unix Shanghai 527011200 0)).1).1.Equal
        ((Unix Shanghai 527011200 0).Add (-(Unix Shanghai 527011200 0).std.nsec)) = false) := by
  decide

/-- C1 (amended): for every non-zero `t` (nanoseconds below one second, `ext`
an `int64`) in a location without zone transitions (UTC or a `time.FixedZone`)
whose offset is that of the local zone, itself without transitions, and whose
year is within 0..9999, `UnmarshalJSON` of `MarshalJSON t` returns no error and
sets the target to a value `Equal` to `t` truncated to whole seconds. -/
theorem Unmarshal_Marshal (lcl : Location) (u t : Time) (hv : t.std.Valid)
    (he0 : -9223372036854775808 ≤ t.std.ext) (he1 : t.std.ext < 9223372036854775808)
    (hz : t.reflectIsZero = false) (hy0 : 0 ≤ t.std.Year) (hy : t.std.Year ≤ 9999)
    (hfixt : t.std.Location.Fixed) (hfixl : lcl.Fixed)
    (hoff : t.std.Location.fixedOffset = lcl.fixedOffset) :
    (Time.UnmarshalJSON lcl u t.MarshalJSON.1).2 = none ∧
    (Time.UnmarshalJSON lcl u t.MarshalJSON.1).1.Equal (t.Add (-t.std.nsec)) = true := by
  obtain ⟨m1, m2, d1, d2, hdiv, h6⟩ := absDate_spec t.std.abs
  obtain ⟨c1, c2, c3, c4, c5, c6, c7⟩ := absClock_spec t.std.abs
  have hY : t.std.Year = (absDate t.std.abs true).1 := h6
  rw [hY] at hy0 hy
  have hlen := monthLen_pos (isLeap (absDate t.std.abs true).1) (absDate t.std.abs true).2.1 m1 m2
  rw [← daysIn_eq] at hlen
  rw [MarshalJSON_nonzero t hz]
  simp only [UnmarshalJSON_Format lcl u t.std hy0 hy, true_and]
  obtain ⟨f1, f2, f3, f4, f5⟩ := Date_fields (absDate t.std.abs true).1 (absDate t.std.abs true).2.1
    (absDate t.std.abs true).2.2.1 (absClock t.std.abs).1 (absClock t.std.abs).2.1
    (absClock t.std.abs).2.2 0 lcl m1 m2 c1 c2 c3 c4 c5 c6 (by omega) (by omega) hfixl (by omega)
    (by omega) (by omega) (by omega)
  obtain ⟨a1, a2⟩ := Add_neg_nsec t.std hv he0 he1
  have habs := abs_eq_of_year t.std hfixt he0 he1 hy0 hy
  rw [absOf_absDate] at f2
  simp only [Time.Equal, time.Time.Equal, f1, Bool.false_and, Bool.false_eq_true, ↓reduceIte,
    Time.Add, a1, a2, f2, f3, Bool.and_eq_true, decide_eq_true_eq, and_true]
  simp only [absoluteToInternal, internalToAbsolute] at *
  omega

/-- C1, witness: 2024-01-15 12:30:45.5 in the local zone UTC+8. -/
theorem Unmarshal_Marshal_witness :
    (Time.UnmarshalJSON (Location.fixed "Local" 28800) ⟨time.Time.zero⟩
        (Time.MarshalJSON ⟨⟨500000000, 63840889845, some (Location.fixed "Local" 28800)⟩⟩).1).2
      = none ∧
    (Time.UnmarshalJSON (Location.fixed "Local" 28800) ⟨time.Time.zero⟩
        (Time.MarshalJSON ⟨⟨500000000, 63840889845, some (Location.fixed "Local" 28800)⟩⟩).1).1.Equal
      ((⟨⟨500000000, 63840889845, some (Location.fixed "Local" 28800)⟩⟩ : Time).Add
        (-(⟨⟨500000000, 63840889845, some (Location.fixed "Local" 28800)⟩⟩ : Time).std.nsec))
      = true :=
  Unmarshal_Marshal (Location.fixed "Local" 28800) ⟨time.Time.zero⟩
    ⟨⟨500000000, 63840889845, some (Location.fixed "Local" 28800)⟩⟩ (by decide) (by decide)
    (by decide) (by decide) (by decide) (by decide) (by decide) (by decide) (by decide)

/-- The quoted default layout depends on the instant only through its
absolute (zone-shifted) second. -/
theorem Format_quoted_congr (t u : time.Time) (h : t.abs = u.abs) :
    t.Format (time.bytes "\"2006-01-02 15:04:05\"") =
      u.Format (time.bytes "\"2006-01-02 15:04:05\"") := by
  rw [Format_quoted, Format_quoted, Format_Layout, Format_Layout, h]

/-- C2, counterexample: (1) `Unix(253402272000, 0)` in the local zone UTC+8 is
10000-01-01 00:00:00; `MarshalJSON` prints a five-digit year, which
`UnmarshalJSON` rejects.  (2) With `time.Local = time.UTC` the non-zero value
one nanosecond after the zero Time is printed as 0001-01-01 00:00:00 and
decoded to the zero Time, which encodes as `""`.  (3) With `time.Local` =
Asia/Shanghai the text `1986-05-04 02:30:00`, which `MarshalJSON` returns for
that instant of UTC, names an hour that was skipped; it is decoded to
03:30:00 and encoded as `1986-05-04 03:30:00`. -/
theorem Marshal_Unmarshal_counterexample :
    ((Time.MarshalJSON (Unix (Location.fixed "Local" 28800) 253402272000 0)).1
      = time.bytes "\"10000-01-01 00:00:00\"" ∧
    (Time.UnmarshalJSON (Location.fixed "Local" 28800) ⟨time.Time.zero⟩
        (Time.MarshalJSON (Unix (Location.fixed "Local" 28800) 253402272000 0)).1).2
      = some Error.parseError) ∧
    ((Time.MarshalJSON ⟨⟨1, 0, none⟩⟩).1 = time.bytes "\"0001-01-01 00:00:00\"" ∧
      (Time.UnmarshalJSON Location.utcLoc ⟨time.Time.zero⟩
        (Time.MarshalJSON ⟨⟨1, 0, none⟩⟩).1) = (⟨time.Time.zero⟩, none) ∧
      (Time.MarshalJSON (Time.UnmarshalJSON Location.utcLoc ⟨time.Time.zero⟩
        (Time.MarshalJSON ⟨⟨1, 0, none⟩⟩).1).1).1 = time.bytes "\"\"") ∧
    ((Time.MarshalJSON ⟨⟨0, 62651154600, none⟩⟩).1 = time.bytes "\"1986-05-04 02:30:00\"" ∧
      (Time.UnmarshalJSON Shanghai ⟨time.Time.zero⟩
        (Time.MarshalJSON ⟨⟨0, 62651154600, none⟩⟩).1).2 = none ∧
      (Time.MarshalJSON (Time.UnmarshalJSON Shanghai ⟨time.Time.zero⟩
        (Time.MarshalJSON ⟨⟨0, 62651154600, none⟩⟩).1).1).1
          = time.bytes "\"1986-05-04 03:30:00\"") := by
  decide

/-- C2 (amended): when the local zone has no zone transitions (`time.Local` is
UTC or a `time.FixedZone`), for every Time `t` whose year is within 0..9999,
decoding the bytes `s` that `MarshalJSON t` returns into a zero-valued target
succeeds, and `MarshalJSON` of the decoded target returns `s` again, except
when the decoded target is the zero Time (`time.Local` is UTC and `s` reads
0001-01-01 00:00:00). -/
theorem Marshal_Unmarshal (lcl : Location) (t : Time) (hfix : lcl.Fixed)
    (hy0 : 0 ≤ t.std.Year) (hy : t.std.Year ≤ 9999) :
    (Time.UnmarshalJSON lcl ⟨time.Time.zero⟩ t.MarshalJSON.1).2 = none ∧
    ((Time.UnmarshalJSON lcl ⟨time.Time.zero⟩ t.MarshalJSON.1).1.MarshalJSON = t.MarshalJSON ∨
      ((Time.UnmarshalJSON lcl ⟨time.Time.zero⟩ t.MarshalJSON.1).1 = ⟨time.Time.zero⟩ ∧
        lcl = Location.utcLoc ∧
        t.MarshalJSON.1 = time.bytes "\"0001-01-01 00:00:00\"")) := by
  by_cases hz : t.reflectIsZero = true
  · have ht := (reflectIsZero_iff t).1 hz
    subst ht
    refine ⟨rfl, Or.inl rfl⟩
  · have hz0 : t.reflectIsZero = false := by simpa using hz
    obtain ⟨m1, m2, d1, d2, hdiv, h6⟩ := absDate_spec t.std.abs
    obtain ⟨c1, c2, c3, c4, c5, c6, c7⟩ := absClock_spec t.std.abs
    have hY : t.std.Year = (absDate t.std.abs true).1 := h6
    rw [hY] at hy0 hy
    have hlen := monthLen_pos (isLeap (absDate t.std.abs true).1) (absDate t.std.abs true).2.1
      m1 m2
    rw [← daysIn_eq] at hlen
    rw [MarshalJSON_nonzero t hz0]
    simp only [UnmarshalJSON_Format lcl ⟨time.Time.zero⟩ t.std hy0 hy, true_and]
    obtain ⟨f1, f2, f3, f4, f5⟩ := Date_fields (absDate t.std.abs true).1
      (absDate t.std.abs true).2.1 (absDate t.std.abs true).2.2.1 (absClock t.std.abs).1
      (absClock t.std.abs).2.1 (absClock t.std.abs).2.2 0 lcl m1 m2 c1 c2 c3 c4 c5 c6 (by omega)
      (by omega) hfix (by omega) (by omega) (by omega) (by omega)
    rw [absOf_absDate] at f5
    have hD := Date_eq (absDate t.std.abs true).1
      (absDate t.std.abs true).2.1 (absDate t.std.abs true).2.2.1 (absClock t.std.abs).1
      (absClock t.std.abs).2.1 (absClock t.std.abs).2.2 0 lcl m1 m2 c1 c2 c3 c4 c5 c6 (by omega)
      (by omega) hfix (by omega) (by omega) (by omega) (by omega)
    generalize Date (absDate t.std.abs true).1
      (absDate t.std.abs true).2.1 (absDate t.std.abs true).2.2.1 (absClock t.std.abs).1
      (absClock t.std.abs).2.1 (absClock t.std.abs).2.2 0 lcl = t' at *
    by_cases hz' : (⟨t'⟩ : Time).reflectIsZero = true
    · right
      have ht' := (reflectIsZero_iff ⟨t'⟩).1 hz'
      refine ⟨ht', ?_, ?_⟩
      · have ht'' : t' = time.Time.zero := by simpa using ht'
        rw [ht''] at hD
        by_cases hl : lcl = Location.utcLoc
        · exact hl
        · simp [time.Time.zero, hl] at hD
      · have ht'' : t' = time.Time.zero := by simpa using ht'
        rw [ht''] at f5
        rw [Format_quoted_congr t.std time.Time.zero f5.symm]
        rfl
    · left
      have hz0' : (⟨t'⟩ : Time).reflectIsZero = false := by simpa using hz'
      rw [MarshalJSON_nonzero _ hz0']
      rw [Format_quoted_congr t' t.std f5]

/-- C2, witness: the instant 2024-01-15 12:30:45 UTC decoded in the zone UTC+8
is encoded again as `2024-01-15 12:30:45`. -/
theorem Marshal_Unmarshal_witness :
    (Time.UnmarshalJSON (Location.fixed "Local" 28800) ⟨time.Time.zero⟩
        (Time.MarshalJSON ⟨⟨0, 63840918645, none⟩⟩).1).2 = none ∧
    ((Time.UnmarshalJSON (Location.fixed "Local" 28800) ⟨time.Time.zero⟩
        (Time.MarshalJSON ⟨⟨0, 63840918645, none⟩⟩).1).1.MarshalJSON
        = Time.MarshalJSON ⟨⟨0, 63840918645, none⟩⟩ ∨
      ((Time.UnmarshalJSON (Location.fixed "Local" 28800) ⟨time.Time.zero⟩
          (Time.MarshalJSON ⟨⟨0, 63840918645, none⟩⟩).1).1 = ⟨time.Time.zero⟩ ∧
        Location.fixed "Local" 28800 = Location.utcLoc ∧
        (Time.MarshalJSON ⟨⟨0, 63840918645, none⟩⟩).1
          = time.bytes "\"0001-01-01 00:00:00\"")) :=
  Marshal_Unmarshal (Location.fixed "Local" 28800) ⟨⟨0, 63840918645, none⟩⟩ (by decide)
    (by decide) (by decide)

end localTime

/-! ## Claims C3, C4, C5: JSON encoding, absent input, decode errors -/

namespace localTime
open time

/-- The default string of a non-zero value between two quotes. -/
theorem MarshalJSON_String (t : Time) (hz : t.reflectIsZero = false) :
    t.MarshalJSON.1 = time.bytes "\"" ++ t.String ++ time.bytes "\"" := by
  rw [MarshalJSON_nonzero t hz]
  simp only [Time.String, hz, Bool.false_eq_true, ↓reduceIte, Time.Format, Layout_eq]
  rw [Format_quoted]
  rfl

/-- C3: `MarshalJSON` never returns an error; for the zero value it returns
exactly the two bytes `""`; for every non-zero `t` it returns `t.String()`, the
default layout (four-digit year, two-digit month, day, hour, minute and second
with their separators), between one pair of double quotes. -/
theorem MarshalJSON_spec (t : Time) :
    t.MarshalJSON.2 = none ∧
    (Time.MarshalJSON ⟨time.Time.zero⟩).1 = [34, 34] ∧
    t.MarshalJSON.1 =
      (if t = ⟨time.Time.zero⟩ then time.bytes "\"\""
       else time.bytes "\"" ++ t.String ++ time.bytes "\"") ∧
    t.String =
      (if t = ⟨time.Time.zero⟩ then []
       else appendInt [] t.std.Year 4 ++ [45] ++ appendInt [] t.std.Month 2 ++ [45]
        ++ appendInt [] t.std.Day 2 ++ [32] ++ appendInt [] t.std.Clock.1 2 ++ [58]
        ++ appendInt [] t.std.Clock.2.1 2 ++ [58] ++ appendInt [] t.std.Clock.2.2 2) := by
  have hY : t.std.Year = (absDate t.std.abs true).1 := (absDate_spec t.std.abs).2.2.2.2.2
  by_cases hz : t.reflectIsZero = true
  · have ht := (reflectIsZero_iff t).1 hz
    subst ht
    refine ⟨rfl, rfl, rfl, rfl⟩
  · have hz0 : t.reflectIsZero = false := by simpa using hz
    have hne : ¬ (t = ⟨time.Time.zero⟩) := fun h => hz ((reflectIsZero_iff t).2 h)
    refine ⟨?_, rfl, ?_, ?_⟩
    · rw [MarshalJSON_nonzero t hz0]
    · simp only [hne, ↓reduceIte]
      exact MarshalJSON_String t hz0
    · simp only [hne, ↓reduceIte, Time.String, hz0, Bool.false_eq_true, Time.Format, Layout_eq]
      rw [Format_Layout, hY]
      rfl

/-- C4: `UnmarshalJSON` with empty data or with exactly the two bytes `""`
returns no error and leaves the target as it was, whatever the target. -/
theorem UnmarshalJSON_absent (lcl : Location) (t : Time) :
    Time.UnmarshalJSON lcl t [] = (t, none) ∧
    Time.UnmarshalJSON lcl t (time.bytes "\"\"") = (t, none) ∧
    Time.UnmarshalJSON lcl t [34, 34] = (t, none) := by
  refine ⟨rfl, rfl, rfl⟩

/-- C5: for an input that is neither empty nor `""`, `UnmarshalJSON` returns an
error exactly when the input does not parse against the quoted default layout;
when it returns an error, that is the parse error handed on, and the target is
unchanged.  Unquoted text, `null` and a quoted date-only string are errors. -/
theorem UnmarshalJSON_error_iff (lcl : Location) (t : Time) (data : List Nat)
    (h1 : data ≠ []) (h2 : data ≠ time.bytes "\"\"") :
    ((Time.UnmarshalJSON lcl t data).2 ≠ none ↔
      time.ParseInLocation (time.bytes "\"" ++ Layout ++ time.bytes "\"") data lcl = none) ∧
    ((Time.UnmarshalJSON lcl t data).2 ≠ none → (Time.UnmarshalJSON lcl t data).1 = t) ∧
    (Time.UnmarshalJSON lcl t data).2 =
      (ParseLocalLayout lcl (time.bytes "\"" ++ Layout ++ time.bytes "\"") data).2 ∧
    Time.UnmarshalJSON lcl t (time.bytes "2024-01-15 12:30:45") = (t, some Error.parseError) ∧
    Time.UnmarshalJSON lcl t (time.bytes "null") = (t, some Error.parseError) ∧
    Time.UnmarshalJSON lcl t (time.bytes "\"2024-01-15\"") = (t, some Error.parseError) := by
  have hd : ¬ (data.length = 0 ∨ data = time.bytes "\"\"") := by
    rintro (h | h)
    · exact h1 (List.length_eq_zero.1 h)
    · exact h2 h
  refine ⟨?_, ?_, ?_, rfl, rfl, rfl⟩
  · simp only [Time.UnmarshalJSON, hd, ↓reduceIte, ParseLocalLayout]
    cases time.ParseInLocation (time.bytes "\"" ++ Layout ++ time.bytes "\"") data lcl <;> simp
  · simp only [Time.UnmarshalJSON, hd, ↓reduceIte, ParseLocalLayout]
    cases time.ParseInLocation (time.bytes "\"" ++ Layout ++ time.bytes "\"") data lcl <;> simp
  · simp only [Time.UnmarshalJSON, hd, ↓reduceIte, ParseLocalLayout]
    cases time.ParseInLocation (time.bytes "\"" ++ Layout ++ time.bytes "\"") data lcl <;> simp

/-- C5, witness: the input `null`. -/
theorem UnmarshalJSON_error_iff_witness :
    (time.bytes "null" ≠ [] ∧ time.bytes "null" ≠ time.bytes "\"\"") ∧
    (((Time.UnmarshalJSON Location.utcLoc ⟨time.Time.zero⟩ (time.bytes "null")).2 ≠ none ↔
      time.ParseInLocation (time.bytes "\"" ++ Layout ++ time.bytes "\"")
        (time.bytes "null") Location.utcLoc = none) ∧
    ((Time.UnmarshalJSON Location.utcLoc ⟨time.Time.zero⟩ (time.bytes "null")).2 ≠ none →
      (Time.UnmarshalJSON Location.utcLoc ⟨time.Time.zero⟩ (time.bytes "null")).1
        = ⟨time.Time.zero⟩) ∧
    (Time.UnmarshalJSON Location.utcLoc ⟨time.Time.zero⟩ (time.bytes "null")).2 =
      (ParseLocalLayout Location.utcLoc (time.bytes "\"" ++ Layout ++ time.bytes "\"")
        (time.bytes "null")).2 ∧
    Time.UnmarshalJSON Location.utcLoc ⟨time.Time.zero⟩ (time.bytes "2024-01-15 12:30:45")
      = (⟨time.Time.zero⟩, some Error.parseError) ∧
    Time.UnmarshalJSON Location.utcLoc ⟨time.Time.zero⟩ (time.bytes "null")
      = (⟨time.Time.zero⟩, some Error.parseError) ∧
    Time.UnmarshalJSON Location.utcLoc ⟨time.Time.zero⟩ (time.bytes "\"2024-01-15\"")
      = (⟨time.Time.zero⟩, some Error.parseError)) :=
  ⟨⟨by decide, by decide⟩,
    UnmarshalJSON_error_iff Location.utcLoc ⟨time.Time.zero⟩ (time.bytes "null") (by decide)
      (by decide)⟩

end localTime

/-! ## Claims C9 and C10: the SQL driver -/

namespace localTime
open time

/-- C9: `Value` returns a nil error; the driver value is nil for the zero value
and otherwise the string of `t` in the default layout (`t.String()`). -/
theorem Value_spec (t : Time) :
    t.Value.2 = none ∧
    Time.Value ⟨time.Time.zero⟩ = (DriverValue.nil, none) ∧
    t.Value.1 =
      (if t = ⟨time.Time.zero⟩ then DriverValue.nil
       else DriverValue.string (t.std.Format (time.bytes "2006-01-02 15:04:05"))) ∧
    t.Value.1 =
      (if t = ⟨time.Time.zero⟩ then DriverValue.nil else DriverValue.string t.String) := by
  by_cases hz : t.reflectIsZero = true
  · have ht := (reflectIsZero_iff t).1 hz
    subst ht
    refine ⟨rfl, rfl, rfl, rfl⟩
  · have hz0 : t.reflectIsZero = false := by simpa using hz
    have hne : ¬ (t = ⟨time.Time.zero⟩) := fun h => hz ((reflectIsZero_iff t).2 h)
    refine ⟨?_, rfl, ?_, ?_⟩
    · simp only [Time.Value, hz0, Bool.false_eq_true, ↓reduceIte]
    · simp only [Time.Value, hz0, Bool.false_eq_true, ↓reduceIte, hne, Time.Format, Layout_eq]
    · simp only [Time.Value, hz0, Bool.false_eq_true, ↓reduceIte, hne, Time.String]

/-- C10, counterexample: scanning a nil `*time.Time` (or a nil `*Time`)
dereferences the nil pointer: `Scan` panics instead of returning nil. -/
theorem Scan_counterexample :
    Time.Scan (Location.fixed "Local" 28800) ⟨time.Time.zero⟩ (Src.stdTimePtr none)
      = Outcome.panics ∧
    Time.Scan (Location.fixed "Local" 28800) ⟨time.Time.zero⟩ (Src.localTimePtr none)
      = Outcome.panics := by
  decide

/-- C10 (amended): scanning a `time.Time`, a non-nil `*time.Time`, a `Time`, a
non-nil `*Time`, a string that parses under the default layout, or the bytes of
that string returns nil; the target becomes the source timestamp for the four
timestamp kinds and `ParseLocal(text)` for the two textual kinds, so a string
and its bytes give identical targets, and source timestamps that are `Equal`
give targets that are `Equal`. -/
theorem Scan_accepts (lcl : Location) (t : Time) (v v2 : time.Time) (u : Time) (s : List Nat)
    (hs : (ParseLocal lcl s).2 = none) :
    Time.Scan lcl t (Src.stdTime v) = Outcome.returns (⟨v⟩, none) ∧
    Time.Scan lcl t (Src.stdTimePtr (some v)) = Outcome.returns (⟨v⟩, none) ∧
    Time.Scan lcl t (Src.localTime u) = Outcome.returns (u, none) ∧
    Time.Scan lcl t (Src.localTimePtr (some u)) = Outcome.returns (u, none) ∧
    Time.Scan lcl t (Src.string s) = Outcome.returns ((ParseLocal lcl s).1, none) ∧
    Time.Scan lcl t (Src.bytes s) = Outcome.returns ((ParseLocal lcl s).1, none) ∧
    Time.Scan lcl t (Src.bytes s) = Time.Scan lcl t (Src.string s) ∧
    (v.Equal v2 = true → (⟨v⟩ : Time).Equal ⟨v2⟩ = true) ∧
    (v.Equal u.std = true → (⟨v⟩ : Time).Equal u = true) ∧
    (v.Equal (ParseLocal lcl s).1.std = true → (⟨v⟩ : Time).Equal (ParseLocal lcl s).1 = true) := by
  refine ⟨rfl, rfl, rfl, rfl, ?_, ?_, ?_, fun h => h, fun h => h, fun h => h⟩
  · simp only [Time.Scan, hs]
  · simp only [Time.Scan, hs]
  · simp only [Time.Scan, hs]

/-- C10, witness: the string `2024-01-15 12:30:45` in the local zone UTC+8. -/
theorem Scan_accepts_witness :
    (ParseLocal (Location.fixed "Local" 28800) (time.bytes "2024-01-15 12:30:45")).2 = none ∧
    Time.Scan (Location.fixed "Local" 28800) ⟨time.Time.zero⟩
      (Src.string (time.bytes "2024-01-15 12:30:45"))
      = Outcome.returns (⟨⟨0, 63840889845, some (Location.fixed "Local" 28800)⟩⟩, none) :=
  ⟨by decide, by
    rw [(Scan_accepts (Location.fixed "Local" 28800) ⟨time.Time.zero⟩ time.Time.zero
      time.Time.zero ⟨time.Time.zero⟩ (time.bytes "2024-01-15 12:30:45") (by decide)).2.2.2.2.1]
    decide⟩

end localTime

/-! ## Claim C6: the compact round trip -/

namespace localTime
open time

/-- The compact layout prints the six fields without separators. -/
theorem Format_compact (t : time.Time) :
    t.Format (time.bytes "20060102150405") =
      appendInt [] (absDate t.abs true).1 4 ++ appendInt [] (absDate t.abs true).2.1 2
        ++ appendInt [] (absDate t.abs true).2.2.1 2 ++ appendInt [] (absClock t.abs).1 2
        ++ appendInt [] (absClock t.abs).2.1 2 ++ appendInt [] (absClock t.abs).2.2 2 := by
  have h : t.Format (time.bytes "20060102150405") =
      appendInt (appendInt (appendInt (appendInt (appendInt (appendInt [] (absDate t.abs true).1 4
        ++ []) (absDate t.abs true).2.1 2 ++ []) (absDate t.abs true).2.2.1 2 ++ [])
        (absClock t.abs).1 2 ++ []) (absClock t.abs).2.1 2 ++ []) (absClock t.abs).2.2 2 := by
    rfl
  rw [h]
  simp only [List.append_nil]
  rw [appendInt_append _ _ 2, appendInt_append _ _ 2, appendInt_append _ _ 2,
    appendInt_append _ _ 2, appendInt_append _ (absDate t.abs true).2.1 2]

/-- Reading back the calendar fields of a `Date` instant built from a valid
date and clock reading. -/
theorem Date_absDate (lcl : Location) (y m d h mi s ns : Int) (hm1 : 1 ≤ m) (hm : m ≤ 12)
    (hd1 : 1 ≤ d) (hd : d ≤ daysIn m y) (hh0 : 0 ≤ h) (hh : h < 24) (hmi0 : 0 ≤ mi)
    (hmi : mi < 60) (hs0 : 0 ≤ s) (hs : s < 60) (hn0 : 0 ≤ ns) (hn : ns < 1000000000)
    (hfix : lcl.Fixed) (hy0 : -200000000000 ≤ y) (hy1 : y ≤ 200000000000) :
    (absDate (Date y m d h mi s ns lcl).abs true).1 = y ∧
    (absDate (Date y m d h mi s ns lcl).abs true).2.1 = m ∧
    (absDate (Date y m d h mi s ns lcl).abs true).2.2.1 = d ∧
    absClock (Date y m d h mi s ns lcl).abs = (h, mi, s) := by
  have hlen := monthLen_pos (isLeap y) m hm1 hm
  rw [← daysIn_eq] at hlen
  have f5 := (Date_fields y m d h mi s ns lcl hm1 hm hh0 hh hmi0 hmi hs0 hs hn0 hn hfix hy0 hy1
    (by omega) (by omega)).2.2.2.2
  have dm := absOf_div_mod y m d h mi s hh0 hh hmi0 hmi hs0 hs
  have hdate := (absDate_of (absOf y m d h mi s) y m d hm1 hm hd1 hd dm.1).1
  have hclock := absClock_of (absOf y m d h mi s) h mi s hh0 hh hmi0 hmi hs0 hs dm.2
  rw [f5, hdate, hclock]
  exact ⟨rfl, rfl, rfl, rfl⟩

/-- The compact layout on an instant whose calendar fields are known. -/
theorem Format_compact_digits (t : time.Time) (Y M D H Mi S : Nat)
    (hY : Y < 10000) (hM : M < 100) (hD : D < 100) (hH : H < 100) (hMi : Mi < 100) (hS : S < 100)
    (e1 : (absDate t.abs true).1 = Y) (e2 : (absDate t.abs true).2.1 = M)
    (e3 : (absDate t.abs true).2.2.1 = D) (e4 : absClock t.abs = ((H : Int), (Mi : Int), (S : Int))) :
    t.Format (time.bytes "20060102150405") =
      [48 + Y / 1000, 48 + Y / 100 % 10, 48 + Y / 10 % 10, 48 + Y % 10,
        48 + M / 10, 48 + M % 10, 48 + D / 10, 48 + D % 10, 48 + H / 10, 48 + H % 10,
        48 + Mi / 10, 48 + Mi % 10, 48 + S / 10, 48 + S % 10] := by
  rw [Format_compact, e1, e2, e3, e4]
  simp only
  rw [appendInt_four Y hY, appendInt_two M hM, appendInt_two D hD, appendInt_two H hH,
    appendInt_two Mi hMi, appendInt_two S hS]
  rfl

/-- The day of a valid date has two digits. -/
theorem day_lt_100 (M Y : Int) (D : Nat) (hM1 : 1 ≤ M) (hM : M ≤ 12) (hD : (D : Int) ≤ daysIn M Y) :
    D < 100 := by
  have hlen := monthLen_pos (isLeap Y) M hM1 hM
  rw [← daysIn_eq] at hlen
  omega

/-- Formatting a `Date` instant built from a valid date with the compact
layout prints the fourteen digits of its fields. -/
theorem Format_compact_Date (lcl : Location) (Y M D H Mi S : Nat) (ns : Int)
    (hY : Y < 10000) (hM1 : 1 ≤ M) (hM : M ≤ 12) (hD1 : 1 ≤ (D : Int))
    (hD : (D : Int) ≤ daysIn M Y) (hH : H < 24) (hMi : Mi < 60) (hS : S < 60)
    (hn0 : 0 ≤ ns) (hn : ns < 1000000000) (hfix : lcl.Fixed) :
    (Date Y M D H Mi S ns lcl).Format (time.bytes "20060102150405") =
      [48 + Y / 1000, 48 + Y / 100 % 10, 48 + Y / 10 % 10, 48 + Y % 10,
        48 + M / 10, 48 + M % 10, 48 + D / 10, 48 + D % 10, 48 + H / 10, 48 + H % 10,
        48 + Mi / 10, 48 + Mi % 10, 48 + S / 10, 48 + S % 10] := by
  have b1 : (1 : Int) ≤ M := by omega
  have b2 : (M : Int) ≤ 12 := by omega
  have hD100 := day_lt_100 M Y D b1 b2 hD
  have hf := Date_absDate lcl Y M D H Mi S ns b1 b2 hD1 hD (by omega) (by omega) (by omega)
    (by omega) (by omega) (by omega) hn0 hn hfix (by omega) (by omega)
  exact Format_compact_digits _ Y M D H Mi S hY (by omega) hD100 (by omega) (by omega)
    (by omega) hf.1 hf.2.1 hf.2.2.1 hf.2.2.2

/-- The location pointer that `Date` stores: nil for `UTC`. -/
theorem Date_loc (lcl : Location) (y m d h mi s ns : Int) :
    (Date y m d h mi s ns lcl).loc = if lcl = Location.utcLoc then none else some lcl := by
  simp only [Date, time.Time.setLoc]

/-- A `Date` instant is the zero Time only in the UTC location. -/
theorem Date_zero_utc (lcl : Location) (y m d h mi s ns : Int)
    (hz : Date y m d h mi s ns lcl = time.Time.zero) :
    lcl = Location.utcLoc := by
  have hl := Date_loc lcl y m d h mi s ns
  rw [hz] at hl
  by_cases hu : lcl = Location.utcLoc
  · exact hu
  · simp [time.Time.zero, hu] at hl

/-- The end of `ParseInLocation` on the fields of the compact layout. -/
theorem parseFinish_compact (lcl : Location) (Y M D H Mi S : Nat) (ns : Int) (t : time.Time)
    (hM1 : 1 ≤ M)
    (hp : parseFinish ⟨Y, M, D, H, Mi, S, ns, none, -1⟩ lcl lcl = some t) :
    1 ≤ (D : Int) ∧ (D : Int) ≤ daysIn M Y ∧ Date Y M D H Mi S ns lcl = t := by
  simp only [parseFinish] at hp
  have e1 : ¬ ((M : Int) < 0) := by omega
  have e2 : ¬ ((D : Int) < 0) := by omega
  simp only [e1, e2, ↓reduceIte] at hp
  by_cases hday : (D : Int) < 1 ∨ (D : Int) > daysIn M Y
  · rw [if_pos hday] at hp
    exact absurd hp (by simp)
  · rw [if_neg hday] at hp
    refine ⟨by omega, by omega, ?_⟩
    simpa using hp

/-- What `ParseCompact` accepts and what it returns: fourteen digits and an
optional fractional second; formatting the result with the compact layout
gives back the fourteen digits. -/
theorem ParseCompact_Format (lcl : Location) (s : List Nat) (hfix : lcl.Fixed)
    (h : (ParseCompact lcl s).2 = none) :
    (ParseCompact lcl s).1.std.Format (time.bytes "20060102150405") = s.take 14 ∧
    14 ≤ s.length ∧
    ((ParseCompact lcl s).1 = ⟨time.Time.zero⟩ → lcl = Location.utcLoc) := by
  simp only [ParseCompact] at h ⊢
  cases hp : time.ParseInLocation (time.bytes "20060102150405") s lcl with
  | none => simp [hp] at h
  | some t =>
    simp only [hp]
    simp only [ParseInLocation] at hp
    have hlen : (time.bytes "20060102150405").length + 1 = 8 + 7 := rfl
    rw [hlen] at hp
    cases hl : parseLoop (8 + 7) (time.bytes "20060102150405") s {} with
    | none => simp [hl] at hp
    | some f =>
      simp only [hl] at hp
      obtain ⟨Y, M, D, H, Mi, S, r, hY, hM1, hM, hD, hH, hMi, hS, hs, hn0, hn, hf⟩ :=
        parseLoop_compact_inv 8 s f hl
      rw [hf] at hp
      obtain ⟨hD1, hD2, hp'⟩ := parseFinish_compact lcl Y M D H Mi S f.nsec t hM1 hp
      have hfmt := Format_compact_Date lcl Y M D H Mi S f.nsec hY hM1 hM hD1 hD2 hH hMi hS hn0 hn
        hfix
      rw [hp'] at hfmt
      refine ⟨?_, ?_, ?_⟩
      · rw [hfmt, hs]
        simp
      · rw [hs]; simp
      · intro hz
        have hz' : t = time.Time.zero := by simpa using hz
        rw [hz'] at hp'
        exact Date_zero_utc lcl Y M D H Mi S f.nsec hp'

/-- C6, counterexample: (1) with `time.Local = time.UTC` the input
`00010101000000` parses to the zero Time, whose `Compact()` is empty.  (2) With
`time.Local` = Asia/Shanghai the input `19860504023000` names an hour that was
skipped; it parses to 03:30:00, and `Compact()` returns `19860504033000`. -/
theorem Compact_ParseCompact_counterexample :
    ((ParseCompact Location.utcLoc (time.bytes "00010101000000")).2 = none ∧
      (ParseCompact Location.utcLoc (time.bytes "00010101000000")).1.Compact = []) ∧
    ((ParseCompact Shanghai (time.bytes "19860504023000")).2 = none ∧
      (ParseCompact Shanghai (time.bytes "19860504023000")).1.Compact
        = time.bytes "19860504033000") := by
  decide

/-- C6 (amended): when the local zone has no zone transitions (`time.Local` is
UTC or a `time.FixedZone`), for every string `s` that `ParseCompact` accepts,
`s` starts with fourteen digits and `Compact()` of the parsed value returns
these fourteen bytes (all of `s` when `s` has fourteen bytes), unless the
parsed value is the zero Time (`time.Local` is UTC and `s` starts with
`00010101000000`), for which `Compact()` is empty. -/
theorem Compact_ParseCompact (lcl : Location) (s : List Nat) (hfix : lcl.Fixed)
    (h : (ParseCompact lcl s).2 = none) :
    (ParseCompact lcl s).1.Compact =
      (if (ParseCompact lcl s).1 = ⟨time.Time.zero⟩ then [] else s.take 14) ∧
    ((ParseCompact lcl s).1 = ⟨time.Time.zero⟩ →
      lcl = Location.utcLoc ∧ s.take 14 = time.bytes "00010101000000") ∧
    14 ≤ s.length ∧
    (s.length = 14 → s.take 14 = s) := by
  obtain ⟨h1, h2, h3⟩ := ParseCompact_Format lcl s hfix h
  refine ⟨?_, ?_, h2, ?_⟩
  · by_cases hz : (ParseCompact lcl s).1.reflectIsZero = true
    · have ht := (reflectIsZero_iff _).1 hz
      simp only [Time.Compact, hz, ↓reduceIte, ht]
      rfl
    · have hz0 : (ParseCompact lcl s).1.reflectIsZero = false := by simpa using hz
      have hne : ¬ ((ParseCompact lcl s).1 = ⟨time.Time.zero⟩) :=
        fun hh => hz ((reflectIsZero_iff _).2 hh)
      simp only [Time.Compact, hz0, Bool.false_eq_true, ↓reduceIte, hne, Time.Format]
      exact h1
  · intro hz
    refine ⟨h3 hz, ?_⟩
    rw [← h1, hz]
    rfl
  · intro hl
    exact List.take_of_length_le (by omega)

/-- C6, witness: `20240115123045` in the local zone UTC+8. -/
theorem Compact_ParseCompact_witness :
    (ParseCompact (Location.fixed "Local" 28800) (time.bytes "20240115123045")).2 = none ∧
    (ParseCompact (Location.fixed "Local" 28800) (time.bytes "20240115123045")).1.Compact
      = time.bytes "20240115123045" :=
  ⟨by decide, by
    rw [(Compact_ParseCompact (Location.fixed "Local" 28800) (time.bytes "20240115123045")
      (by decide) (by decide)).1]
    decide⟩

end localTime

/-! ## Claims C11 and C12: sources that the driver `Scan` rejects -/

namespace localTime
open time

/-- C11: for a source that is none of `time.Time`, `*time.Time`, `Time`,
`*Time`, a string or a byte slice (so an integer, a float, a bool, a nil
source, any other type), `Scan` returns the error with the message
`Incompatible type for LocalTime` and leaves the target as it was. -/
theorem Scan_incompatible (lcl : Location) (t : Time) (src : Src)
    (h1 : ∀ v, src ≠ Src.stdTime v) (h2 : ∀ p, src ≠ Src.stdTimePtr p)
    (h3 : ∀ v, src ≠ Src.localTime v) (h4 : ∀ p, src ≠ Src.localTimePtr p)
    (h5 : ∀ s, src ≠ Src.string s) (h6 : ∀ b, src ≠ Src.bytes b) :
    Time.Scan lcl t src =
      Outcome.returns (t, some (Error.errorString "Incompatible type for LocalTime")) := by
  cases src with
  | nil => rfl
  | stdTime v => exact absurd rfl (h1 v)
  | stdTimePtr p => exact absurd rfl (h2 p)
  | localTime v => exact absurd rfl (h3 v)
  | localTimePtr p => exact absurd rfl (h4 p)
  | string s => exact absurd rfl (h5 s)
  | bytes b => exact absurd rfl (h6 b)
  | int64 i => rfl
  | float64 b => rfl
  | bool b => rfl
  | other n => rfl

/-- C11, witness: a NULL source, the integer 7, a float, a bool and a value of
another type, scanned into the target 2024-01-15 12:30:45 UTC. -/
theorem Scan_incompatible_witness :
    Time.Scan Location.utcLoc ⟨⟨0, 63840918645, none⟩⟩ Src.nil =
      Outcome.returns (⟨⟨0, 63840918645, none⟩⟩,
        some (Error.errorString "Incompatible type for LocalTime")) ∧
    Time.Scan Location.utcLoc ⟨⟨0, 63840918645, none⟩⟩ (Src.int64 7) =
      Outcome.returns (⟨⟨0, 63840918645, none⟩⟩,
        some (Error.errorString "Incompatible type for LocalTime")) ∧
    Time.Scan Location.utcLoc ⟨⟨0, 63840918645, none⟩⟩ (Src.float64 4609434218613702656) =
      Outcome.returns (⟨⟨0, 63840918645, none⟩⟩,
        some (Error.errorString "Incompatible type for LocalTime")) ∧
    Time.Scan Location.utcLoc ⟨⟨0, 63840918645, none⟩⟩ (Src.bool true) =
      Outcome.returns (⟨⟨0, 63840918645, none⟩⟩,
        some (Error.errorString "Incompatible type for LocalTime")) :=
  ⟨Scan_incompatible _ _ Src.nil (by simp) (by simp) (by simp) (by simp) (by simp) (by simp),
   Scan_incompatible _ _ (Src.int64 7) (by simp) (by simp) (by simp) (by simp) (by simp)
     (by simp),
   Scan_incompatible _ _ (Src.float64 4609434218613702656) (by simp) (by simp) (by simp)
     (by simp) (by simp) (by simp),
   Scan_incompatible _ _ (Src.bool true) (by simp) (by simp) (by simp) (by simp) (by simp)
     (by simp)⟩

/-- The scanning loop of `ParseInLocation` does not look at the location:
when it fails, the parse fails in every location. -/
theorem ParseLocal_error_of_parseLoop (lcl : Location) (s : List Nat)
    (h : parseLoop (Layout.length + 1) Layout s {} = none) :
    (ParseLocal lcl s).2 = some Error.parseError := by
  simp only [ParseLocal, ParseInLocation, h]

/-- C12: a string or byte-slice source that `ParseLocal` (the default layout
`2006-01-02 15:04:05`) rejects makes `Scan` return the error with the message
`Invalid string for LocalTime` and leaves the target as it was; no other
layout is tried: in every local zone `2024-01-15` is accepted by `ParseDate`,
`20240115123045` by `ParseCompact` and `20240115` by `ParseCompactDate`, and
all three are rejected by `ParseLocal`. -/
theorem Scan_invalid_string (lcl : Location) (t : Time) (s : List Nat)
    (h : (ParseLocal lcl s).2 ≠ none) :
    (Time.Scan lcl t (Src.string s) =
        Outcome.returns (t, some (Error.errorString "Invalid string for LocalTime")) ∧
      Time.Scan lcl t (Src.bytes s) =
        Outcome.returns (t, some (Error.errorString "Invalid string for LocalTime"))) ∧
    ((ParseDate lcl (time.bytes "2024-01-15")).2 = none ∧
      (ParseLocal lcl (time.bytes "2024-01-15")).2 ≠ none) ∧
    ((ParseCompact lcl (time.bytes "20240115123045")).2 = none ∧
      (ParseLocal lcl (time.bytes "20240115123045")).2 ≠ none) ∧
    ((ParseCompactDate lcl (time.bytes "20240115")).2 = none ∧
      (ParseLocal lcl (time.bytes "20240115")).2 ≠ none) := by
  refine ⟨⟨?_, ?_⟩, ⟨?_, ?_⟩, ⟨?_, ?_⟩, ⟨?_, ?_⟩⟩
  · cases hp : (ParseLocal lcl s).2 with
    | none => exact absurd hp h
    | some e => simp only [Time.Scan, hp]
  · cases hp : (ParseLocal lcl s).2 with
    | none => exact absurd hp h
    | some e => simp only [Time.Scan, hp]
  · have hl : parseLoop ((time.bytes "2006-01-02").length + 1) (time.bytes "2006-01-02")
        (time.bytes "2024-01-15") {} = some ⟨2024, 1, 15, 0, 0, 0, 0, none, -1⟩ := by decide
    have hd : ¬ (daysIn 1 2024 < 15) := by decide
    simp [ParseDate, ParseInLocation, hl, parseFinish, hd]
  · rw [ParseLocal_error_of_parseLoop lcl _ (by decide)]
    simp
  · have hl : parseLoop ((time.bytes "20060102150405").length + 1) (time.bytes "20060102150405")
        (time.bytes "20240115123045") {} = some ⟨2024, 1, 15, 12, 30, 45, 0, none, -1⟩ := by
      decide
    have hd : ¬ (daysIn 1 2024 < 15) := by decide
    simp [ParseCompact, ParseInLocation, hl, parseFinish, hd]
  · rw [ParseLocal_error_of_parseLoop lcl _ (by decide)]
    simp
  · have hl : parseLoop ((time.bytes "20060102").length + 1) (time.bytes "20060102")
        (time.bytes "20240115") {} = some ⟨2024, 1, 15, 0, 0, 0, 0, none, -1⟩ := by decide
    have hd : ¬ (daysIn 1 2024 < 15) := by decide
    simp [ParseCompactDate, ParseInLocation, hl, parseFinish, hd]
  · rw [ParseLocal_error_of_parseLoop lcl _ (by decide)]
    simp

/-- C12, witness: the date-only text `2024-01-15`, as a string and as bytes,
scanned in the local zone UTC+8 into the target 2024-01-15 12:30:45. -/
theorem Scan_invalid_string_witness :
    (ParseLocal (Location.fixed "Local" 28800) (time.bytes "2024-01-15")).2 ≠ none ∧
    Time.Scan (Location.fixed "Local" 28800)
        ⟨⟨0, 63840889845, some (Location.fixed "Local" 28800)⟩⟩
        (Src.string (time.bytes "2024-01-15")) =
      Outcome.returns (⟨⟨0, 63840889845, some (Location.fixed "Local" 28800)⟩⟩,
        some (Error.errorString "Invalid string for LocalTime")) ∧
    Time.Scan (Location.fixed "Local" 28800)
        ⟨⟨0, 63840889845, some (Location.fixed "Local" 28800)⟩⟩
        (Src.bytes (time.bytes "2024-01-15")) =
      Outcome.returns (⟨⟨0, 63840889845, some (Location.fixed "Local" 28800)⟩⟩,
        some (Error.errorString "Invalid string for LocalTime")) :=
  ⟨by decide,
   (Scan_invalid_string (Location.fixed "Local" 28800)
     ⟨⟨0, 63840889845, some (Location.fixed "Local" 28800)⟩⟩ (time.bytes "2024-01-15")
     (by decide)).1⟩

end localTime

/-! ## Claim C13: the formatters on the zero value -/

namespace localTime
open time

/-- C13: on the zero value `String`, `Date`, `Month`, `Week`, `Year`, `Time`,
`TimeMillisecond`, `RFC3339`, `Compact` and `CompactMillisecond` return the
empty string; `StringMillisecond` has no zero guard and returns
`0001-01-01 00:00:00.000`. -/
theorem zero_formatters :
    (⟨time.Time.zero⟩ : Time).String = [] ∧
    (⟨time.Time.zero⟩ : Time).Date = [] ∧
    (⟨time.Time.zero⟩ : Time).Month = [] ∧
    (⟨time.Time.zero⟩ : Time).Week = [] ∧
    (⟨time.Time.zero⟩ : Time).Year = [] ∧
    (⟨time.Time.zero⟩ : Time).Time = [] ∧
    (⟨time.Time.zero⟩ : Time).TimeMillisecond = [] ∧
    (⟨time.Time.zero⟩ : Time).RFC3339 = [] ∧
    (⟨time.Time.zero⟩ : Time).Compact = [] ∧
    (⟨time.Time.zero⟩ : Time).CompactMillisecond = [] ∧
    (⟨time.Time.zero⟩ : Time).StringMillisecond = time.bytes "0001-01-01 00:00:00.000" := by
  refine ⟨rfl, rfl, rfl, rfl, rfl, rfl, rfl, rfl, rfl, rfl, ?_⟩
  decide

end localTime

/-! ## Day and week boundaries -/

namespace localTime
open time

/-- The instant `Date` builds from the calendar date of `t`, a clock reading
and the location of `t`, moved by `k` days with `AddDate`: day number
`t.abs / 86400 + k` in that location, at that clock reading.  The location has
no zone transitions and `t` lies within 2^62 seconds of the zero Time. -/
theorem Date_day_AddDate (t : time.Time) (h mi s k : Int) (hh0 : 0 ≤ h) (hh : h < 24)
    (hmi0 : 0 ≤ mi) (hmi : mi < 60) (hs0 : 0 ≤ s) (hs : s < 60)
    (hfix : t.Location.Fixed) (hnear : t.Near) (hk0 : -900 ≤ k) (hk1 : k ≤ 900) :
    Date t.Year t.Month t.Day h mi s 0 t.Location =
      ⟨0, t.abs / 86400 * 86400 + (h * 3600 + mi * 60 + s) + absoluteToInternal
          - t.Location.fixedOffset,
        if t.Location = Location.utcLoc then none else some t.Location⟩ ∧
    (Date t.Year t.Month t.Day h mi s 0 t.Location).AddDate 0 0 k =
      ⟨0, (t.abs / 86400 + k) * 86400 + (h * 3600 + mi * 60 + s) + absoluteToInternal
          - t.Location.fixedOffset,
        if t.Location = Location.utcLoc then none else some t.Location⟩ := by
  obtain ⟨_, y0, y1⟩ := Near_abs t hfix hnear
  obtain ⟨m1, m2, d1, d2, hdiv, h6⟩ := absDate_spec t.abs
  have hY : t.Year = (absDate t.abs true).1 := h6
  have hM : t.Month = (absDate t.abs true).2.1 := rfl
  have hD : t.Day = (absDate t.abs true).2.2.1 := rfl
  rw [hY, hM, hD]
  generalize (absDate t.abs true).1 = y at *
  generalize (absDate t.abs true).2.1 = m at *
  generalize (absDate t.abs true).2.2.1 = dd at *
  generalize t.Location = loc at *
  generalize t.abs / 86400 = dn at *
  have hlen := monthLen_pos (isLeap y) m m1 m2
  rw [← daysIn_eq] at hlen
  have hE := Date_eq y m dd h mi s 0 loc m1 m2 hh0 hh hmi0 hmi hs0 hs (by omega) (by omega)
    hfix (by omega) (by omega) (by omega) (by omega)
  have hE2 := Date_eq y m (dd + k) h mi s 0 loc m1 m2 hh0 hh hmi0 hmi hs0 hs (by omega)
    (by omega) hfix (by omega) (by omega) (by omega) (by omega)
  obtain ⟨f1, f2, f3, f4, f5⟩ := Date_fields y m dd h mi s 0 loc m1 m2 hh0 hh hmi0 hmi hs0 hs
    (by omega) (by omega) hfix (by omega) (by omega) (by omega) (by omega)
  obtain ⟨g1, g2, g3, g4⟩ := Date_absDate loc y m dd h mi s 0 m1 m2 d1 d2 hh0 hh hmi0 hmi hs0 hs
    (by omega) (by omega) hfix (by omega) (by omega)
  have k1 : absOf y m dd h mi s = dn * 86400 + (h * 3600 + mi * 60 + s) := by
    simp only [absOf]
    rw [hdiv]
  have k2 : absOf y m (dd + k) h mi s = (dn + k) * 86400 + (h * 3600 + mi * 60 + s) := by
    simp only [absOf, yearDayOf] at k1 ⊢
    rw [hdiv]
    simp only [yearDayOf]
    omega
  constructor
  · rw [hE, k1]
    simp
  · simp only [time.Time.AddDate, time.Time.Date, time.Time.Clock, time.Time.date, g1, g2, g3,
      g4, f3, f4, zero_add, add_zero]
    rw [hE2, k2]
    simp

/-- Day of the week of an absolute time from its day number. -/
theorem absWeekday_eq (dn r : Int) (h0 : 0 ≤ r) (h : r < 86400) :
    absWeekday (dn * 86400 + r) = (dn + 1) % 7 := by
  simp only [absWeekday, secondsPerDay, secondsPerWeek]
  omega

/-- Clock reading of an absolute time from its second of the day. -/
theorem absClock_day (dn h mi s : Int) (hh0 : 0 ≤ h) (hh : h < 24)
    (hmi0 : 0 ≤ mi) (hmi : mi < 60) (hs0 : 0 ≤ s) (hs : s < 60) :
    absClock (dn * 86400 + (h * 3600 + mi * 60 + s)) = (h, mi, s) ∧
    (dn * 86400 + (h * 3600 + mi * 60 + s)) / 86400 = dn := by
  constructor
  · apply absClock_of _ h mi s hh0 hh hmi0 hmi hs0 hs
    omega
  · omega

/-- Unix seconds of an instant without nanoseconds or monotonic reading. -/
theorem unixSec_whole (e : Int) (l : Option Location) (h0 : -9223371974000000000 ≤ e)
    (h1 : e ≤ 9223372036000000000) :
    (⟨0, e, l⟩ : time.Time).unixSec = e + internalToUnix := by
  have hs := sec_of_lt (⟨0, e, l⟩ : time.Time) (by norm_num)
  have hs2 : (⟨0, e, l⟩ : time.Time).sec = e := hs
  rw [unixSec_eq _ (by omega) (by omega), hs2]

/-- The difference of two instants without nanoseconds or monotonic reading,
when it fits a `Duration` and both second counts fit an `int64`. -/
theorem Sub_whole_seconds (e1 e2 : Int) (l1 l2 : Option Location)
    (h0 : -9223372036 ≤ e1 - e2) (h1 : e1 - e2 ≤ 9223372036)
    (ha0 : -9223372036854775807 ≤ e1) (ha1 : e1 ≤ 9223372036854775807)
    (hb0 : -9223372036854775807 ≤ e2) (hb1 : e2 ≤ 9223372036854775807) :
    (⟨0, e1, l1⟩ : time.Time).Sub ⟨0, e2, l2⟩ = (e1 - e2) * Second := by
  have hw : (0 : Nat) < 2 ^ 63 := by norm_num
  have hm1 := hasMono_of_lt (⟨0, e1, l1⟩ : time.Time) hw
  have hm2 := hasMono_of_lt (⟨0, e2, l2⟩ : time.Time) hw
  have hs1 := sec_of_lt (⟨0, e1, l1⟩ : time.Time) hw
  have hs2 := sec_of_lt (⟨0, e2, l2⟩ : time.Time) hw
  have hn1 : (⟨0, e1, l1⟩ : time.Time).nsec = 0 := rfl
  have hn2 : (⟨0, e2, l2⟩ : time.Time).nsec = 0 := rfl
  have hd : wrapInt64 ((e1 - e2) * Second + (0 - 0)) = (e1 - e2) * Second := by
    rw [sub_self, add_zero]
    apply wrapInt64_of_fits
    · simp only [Second]
      omega
    · simp only [Second]
      omega
  have e3 : ((e1 - e2) * Second).tdiv 1000000000 = e1 - e2 := by
    simp only [Second]
    exact Int.mul_tdiv_cancel _ (by norm_num)
  have e4 : ((e1 - e2) * Second).tmod 1000000000 = 0 := by
    simp only [Second]
    exact Int.mul_tmod_left _ _
  have hsm : (⟨0, e2, l2⟩ : time.Time).stripMono = ⟨0, e2, l2⟩ := by
    simp only [time.Time.stripMono, hm2, Bool.false_eq_true, ↓reduceIte]
  have hsum : wrapInt64 (e2 + (e1 - e2)) = e1 := by
    rw [wrapInt64_of_fits _ (by omega) (by omega)]
    omega
  have hadd : (⟨0, e2, l2⟩ : time.Time).Add ((e1 - e2) * Second) = ⟨0, e1, l2⟩ := by
    have hst : (⟨0, e2, l2⟩ : time.Time).addSec (e1 - e2) = ⟨0, e1, l2⟩ := by
      simp only [time.Time.addSec, hm2, Bool.false_eq_true, false_and, ↓reduceIte, hsm, hsum]
      have hc : decide (e1 > e2) = decide (e1 - e2 > 0) := by
        by_cases hgt : e1 > e2
        · have hgt2 : e1 - e2 > 0 := by omega
          simp only [hgt, hgt2]
        · have hgt2 : ¬ (e1 - e2 > 0) := by omega
          simp only [hgt, hgt2]
      rw [if_pos hc]
    have ht1 : ({ (⟨0, e2, l2⟩ : time.Time) with wall := 0 - 0 % 2 ^ 30 + (0 : Int).toNat }
        : time.Time) = ⟨0, e2, l2⟩ := rfl
    have hm3 := hasMono_of_lt (⟨0, e1, l2⟩ : time.Time) hw
    simp only [time.Time.Add, e3, e4, hn2, add_zero, ge_iff_le, Int.reduceLE, ↓reduceIte,
      lt_self_iff_false, ht1, hst, hm3, Bool.false_eq_true]
  simp only [time.Time.Sub, hm1, hm2, Bool.and_self, Bool.false_eq_true, ↓reduceIte, hs1, hs2,
    hn1, hn2, hd, hadd]
  have heq : (⟨0, e1, l2⟩ : time.Time).Equal ⟨0, e1, l1⟩ = true := by
    simp [time.Time.Equal, time.Time.hasMono, time.Time.sec, time.Time.nsec]
  simp only [heq, ↓reduceIte]

end localTime

/-! ## Claim C17: day bounds -/

namespace localTime
open time

/-- The instants `StartTimeOfDate` and `EndTimeOfDate` build, in a location
without zone transitions. -/
theorem StartEndOfDate_eq (t : Time) (hfix : t.std.Location.Fixed) (hnear : t.std.Near) :
    StartTimeOfDate t =
      ⟨⟨0, t.std.abs / 86400 * 86400 + absoluteToInternal - t.std.Location.fixedOffset,
        if t.std.Location = Location.utcLoc then none else some t.std.Location⟩⟩ ∧
    EndTimeOfDate t =
      ⟨⟨0, t.std.abs / 86400 * 86400 + 86399 + absoluteToInternal - t.std.Location.fixedOffset,
        if t.std.Location = Location.utcLoc then none else some t.std.Location⟩⟩ := by
  have h1 := (Date_day_AddDate t.std 0 0 0 0 (by omega) (by omega) (by omega) (by omega)
    (by omega) (by omega) hfix hnear (by omega) (by omega)).1
  have h2 := (Date_day_AddDate t.std 23 59 59 0 (by omega) (by omega) (by omega) (by omega)
    (by omega) (by omega) hfix hnear (by omega) (by omega)).1
  constructor
  · simp only [StartTimeOfDate, h1]
    simp
  · simp only [EndTimeOfDate, h2]
    simp

/-- Calendar fields of an instant without nanoseconds that lies `r` seconds
into the day of `t`, in the location of `t`. -/
theorem same_day_fields (t : time.Time) (h mi s : Int) (hh0 : 0 ≤ h) (hh : h < 24)
    (hmi0 : 0 ≤ mi) (hmi : mi < 60) (hs0 : 0 ≤ s) (hs : s < 60) (u : time.Time)
    (hfix : t.Location.Fixed) (hnear : t.Near)
    (hu : u = ⟨0, t.abs / 86400 * 86400 + (h * 3600 + mi * 60 + s) + absoluteToInternal
          - t.Location.fixedOffset,
        if t.Location = Location.utcLoc then none else some t.Location⟩) :
    u.Year = t.Year ∧ u.Month = t.Month ∧ u.Day = t.Day ∧ u.Date = t.Date ∧
    u.Location = t.Location ∧ u.Clock = (h, mi, s) ∧ u.Nanosecond = 0 ∧
    u.Weekday = t.Weekday := by
  obtain ⟨ha, _, _⟩ := Near_abs t hfix hnear
  obtain ⟨n0, n1⟩ := hnear
  obtain ⟨o0, o1⟩ := fixedOffset_range t.Location hfix
  obtain ⟨r0, r1⟩ := abs_range t
  have hb0 : -9223371960000000000 ≤ t.abs / 86400 * 86400 + (h * 3600 + mi * 60 + s)
      + absoluteToInternal - t.Location.fixedOffset := by
    simp only [absoluteToInternal, internalToAbsolute] at ha ⊢
    omega
  have hb1 : t.abs / 86400 * 86400 + (h * 3600 + mi * 60 + s)
      + absoluteToInternal - t.Location.fixedOffset ≤ 9223372036000000000 := by
    simp only [absoluteToInternal, internalToAbsolute] at ha ⊢
    omega
  obtain ⟨f1, f2, f3, f4, f5⟩ := mk0_fields (t.abs / 86400 * 86400 + (h * 3600 + mi * 60 + s)
    + absoluteToInternal - t.Location.fixedOffset) t.Location hfix hb0 hb1
  rw [← hu] at f1 f2 f3 f4 f5
  have habs : u.abs = t.abs / 86400 * 86400 + (h * 3600 + mi * 60 + s) := by
    rw [f5]
    simp only [absoluteToInternal, internalToAbsolute]
    omega
  obtain ⟨c1, c2⟩ := absClock_day (t.abs / 86400) h mi s hh0 hh hmi0 hmi hs0 hs
  have hday : u.abs / 86400 = t.abs / 86400 := by rw [habs]; exact c2
  have hdate : ∀ full, absDate u.abs full = absDate t.abs full := by
    intro full
    simp only [absDate, secondsPerDay, hday]
  have hwd : absWeekday u.abs = absWeekday t.abs := by
    have e1 := absWeekday_eq (t.abs / 86400) (h * 3600 + mi * 60 + s) (by omega) (by omega)
    have e2 := absWeekday_eq (t.abs / 86400) (t.abs % 86400) (by omega) (by omega)
    have e3 : t.abs / 86400 * 86400 + t.abs % 86400 = t.abs := by omega
    rw [e3] at e2
    rw [habs, e1, e2]
  refine ⟨?_, ?_, ?_, ?_, f4, ?_, f3, ?_⟩
  · simp only [time.Time.Year, time.Time.date, hdate]
  · simp only [time.Time.Month, time.Time.date, hdate]
  · simp only [time.Time.Day, time.Time.date, hdate]
  · simp only [time.Time.Date, time.Time.date, hdate]
  · simp only [time.Time.Clock, habs, c1]
  · simp only [time.Time.Weekday, hwd]

/-- C17, counterexample: (1) in the zone Asia/Shanghai the day 1940-06-01 began
with a zone transition that skipped the hour from 00:00 to 01:00: for `t` at
noon of that day `StartTimeOfDate t` reads 01:00:00, not 00:00:00.  (2) For
`t = Unix(9223371974719179007, 0)` in UTC, where the seconds count of package
`time` reaches the end of the `int64` range, the day has no zone transition
and `EndTimeOfDate(t).Sub(StartTimeOfDate(t))` is the smallest `Duration`. -/
theorem day_bounds_counterexample :
    ((Unix Shanghai (-933627600) 0).std.Date = (1940, 6, 1) ∧
      (Unix Shanghai (-933627600) 0).std.Clock = (12, 0, 0) ∧
      (StartTimeOfDate (Unix Shanghai (-933627600) 0)).std.Date = (1940, 6, 1) ∧
      (StartTimeOfDate (Unix Shanghai (-933627600) 0)).std.Clock = (1, 0, 0)) ∧
    ((EndTimeOfDate (Unix Location.utcLoc 9223371974719179007 0)).Sub
        (StartTimeOfDate (Unix Location.utcLoc 9223371974719179007 0)) = minDuration ∧
      minDuration ≠ 86399 * Second) := by
  decide

/-- C17 (amended): for every Time `t` in a location without zone transitions
(UTC or a `time.FixedZone`) and within 2^62 seconds of 0001-01-01 00:00:00 UTC,
`StartTimeOfDate t` and `EndTimeOfDate t` keep the year, month, day and
location of `t`; their clocks read 00:00:00 and 23:59:59, both with zero
nanoseconds, and the end is 86399 seconds after the start. -/
theorem day_bounds (t : Time) (hfix : t.std.Location.Fixed) (hnear : t.std.Near) :
    ((StartTimeOfDate t).std.Year = t.std.Year ∧
      (StartTimeOfDate t).std.Month = t.std.Month ∧
      (StartTimeOfDate t).std.Day = t.std.Day ∧
      (StartTimeOfDate t).std.Location = t.std.Location ∧
      (StartTimeOfDate t).std.Clock = (0, 0, 0) ∧
      (StartTimeOfDate t).std.Nanosecond = 0) ∧
    ((EndTimeOfDate t).std.Year = t.std.Year ∧
      (EndTimeOfDate t).std.Month = t.std.Month ∧
      (EndTimeOfDate t).std.Day = t.std.Day ∧
      (EndTimeOfDate t).std.Location = t.std.Location ∧
      (EndTimeOfDate t).std.Clock = (23, 59, 59) ∧
      (EndTimeOfDate t).std.Nanosecond = 0) ∧
    (EndTimeOfDate t).Sub (StartTimeOfDate t) = 86399 * Second ∧
    (EndTimeOfDate t).Unix - (StartTimeOfDate t).Unix = 86399 := by
  obtain ⟨hs, he⟩ := StartEndOfDate_eq t hfix hnear
  obtain ⟨a1, a2, a3, _, a5, a6, a7, _⟩ := same_day_fields t.std 0 0 0 (by omega) (by omega)
    (by omega) (by omega) (by omega) (by omega) (StartTimeOfDate t).std hfix hnear
    (by rw [hs]; simp)
  obtain ⟨b1, b2, b3, _, b5, b6, b7, _⟩ := same_day_fields t.std 23 59 59 (by omega) (by omega)
    (by omega) (by omega) (by omega) (by omega) (EndTimeOfDate t).std hfix hnear
    (by rw [he]; simp)
  obtain ⟨ha, _, _⟩ := Near_abs t.std hfix hnear
  obtain ⟨n0, n1⟩ := hnear
  obtain ⟨o0, o1⟩ := fixedOffset_range t.std.Location hfix
  obtain ⟨r0, r1⟩ := abs_range t.std
  simp only [internalToAbsolute] at ha
  refine ⟨⟨a1, a2, a3, a5, a6, a7⟩, ⟨b1, b2, b3, b5, b6, b7⟩, ?_, ?_⟩
  · simp only [Time.Sub, hs, he]
    rw [Sub_whole_seconds _ _ _ _ (by omega) (by omega)
      (by simp only [absoluteToInternal]; omega)
      (by simp only [absoluteToInternal]; omega)
      (by simp only [absoluteToInternal]; omega)
      (by simp only [absoluteToInternal]; omega)]
    congr 1
    omega
  · simp only [Time.Unix, time.Time.Unix, hs, he]
    rw [unixSec_whole _ _ (by simp only [absoluteToInternal]; omega)
        (by simp only [absoluteToInternal]; omega),
      unixSec_whole _ _ (by simp only [absoluteToInternal]; omega)
        (by simp only [absoluteToInternal]; omega)]
    omega

/-- C17, witness: 2024-01-15 12:30:45.5 in the zone UTC+8. -/
theorem day_bounds_witness :
    (StartTimeOfDate ⟨⟨500000000, 63840889845, some (Location.fixed "Local" 28800)⟩⟩).std.Clock
        = (0, 0, 0) ∧
    (EndTimeOfDate ⟨⟨500000000, 63840889845, some (Location.fixed "Local" 28800)⟩⟩).std.Clock
        = (23, 59, 59) ∧
    (EndTimeOfDate ⟨⟨500000000, 63840889845, some (Location.fixed "Local" 28800)⟩⟩).Sub
        (StartTimeOfDate ⟨⟨500000000, 63840889845, some (Location.fixed "Local" 28800)⟩⟩)
        = 86399 * Second :=
  ⟨(day_bounds ⟨⟨500000000, 63840889845, some (Location.fixed "Local" 28800)⟩⟩
      (by decide) (by decide)).1.2.2.2.2.1,
    (day_bounds ⟨⟨500000000, 63840889845, some (Location.fixed "Local" 28800)⟩⟩
      (by decide) (by decide)).2.1.2.2.2.2.1,
    (day_bounds ⟨⟨500000000, 63840889845, some (Location.fixed "Local" 28800)⟩⟩
      (by decide) (by decide)).2.2.1⟩

end localTime

/-! ## Claim C16: week boundaries -/

namespace localTime
open time

/-- Readings of the instant without nanoseconds at a clock reading of the day
with number `dn` in a location. -/
theorem day_instant_fields (dn h mi s : Int) (loc : Location) (hh0 : 0 ≤ h) (hh : h < 24)
    (hmi0 : 0 ≤ mi) (hmi : mi < 60) (hs0 : 0 ≤ s) (hs : s < 60) (u : time.Time)
    (hfix : loc.Fixed)
    (hb0 : -9223371960000000000
      ≤ dn * 86400 + (h * 3600 + mi * 60 + s) + absoluteToInternal - loc.fixedOffset)
    (hb1 : dn * 86400 + (h * 3600 + mi * 60 + s) + absoluteToInternal - loc.fixedOffset
      ≤ 9223372036000000000)
    (hu : u = ⟨0, dn * 86400 + (h * 3600 + mi * 60 + s) + absoluteToInternal - loc.fixedOffset,
        if loc = Location.utcLoc then none else some loc⟩) :
    u.abs / 86400 = dn ∧ u.Weekday = (dn + 1) % 7 ∧ u.Clock = (h, mi, s) ∧
    u.Nanosecond = 0 ∧ u.Location = loc ∧
    u.Unix = dn * 86400 + (h * 3600 + mi * 60 + s) + absoluteToInternal + internalToUnix
      - loc.fixedOffset := by
  obtain ⟨f1, f2, f3, f4, f5⟩ := mk0_fields (dn * 86400 + (h * 3600 + mi * 60 + s)
    + absoluteToInternal - loc.fixedOffset) loc hfix hb0 hb1
  rw [← hu] at f1 f2 f3 f4 f5
  have habs : u.abs = dn * 86400 + (h * 3600 + mi * 60 + s) := by
    rw [f5]
    simp only [absoluteToInternal, internalToAbsolute]
    omega
  obtain ⟨c1, c2⟩ := absClock_day dn h mi s hh0 hh hmi0 hmi hs0 hs
  refine ⟨by rw [habs]; exact c2, ?_, ?_, f3, f4, ?_⟩
  · simp only [time.Time.Weekday, habs]
    exact absWeekday_eq dn _ (by omega) (by omega)
  · simp only [time.Time.Clock, habs, c1]
  · simp only [time.Time.Unix]
    rw [unixSec_eq _ (by rw [f2]; omega) (by rw [f2]; omega), f2]
    omega

/-- The day of the week of `t` from its day number. -/
theorem Weekday_eq (t : time.Time) : t.Weekday = (t.abs / 86400 + 1) % 7 := by
  have e2 := absWeekday_eq (t.abs / 86400) (t.abs % 86400) (by omega) (by omega)
  have e3 : t.abs / 86400 * 86400 + t.abs % 86400 = t.abs := by omega
  rw [e3] at e2
  exact e2

/-- The instants `StartTimeOfWeek` and `EndTimeOfWeek` build. -/
theorem StartEndOfWeek_eq (t : Time) (hfix : t.std.Location.Fixed) (hnear : t.std.Near) :
    StartTimeOfWeek t =
      ⟨⟨0, (t.std.abs / 86400 - (t.std.Weekday + 6) % 7) * 86400 + (23 * 3600 + 59 * 60 + 59)
          + absoluteToInternal - t.std.Location.fixedOffset,
        if t.std.Location = Location.utcLoc then none else some t.std.Location⟩⟩ ∧
    EndTimeOfWeek t =
      ⟨⟨0, (t.std.abs / 86400 + (7 - t.std.Weekday) % 7) * 86400 + (0 * 3600 + 0 * 60 + 0)
          + absoluteToInternal - t.std.Location.fixedOffset,
        if t.std.Location = Location.utcLoc then none else some t.std.Location⟩⟩ := by
  have hwd := Weekday_eq t.std
  have hw0 : 0 ≤ t.std.Weekday := by omega
  have hw6 : t.std.Weekday ≤ 6 := by omega
  constructor
  · have h := (Date_day_AddDate t.std 23 59 59
      (if 1 - t.std.Weekday > 0 then -6 else 1 - t.std.Weekday)
      (by omega) (by omega) (by omega) (by omega) (by omega) (by omega) hfix hnear
      (by split <;> omega) (by split <;> omega)).2
    have ho : (if 1 - t.std.Weekday > 0 then -6 else 1 - t.std.Weekday)
        = - ((t.std.Weekday + 6) % 7) := by
      split <;> omega
    have hS : StartTimeOfWeek t = ⟨(Date t.std.Year t.std.Month t.std.Day 23 59 59 0
        t.std.Location).AddDate 0 0 (if 1 - t.std.Weekday > 0 then -6 else 1 - t.std.Weekday)⟩ :=
      rfl
    rw [hS, h, ho]
    have hk : t.std.abs / 86400 + -((t.std.Weekday + 6) % 7)
        = t.std.abs / 86400 - (t.std.Weekday + 6) % 7 := by omega
    rw [hk]
  · have h := (Date_day_AddDate t.std 0 0 0
      (if 7 - t.std.Weekday = 7 then 0 else 7 - t.std.Weekday)
      (by omega) (by omega) (by omega) (by omega) (by omega) (by omega) hfix hnear
      (by split <;> omega) (by split <;> omega)).2
    have ho : (if 7 - t.std.Weekday = 7 then 0 else 7 - t.std.Weekday)
        = (7 - t.std.Weekday) % 7 := by
      split <;> omega
    have hE : EndTimeOfWeek t = ⟨(Date t.std.Year t.std.Month t.std.Day 0 0 0 0
        t.std.Location).AddDate 0 0 (if 7 - t.std.Weekday = 7 then 0 else 7 - t.std.Weekday)⟩ :=
      rfl
    rw [hE, h, ho]

/-- C16, counterexample: (1) in the zone America/Sao_Paulo daylight saving
time began at midnight of Sunday 2017-10-15, so that day has no 00:00:00.  For
`t` = Wednesday 2017-10-11 12:00:00 there, `EndTimeOfWeek t` is Saturday
2017-10-14 23:00:00, neither a Sunday nor at 00:00:00, and it lies 428401
seconds after `StartTimeOfWeek t`, not 432001.  (2) For
`t = Unix(9223371974719179007, 0)` in UTC, where the seconds count of package
`time` reaches the end of the `int64` range,
`EndTimeOfWeek(t).Sub(StartTimeOfWeek(t))` is the smallest `Duration`. -/
theorem week_bounds_counterexample :
    ((Unix SaoPaulo 1507734000 0).std.Date = (2017, 10, 11) ∧
      (Unix SaoPaulo 1507734000 0).std.Clock = (12, 0, 0) ∧
      (Unix SaoPaulo 1507734000 0).std.Weekday = 3 ∧
      (EndTimeOfWeek (Unix SaoPaulo 1507734000 0)).std.Date = (2017, 10, 14) ∧
      (EndTimeOfWeek (Unix SaoPaulo 1507734000 0)).std.Clock = (23, 0, 0) ∧
      (EndTimeOfWeek (Unix SaoPaulo 1507734000 0)).std.Weekday = 6 ∧
      (StartTimeOfWeek (Unix SaoPaulo 1507734000 0)).std.Date = (2017, 10, 9) ∧
      (StartTimeOfWeek (Unix SaoPaulo 1507734000 0)).std.Clock = (23, 59, 59) ∧
      (EndTimeOfWeek (Unix SaoPaulo 1507734000 0)).Sub
        (StartTimeOfWeek (Unix SaoPaulo 1507734000 0)) = 428401 * Second) ∧
    ((EndTimeOfWeek (Unix Location.utcLoc 9223371974719179007 0)).Sub
        (StartTimeOfWeek (Unix Location.utcLoc 9223371974719179007 0)) = minDuration ∧
      minDuration ≠ (5 * 86400 + 1) * Second) := by
  decide

/-- C16 (amended): for every Time `t` in a location without zone transitions
(UTC or a `time.FixedZone`) and within 2^62 seconds of 0001-01-01 00:00:00 UTC,
with `k = (Weekday + 6) % 7` the number of days since Monday and
`j = (7 - Weekday) % 7` the number of days until Sunday (both between 0 and
6), `StartTimeOfWeek t` is a Monday, `k` days before the day of `t`, at
23:59:59 (it is `EndTimeOfDate t` moved back `k` days), and `EndTimeOfWeek t`
is a Sunday, `j` days after the day of `t`, at 00:00:00 (it is
`StartTimeOfDate t` moved on `j` days), both without nanoseconds and in the
location of `t`; the end is 5 days and 1 second after the start. -/
theorem week_bounds (t : Time) (hfix : t.std.Location.Fixed) (hnear : t.std.Near) :
    (0 ≤ (t.std.Weekday + 6) % 7 ∧ (t.std.Weekday + 6) % 7 ≤ 6 ∧
      0 ≤ (7 - t.std.Weekday) % 7 ∧ (7 - t.std.Weekday) % 7 ≤ 6) ∧
    ((StartTimeOfWeek t).std.Weekday = 1 ∧
      (StartTimeOfWeek t).std.Clock = (23, 59, 59) ∧
      (StartTimeOfWeek t).std.Nanosecond = 0 ∧
      (StartTimeOfWeek t).std.Location = t.std.Location ∧
      (StartTimeOfWeek t).std.abs / 86400 = t.std.abs / 86400 - (t.std.Weekday + 6) % 7 ∧
      (StartTimeOfWeek t).Unix = (EndTimeOfDate t).Unix - (t.std.Weekday + 6) % 7 * 86400) ∧
    ((EndTimeOfWeek t).std.Weekday = 0 ∧
      (EndTimeOfWeek t).std.Clock = (0, 0, 0) ∧
      (EndTimeOfWeek t).std.Nanosecond = 0 ∧
      (EndTimeOfWeek t).std.Location = t.std.Location ∧
      (EndTimeOfWeek t).std.abs / 86400 = t.std.abs / 86400 + (7 - t.std.Weekday) % 7 ∧
      (EndTimeOfWeek t).Unix = (StartTimeOfDate t).Unix + (7 - t.std.Weekday) % 7 * 86400) ∧
    (EndTimeOfWeek t).Sub (StartTimeOfWeek t) = (5 * 86400 + 1) * Second ∧
    (EndTimeOfWeek t).Unix - (StartTimeOfWeek t).Unix = 5 * 86400 + 1 := by
  obtain ⟨hs, he⟩ := StartEndOfWeek_eq t hfix hnear
  obtain ⟨ds, de⟩ := StartEndOfDate_eq t hfix hnear
  have hwd := Weekday_eq t.std
  obtain ⟨ha, _, _⟩ := Near_abs t.std hfix hnear
  obtain ⟨n0, n1⟩ := hnear
  obtain ⟨o0, o1⟩ := fixedOffset_range t.std.Location hfix
  simp only [internalToAbsolute] at ha
  have hS0 : -9223371960000000000 ≤ (t.std.abs / 86400 - (t.std.Weekday + 6) % 7) * 86400
      + (23 * 3600 + 59 * 60 + 59) + absoluteToInternal - t.std.Location.fixedOffset := by
    simp only [absoluteToInternal]; omega
  have hS1 : (t.std.abs / 86400 - (t.std.Weekday + 6) % 7) * 86400
      + (23 * 3600 + 59 * 60 + 59) + absoluteToInternal - t.std.Location.fixedOffset
      ≤ 9223372036000000000 := by
    simp only [absoluteToInternal]; omega
  have hE0 : -9223371960000000000 ≤ (t.std.abs / 86400 + (7 - t.std.Weekday) % 7) * 86400
      + (0 * 3600 + 0 * 60 + 0) + absoluteToInternal - t.std.Location.fixedOffset := by
    simp only [absoluteToInternal]; omega
  have hE1 : (t.std.abs / 86400 + (7 - t.std.Weekday) % 7) * 86400
      + (0 * 3600 + 0 * 60 + 0) + absoluteToInternal - t.std.Location.fixedOffset
      ≤ 9223372036000000000 := by
    simp only [absoluteToInternal]; omega
  have hdiff : ((t.std.abs / 86400 + (7 - t.std.Weekday) % 7) * 86400
      + (0 * 3600 + 0 * 60 + 0) + absoluteToInternal - t.std.Location.fixedOffset)
      - ((t.std.abs / 86400 - (t.std.Weekday + 6) % 7) * 86400
      + (23 * 3600 + 59 * 60 + 59) + absoluteToInternal - t.std.Location.fixedOffset)
      = 5 * 86400 + 1 := by
    omega
  obtain ⟨a1, a2, a3, a4, a5, a6⟩ := day_instant_fields
    (t.std.abs / 86400 - (t.std.Weekday + 6) % 7) 23 59 59 t.std.Location (by omega) (by omega)
    (by omega) (by omega) (by omega) (by omega) (StartTimeOfWeek t).std hfix hS0 hS1
    (by rw [hs])
  obtain ⟨b1, b2, b3, b4, b5, b6⟩ := day_instant_fields
    (t.std.abs / 86400 + (7 - t.std.Weekday) % 7) 0 0 0 t.std.Location (by omega) (by omega)
    (by omega) (by omega) (by omega) (by omega) (EndTimeOfWeek t).std hfix hE0 hE1
    (by rw [he])
  have hue : (EndTimeOfDate t).Unix = t.std.abs / 86400 * 86400 + 86399 + absoluteToInternal
      + internalToUnix - t.std.Location.fixedOffset := by
    simp only [Time.Unix, time.Time.Unix, de]
    rw [unixSec_whole _ _ (by simp only [absoluteToInternal]; omega)
      (by simp only [absoluteToInternal]; omega)]
    omega
  have hus : (StartTimeOfDate t).Unix = t.std.abs / 86400 * 86400 + absoluteToInternal
      + internalToUnix - t.std.Location.fixedOffset := by
    simp only [Time.Unix, time.Time.Unix, ds]
    rw [unixSec_whole _ _ (by simp only [absoluteToInternal]; omega)
      (by simp only [absoluteToInternal]; omega)]
    omega
  have a6' : (StartTimeOfWeek t).Unix = _ := a6
  have b6' : (EndTimeOfWeek t).Unix = _ := b6
  refine ⟨by omega, ⟨?_, a3, a4, a5, a1, ?_⟩, ⟨?_, b3, b4, b5, b1, ?_⟩, ?_, ?_⟩
  · rw [a2]; omega
  · rw [a6', hue]; omega
  · rw [b2]; omega
  · rw [b6', hus]; omega
  · simp only [Time.Sub]
    rw [hs, he]
    simp only
    rw [Sub_whole_seconds _ _ _ _ (by rw [hdiff]; norm_num) (by rw [hdiff]; norm_num)
      (le_trans (by norm_num) hE0) (le_trans hE1 (by norm_num))
      (le_trans (by norm_num) hS0) (le_trans hS1 (by norm_num)), hdiff]
  · rw [a6', b6']; omega

/-- C16, witness: Wednesday 2024-01-17 12:30:45.5 in the zone UTC+8. -/
theorem week_bounds_witness :
    (StartTimeOfWeek ⟨⟨500000000, 63841062645, some (Location.fixed "Local" 28800)⟩⟩).std.Weekday
        = 1 ∧
    (EndTimeOfWeek ⟨⟨500000000, 63841062645, some (Location.fixed "Local" 28800)⟩⟩).std.Weekday
        = 0 ∧
    (EndTimeOfWeek ⟨⟨500000000, 63841062645, some (Location.fixed "Local" 28800)⟩⟩).Sub
        (StartTimeOfWeek ⟨⟨500000000, 63841062645, some (Location.fixed "Local" 28800)⟩⟩)
        = (5 * 86400 + 1) * Second :=
  ⟨(week_bounds ⟨⟨500000000, 63841062645, some (Location.fixed "Local" 28800)⟩⟩
      (by decide) (by decide)).2.1.1,
    (week_bounds ⟨⟨500000000, 63841062645, some (Location.fixed "Local" 28800)⟩⟩
      (by decide) (by decide)).2.2.1.1,
    (week_bounds ⟨⟨500000000, 63841062645, some (Location.fixed "Local" 28800)⟩⟩
      (by decide) (by decide)).2.2.2.1⟩

end localTime

/-! ## Claim C15: compact parsing and the date and time formatters -/

namespace localTime
open time

/-- The date layout prints year, month and day with hyphens. -/
theorem Format_date (t : time.Time) :
    t.Format (time.bytes "2006-01-02") =
      appendInt [] (absDate t.abs true).1 4 ++ [45] ++ appendInt [] (absDate t.abs true).2.1 2
        ++ [45] ++ appendInt [] (absDate t.abs true).2.2.1 2 := by
  have h : t.Format (time.bytes "2006-01-02") =
      appendInt (appendInt (appendInt [] (absDate t.abs true).1 4 ++ [45])
        (absDate t.abs true).2.1 2 ++ [45]) (absDate t.abs true).2.2.1 2 := by
    rfl
  rw [h, appendInt_append _ _ 2, appendInt_append _ (absDate t.abs true).2.1 2]

/-- The clock layout prints hour, minute and second with colons. -/
theorem Format_clock (t : time.Time) :
    t.Format (time.bytes "15:04:05") =
      appendInt [] (absClock t.abs).1 2 ++ [58] ++ appendInt [] (absClock t.abs).2.1 2
        ++ [58] ++ appendInt [] (absClock t.abs).2.2 2 := by
  have h : t.Format (time.bytes "15:04:05") =
      appendInt (appendInt (appendInt [] (absClock t.abs).1 2 ++ [58])
        (absClock t.abs).2.1 2 ++ [58]) (absClock t.abs).2.2 2 := by
    rfl
  rw [h, appendInt_append _ _ 2, appendInt_append _ (absClock t.abs).2.1 2]

/-- What `ParseCompact` accepts: fourteen digits of a valid date and clock
reading, then an optional fractional second; and the instant it returns. -/
theorem ParseCompact_inv (lcl : Location) (s : List Nat)
    (h : (ParseCompact lcl s).2 = none) :
    ∃ (Y M D H Mi S : Nat) (r : List Nat) (ns : Int),
      Y < 10000 ∧ 1 ≤ M ∧ M ≤ 12 ∧ 1 ≤ (D : Int) ∧ (D : Int) ≤ daysIn M Y ∧ H < 24 ∧ Mi < 60 ∧
      S < 60 ∧ 0 ≤ ns ∧ ns < 1000000000 ∧
      s = [48 + Y / 1000, 48 + Y / 100 % 10, 48 + Y / 10 % 10, 48 + Y % 10,
           48 + M / 10, 48 + M % 10, 48 + D / 10, 48 + D % 10, 48 + H / 10, 48 + H % 10,
           48 + Mi / 10, 48 + Mi % 10, 48 + S / 10, 48 + S % 10] ++ r ∧
      (ParseCompact lcl s).1 = ⟨Date Y M D H Mi S ns lcl⟩ := by
  simp only [ParseCompact] at h ⊢
  cases hp : time.ParseInLocation (time.bytes "20060102150405") s lcl with
  | none => simp [hp] at h
  | some t =>
    simp only [hp]
    simp only [ParseInLocation] at hp
    have hlen : (time.bytes "20060102150405").length + 1 = 8 + 7 := rfl
    rw [hlen] at hp
    cases hl : parseLoop (8 + 7) (time.bytes "20060102150405") s {} with
    | none => simp [hl] at hp
    | some f =>
      simp only [hl] at hp
      obtain ⟨Y, M, D, H, Mi, S, r, hY, hM1, hM, hD, hH, hMi, hS, hs, hn0, hn, hf⟩ :=
        parseLoop_compact_inv 8 s f hl
      rw [hf] at hp
      obtain ⟨hD1, hD2, hp'⟩ := parseFinish_compact lcl Y M D H Mi S f.nsec t hM1 hp
      exact ⟨Y, M, D, H, Mi, S, r, f.nsec, hY, hM1, hM, hD1, hD2, hH, hMi, hS, hn0, hn, hs,
        by rw [hp']⟩

/-- C15, counterexample: (1) with `time.Local = time.UTC` the input
`00010101000000` is accepted by `ParseCompact` and parses to the zero Time, for
which `Date()` and `Time()` return the empty string, not `0001-01-01` and
`00:00:00`.  (2) With `time.Local` = Asia/Shanghai the input `19860504023000`
names an hour that was skipped by a zone transition; it is accepted, and
`Time()` of the parsed value is `03:30:00`, not `02:30:00`. -/
theorem ParseCompact_Date_Time_counterexample :
    ((ParseCompact Location.utcLoc (time.bytes "00010101000000")).2 = none ∧
      (ParseCompact Location.utcLoc (time.bytes "00010101000000")).1.Date = [] ∧
      (ParseCompact Location.utcLoc (time.bytes "00010101000000")).1.Time = []) ∧
    ((ParseCompact Shanghai (time.bytes "19860504023000")).2 = none ∧
      (ParseCompact Shanghai (time.bytes "19860504023000")).1.Date = time.bytes "1986-05-04" ∧
      (ParseCompact Shanghai (time.bytes "19860504023000")).1.Time = time.bytes "03:30:00") := by
  decide

/-- C15 (amended): when the local zone has no zone transitions (`time.Local` is
UTC or a `time.FixedZone`), for every string `s` that `ParseCompact` accepts,
`s` has at least fourteen bytes and, unless the parsed value is the zero Time,
`Date()` of the parsed value is bytes 0-3, a hyphen, bytes 4-5, a hyphen and
bytes 6-7 of `s`, and `Time()` is bytes 8-9, a colon, bytes 10-11, a colon and
bytes 12-13 of `s`.  The parsed value is the zero Time only when `time.Local`
is UTC and `s` starts with `00010101000000`; then both return the empty
string. -/
theorem ParseCompact_Date_Time (lcl : Location) (s : List Nat) (hfix : lcl.Fixed)
    (h : (ParseCompact lcl s).2 = none) :
    14 ≤ s.length ∧
    (ParseCompact lcl s).1.Date =
      (if (ParseCompact lcl s).1 = ⟨time.Time.zero⟩ then []
       else s.take 4 ++ [45] ++ (s.drop 4).take 2 ++ [45] ++ (s.drop 6).take 2) ∧
    (ParseCompact lcl s).1.Time =
      (if (ParseCompact lcl s).1 = ⟨time.Time.zero⟩ then []
       else (s.drop 8).take 2 ++ [58] ++ (s.drop 10).take 2 ++ [58] ++ (s.drop 12).take 2) ∧
    ((ParseCompact lcl s).1 = ⟨time.Time.zero⟩ →
      lcl = Location.utcLoc ∧ s.take 14 = time.bytes "00010101000000") := by
  obtain ⟨h1, h2, h3⟩ := ParseCompact_Format lcl s hfix h
  obtain ⟨Y, M, D, H, Mi, S, r, ns, hY, hM1, hM, hD1, hD2, hH, hMi, hS, hn0, hn, hs, hp⟩ :=
    ParseCompact_inv lcl s h
  have b1 : (1 : Int) ≤ M := by omega
  have b2 : (M : Int) ≤ 12 := by omega
  have hD100 := day_lt_100 M Y D b1 b2 hD2
  obtain ⟨g1, g2, g3, g4⟩ := Date_absDate lcl Y M D H Mi S ns b1 b2 hD1 hD2 (by omega)
    (by omega) (by omega) (by omega) (by omega) (by omega) hn0 hn hfix (by omega) (by omega)
  have hdate : (ParseCompact lcl s).1.std.Format (time.bytes "2006-01-02") =
      s.take 4 ++ [45] ++ (s.drop 4).take 2 ++ [45] ++ (s.drop 6).take 2 := by
    rw [hp, Format_date, g1, g2, g3, appendInt_four Y hY, appendInt_two M (by omega),
      appendInt_two D hD100, hs]
    rfl
  have hclock : (ParseCompact lcl s).1.std.Format (time.bytes "15:04:05") =
      (s.drop 8).take 2 ++ [58] ++ (s.drop 10).take 2 ++ [58] ++ (s.drop 12).take 2 := by
    rw [hp, Format_clock, g4]
    simp only
    rw [appendInt_two H (by omega), appendInt_two Mi (by omega), appendInt_two S (by omega), hs]
    rfl
  refine ⟨h2, ?_, ?_, ?_⟩
  · by_cases hz : (ParseCompact lcl s).1.reflectIsZero = true
    · have ht := (reflectIsZero_iff _).1 hz
      rw [if_pos ht]
      simp only [Time.Date, hz, ↓reduceIte]
    · have hz0 : (ParseCompact lcl s).1.reflectIsZero = false := by simpa using hz
      have hne : ¬ ((ParseCompact lcl s).1 = ⟨time.Time.zero⟩) :=
        fun hh => hz ((reflectIsZero_iff _).2 hh)
      simp only [Time.Date, hz0, Bool.false_eq_true, ↓reduceIte, hne, Time.Format]
      exact hdate
  · by_cases hz : (ParseCompact lcl s).1.reflectIsZero = true
    · have ht := (reflectIsZero_iff _).1 hz
      rw [if_pos ht]
      simp only [Time.Time, hz, ↓reduceIte]
    · have hz0 : (ParseCompact lcl s).1.reflectIsZero = false := by simpa using hz
      have hne : ¬ ((ParseCompact lcl s).1 = ⟨time.Time.zero⟩) :=
        fun hh => hz ((reflectIsZero_iff _).2 hh)
      simp only [Time.Time, hz0, Bool.false_eq_true, ↓reduceIte, hne, Time.Format]
      exact hclock
  · intro hz
    refine ⟨h3 hz, ?_⟩
    rw [← h1, hz]
    rfl

/-- C15, witness: `20240115123045` in the local zone UTC+8 gives the date
`2024-01-15` and the time `12:30:45`. -/
theorem ParseCompact_Date_Time_witness :
    (ParseCompact (Location.fixed "Local" 28800) (time.bytes "20240115123045")).2 = none ∧
    (ParseCompact (Location.fixed "Local" 28800) (time.bytes "20240115123045")).1.Date
      = time.bytes "2024-01-15" ∧
    (ParseCompact (Location.fixed "Local" 28800) (time.bytes "20240115123045")).1.Time
      = time.bytes "12:30:45" :=
  ⟨by decide, by
    rw [(ParseCompact_Date_Time (Location.fixed "Local" 28800) (time.bytes "20240115123045")
      (by decide) (by decide)).2.1]
    decide, by
    rw [(ParseCompact_Date_Time (Location.fixed "Local" 28800) (time.bytes "20240115123045")
      (by decide) (by decide)).2.2.1]
    decide⟩

end localTime

/-! ## Digits and the millisecond layouts -/

namespace localTime
open time

/-- The digit loop writes decimal digits only. -/
theorem revDigits_mem (f u c : Nat) (h : c ∈ revDigits f u) : 48 ≤ c ∧ c ≤ 57 := by
  induction f generalizing u with
  | zero => simp [revDigits] at h
  | succ f ih =>
    by_cases hu : u < 10
    · rw [revDigits_lt10 f u hu] at h
      simp only [List.mem_singleton] at h
      omega
    · rw [revDigits_ge10 f u (by omega)] at h
      simp only [List.mem_cons] at h
      rcases h with h | h
      · omega
      · exact ih _ h

/-- The bytes written by `appendInt`: a minus sign or decimal digits. -/
theorem appendInt_mem (x : Int) (w c : Nat) (h : c ∈ appendInt [] x w) :
    (c = 45 ∧ x < 0) ∨ (48 ≤ c ∧ c ≤ 57) := by
  simp only [appendInt] at h
  by_cases hx : x < 0
  · simp only [hx, ↓reduceIte, List.nil_append, List.mem_append, List.mem_singleton,
      List.mem_replicate, List.mem_reverse] at h
    rcases h with (h | h) | h
    · exact Or.inl ⟨h, hx⟩
    · exact Or.inr (by omega)
    · exact Or.inr (revDigits_mem _ _ _ h)
  · simp only [hx, ↓reduceIte, List.nil_append, List.mem_append,
      List.mem_replicate, List.mem_reverse] at h
    rcases h with h | h
    · exact Or.inr (by omega)
    · exact Or.inr (revDigits_mem _ _ _ h)

/-- At least `width` bytes are written by `appendInt`. -/
theorem appendInt_length (x : Int) (w : Nat) : w ≤ (appendInt [] x w).length := by
  simp only [appendInt]
  split <;> simp <;> omega

/-- Removing the first occurrence of a byte that the first part does not
contain. -/
theorem Replace_append (a b : List Nat) (c : Nat) (h : c ∉ a) :
    strings.Replace (a ++ c :: b) c = a ++ b := by
  induction a with
  | nil => simp [strings.Replace]
  | cons x a ih =>
    simp only [List.mem_cons, not_or] at h
    have hx : ¬ (x = c) := fun e => h.1 e.symm
    have e : strings.Replace (x :: (a ++ c :: b)) c = x :: strings.Replace (a ++ c :: b) c := by
      simp only [strings.Replace, hx, ↓reduceIte]
    rw [List.cons_append, e, ih h.2, List.cons_append]

/-- The compact layout with milliseconds: the compact text, a period and the
first three of the nine digits of the nanosecond. -/
theorem Format_compact_ms (t : time.Time) :
    t.Format (time.bytes "20060102150405.000") =
      t.Format (time.bytes "20060102150405") ++ [46] ++ (appendInt [] t.nsec 9).take 3 := by
  have h : t.Format (time.bytes "20060102150405.000") =
      ((t.Format (time.bytes "20060102150405") ++ []) ++ [46])
        ++ (appendInt [] t.nsec 9).take 3 := by
    rfl
  rw [h, List.append_nil]

/-- The clock layout with milliseconds. -/
theorem Format_clock_ms (t : time.Time) :
    t.Format (time.bytes "15:04:05.000") =
      t.Format (time.bytes "15:04:05") ++ [46] ++ (appendInt [] t.nsec 9).take 3 := by
  have h : t.Format (time.bytes "15:04:05.000") =
      ((t.Format (time.bytes "15:04:05") ++ []) ++ [46])
        ++ (appendInt [] t.nsec 9).take 3 := by
    rfl
  rw [h, List.append_nil]

/-- The low digits of zero are zeros. -/
theorem lowDigits_zero (w : Nat) : lowDigits w 0 = List.replicate w 48 := by
  induction w with
  | zero => rfl
  | succ w ih => simp [lowDigits, ih, List.replicate]

/-- The digit loop followed by the zero padding gives the `w` low digits. -/
theorem revDigits_pad (w f n : Nat) (hw : 1 ≤ w) (hf : w ≤ f) (hn : n < 10 ^ w) :
    revDigits f n ++ List.replicate (w - (revDigits f n).length) 48 = lowDigits w n := by
  induction w generalizing f n with
  | zero => omega
  | succ w ih =>
    obtain ⟨f, rfl⟩ : ∃ g, f = g + 1 := ⟨f - 1, by omega⟩
    by_cases h10 : n < 10
    · rw [revDigits_lt10 f n h10]
      have e1 : n % 10 = n := by omega
      have e2 : n / 10 = 0 := by omega
      simp [lowDigits, e1, e2, lowDigits_zero]
    · rw [revDigits_ge10 f n (by omega)]
      have hw1 : 1 ≤ w := by
        rcases Nat.eq_zero_or_pos w with h | h
        · subst h
          simp at hn
          omega
        · exact h
      have hn' : n / 10 < 10 ^ w := by
        rw [pow_succ] at hn
        omega
      have := ih f (n / 10) hw1 (by omega) hn'
      simp only [lowDigits, List.length_cons, List.cons_append, Nat.add_sub_add_right]
      rw [this]

/-- Nine-digit fields: the nanosecond. -/
theorem appendInt_nine (n : Nat) (h : n < 1000000000) :
    appendInt [] (n : Int) 9 = (lowDigits 9 n).reverse := by
  have hneg : ¬ ((n : Int) < 0) := by omega
  simp only [appendInt, hneg, ↓reduceIte, Int.natAbs_ofNat, List.nil_append]
  rw [← revDigits_pad 9 20 n (by omega) (by omega) (by omega)]
  simp

/-- The first three of the nine digits of a nanosecond are the digits of the
millisecond. -/
theorem take3_nano (n : Nat) (h : n < 1000000000) :
    (appendInt [] (n : Int) 9).take 3 =
      [48 + n / 1000000 / 100, 48 + n / 1000000 / 10 % 10, 48 + n / 1000000 % 10] := by
  rw [appendInt_nine n h]
  simp only [lowDigits, List.reverse_cons, List.reverse_nil, List.nil_append, List.cons_append,
    List.take_succ_cons, List.take_zero]
  have e1 : n / 10 / 10 / 10 / 10 / 10 / 10 / 10 / 10 % 10 = n / 1000000 / 100 := by omega
  have e2 : n / 10 / 10 / 10 / 10 / 10 / 10 / 10 % 10 = n / 1000000 / 10 % 10 := by omega
  have e3 : n / 10 / 10 / 10 / 10 / 10 / 10 % 10 = n / 1000000 % 10 := by omega
  rw [e1, e2, e3]

/-- The clock layout writes eight bytes. -/
theorem Format_clock_length (t : time.Time) :
    (t.Format (time.bytes "15:04:05")).length = 8 := by
  obtain ⟨c1, c2, c3, c4, c5, c6, _⟩ := absClock_spec t.abs
  rw [Format_clock]
  obtain ⟨H, hH⟩ := Int.eq_ofNat_of_zero_le c1
  obtain ⟨Mi, hMi⟩ := Int.eq_ofNat_of_zero_le c3
  obtain ⟨S, hS⟩ := Int.eq_ofNat_of_zero_le c5
  rw [hH, hMi, hS, appendInt_two H (by omega), appendInt_two Mi (by omega),
    appendInt_two S (by omega)]
  rfl

/-- The compact layout writes digits, after a minus sign for a negative year,
and fourteen digits for a year from 0 to 9999. -/
theorem Format_compact_bytes (t : time.Time) :
    (∀ c ∈ t.Format (time.bytes "20060102150405"), c = 45 ∨ (48 ≤ c ∧ c ≤ 57)) ∧
    (0 ≤ t.Year → t.Year ≤ 9999 →
      (t.Format (time.bytes "20060102150405")).length = 14 ∧
      ∀ c ∈ t.Format (time.bytes "20060102150405"), 48 ≤ c ∧ c ≤ 57) := by
  obtain ⟨m1, m2, d1, d2, hdiv, h6⟩ := absDate_spec t.abs
  obtain ⟨c1, c2, c3, c4, c5, c6, _⟩ := absClock_spec t.abs
  have hmem : ∀ c ∈ t.Format (time.bytes "20060102150405"), c = 45 ∨ (48 ≤ c ∧ c ≤ 57) := by
    intro c hc
    rw [Format_compact] at hc
    simp only [List.mem_append] at hc
    rcases hc with ((((hc | hc) | hc) | hc) | hc) | hc <;>
      rcases appendInt_mem _ _ _ hc with h | h
    all_goals first | exact Or.inl h.1 | exact Or.inr h
  refine ⟨hmem, ?_⟩
  intro hy0 hy
  have hY : t.Year = (absDate t.abs true).1 := h6
  rw [hY] at hy0 hy
  have hlen := monthLen_pos (isLeap (absDate t.abs true).1) (absDate t.abs true).2.1 m1 m2
  rw [← daysIn_eq] at hlen
  obtain ⟨Y, hYn⟩ := Int.eq_ofNat_of_zero_le hy0
  obtain ⟨M, hMn⟩ := Int.eq_ofNat_of_zero_le (by omega : 0 ≤ (absDate t.abs true).2.1)
  obtain ⟨D, hDn⟩ := Int.eq_ofNat_of_zero_le (by omega : 0 ≤ (absDate t.abs true).2.2.1)
  obtain ⟨H, hH⟩ := Int.eq_ofNat_of_zero_le c1
  obtain ⟨Mi, hMi⟩ := Int.eq_ofNat_of_zero_le c3
  obtain ⟨S, hS⟩ := Int.eq_ofNat_of_zero_le c5
  have hclock : absClock t.abs = ((H : Int), (Mi : Int), (S : Int)) := by
    rw [← hH, ← hMi, ← hS]
  have hfmt := Format_compact_digits t Y M D H Mi S (by omega) (by omega) (by omega) (by omega)
    (by omega) (by omega) hYn hMn hDn hclock
  rw [hfmt]
  refine ⟨rfl, ?_⟩
  intro c hc
  simp only [List.mem_cons, List.mem_singleton, List.not_mem_nil, or_false] at hc
  omega

end localTime

/-! ## Claim C18: the compact text with milliseconds -/

namespace localTime
open time

/-- C18, counterexample: the first instant of year 10000 (UTC) has the
eighteen-digit text `100000101000000000`, and the first instant of year -1 has
the text `-00010101000000000`, which starts with a minus sign. -/
theorem CompactMillisecond_counterexample :
    (Unix Location.utcLoc 253402300800 0).CompactMillisecond
      = time.bytes "100000101000000000" ∧
    (Unix Location.utcLoc 253402300800 0).CompactMillisecond.length = 18 ∧
    (Unix Location.utcLoc (-62198755200) 0).CompactMillisecond
      = time.bytes "-00010101000000000" := by
  decide

/-- C18 (amended): for every non-zero `t`, `CompactMillisecond()` is
`Compact()` followed by the last three of the twelve characters of
`TimeMillisecond()`, which are digits (the digits of the millisecond
`nsec / 10^6`), and it contains no period; when the year of `t` is within
0..9999 it is a run of exactly 17 digits. -/
theorem CompactMillisecond_spec (t : Time) (hz : t ≠ ⟨time.Time.zero⟩) :
    t.CompactMillisecond = t.Compact ++ t.TimeMillisecond.drop 9 ∧
    t.TimeMillisecond.length = 12 ∧
    (∀ c ∈ t.TimeMillisecond.drop 9, 48 ≤ c ∧ c ≤ 57) ∧
    (t.std.Valid → t.TimeMillisecond.drop 9 =
      [48 + t.std.nsec.toNat / 1000000 / 100, 48 + t.std.nsec.toNat / 1000000 / 10 % 10,
        48 + t.std.nsec.toNat / 1000000 % 10]) ∧
    46 ∉ t.CompactMillisecond ∧
    (0 ≤ t.std.Year → t.std.Year ≤ 9999 →
      t.CompactMillisecond.length = 17 ∧ ∀ c ∈ t.CompactMillisecond, 48 ≤ c ∧ c ≤ 57) := by
  have hz0 : t.reflectIsZero = false := by
    cases h : t.reflectIsZero
    · rfl
    · exact absurd ((reflectIsZero_iff t).1 h) hz
  have hns : 0 ≤ t.std.nsec := by
    unfold time.Time.nsec
    exact Int.ofNat_nonneg _
  have hlen9 := appendInt_length t.std.nsec 9
  have hlen3 : ((appendInt [] t.std.nsec 9).take 3).length = 3 := by
    rw [List.length_take]
    omega
  have hdig3 : ∀ c ∈ (appendInt [] t.std.nsec 9).take 3, 48 ≤ c ∧ c ≤ 57 := by
    intro c hc
    rcases appendInt_mem _ _ _ (List.mem_of_mem_take hc) with h | h
    · omega
    · exact h
  obtain ⟨hb1, hb2⟩ := Format_compact_bytes t.std
  have hno : (46 : Nat) ∉ t.std.Format (time.bytes "20060102150405") := by
    intro h
    rcases hb1 46 h with h | h <;> omega
  have hC : t.Compact = t.std.Format (time.bytes "20060102150405") := by
    simp only [Time.Compact, hz0, Bool.false_eq_true, ↓reduceIte, Time.Format]
  have hT : t.TimeMillisecond = t.std.Format (time.bytes "15:04:05") ++ [46]
      ++ (appendInt [] t.std.nsec 9).take 3 := by
    simp only [Time.TimeMillisecond, hz0, Bool.false_eq_true, ↓reduceIte, Time.Format]
    exact Format_clock_ms t.std
  have hCM : t.CompactMillisecond = t.std.Format (time.bytes "20060102150405")
      ++ (appendInt [] t.std.nsec 9).take 3 := by
    simp only [Time.CompactMillisecond, hz0, Bool.false_eq_true, ↓reduceIte, Time.Format]
    rw [Format_compact_ms, List.append_assoc, List.singleton_append]
    exact Replace_append _ _ 46 hno
  have hcl := Format_clock_length t.std
  have hdrop : t.TimeMillisecond.drop 9 = (appendInt [] t.std.nsec 9).take 3 := by
    rw [hT]
    have h9 : (t.std.Format (time.bytes "15:04:05") ++ [46]).length = 9 := by
      rw [List.length_append, hcl]
      rfl
    rw [← h9, List.drop_left]
  refine ⟨?_, ?_, ?_, ?_, ?_, ?_⟩
  · rw [hCM, hC, hdrop]
  · rw [hT]
    simp only [List.length_append, hcl, hlen3, List.length_singleton]
  · rw [hdrop]
    exact hdig3
  · intro hv
    rw [hdrop]
    obtain ⟨n, hn⟩ := Int.eq_ofNat_of_zero_le hns
    have hv' : t.std.nsec < 1000000000 := hv
    rw [hn] at hv' ⊢
    rw [take3_nano n (by omega)]
    simp
  · rw [hCM]
    intro h
    rcases List.mem_append.1 h with h | h
    · exact hno h
    · have := hdig3 46 h
      omega
  · intro hy0 hy
    obtain ⟨h14, hd14⟩ := hb2 hy0 hy
    rw [hCM]
    refine ⟨by rw [List.length_append, h14, hlen3], ?_⟩
    intro c hc
    rcases List.mem_append.1 hc with h | h
    · exact hd14 c h
    · exact hdig3 c h

/-- C18, witness: 2024-01-15 20:30:45.123456789 in the zone UTC+8 gives
`20240115203045123`, which is `Compact()` followed by `123`. -/
theorem CompactMillisecond_spec_witness :
    (⟨⟨123456789, 63840918645, some (Location.fixed "Local" 28800)⟩⟩ : Time).CompactMillisecond
      = time.bytes "20240115203045123" ∧
    (⟨⟨123456789, 63840918645, some (Location.fixed "Local" 28800)⟩⟩ : Time).CompactMillisecond
      = (⟨⟨123456789, 63840918645, some (Location.fixed "Local" 28800)⟩⟩ : Time).Compact
        ++ (⟨⟨123456789, 63840918645, some (Location.fixed "Local" 28800)⟩⟩ :
          Time).TimeMillisecond.drop 9 :=
  ⟨by decide,
   (CompactMillisecond_spec ⟨⟨123456789, 63840918645, some (Location.fixed "Local" 28800)⟩⟩
     (by decide)).1⟩

end localTime

/-! ## ISO weeks -/

namespace localTime
open time

/-- The pair `ISOWeek` returns, from the day number of the Thursday of the
week of `t`. -/
theorem ISOWeek_eq (t : time.Time) :
    t.ISOWeek =
      ((absDateYear (t.abs / 86400 + (3 - (t.Weekday + 6) % 7))).1 + absoluteZeroYear,
        (absDateYear (t.abs / 86400 + (3 - (t.Weekday + 6) % 7))).2 / 7 + 1) := by
  have hwd := Weekday_eq t
  have hd : (if 4 - absWeekday t.abs = 4 then -3 else 4 - absWeekday t.abs)
      = 3 - (t.Weekday + 6) % 7 := by
    have : absWeekday t.abs = t.Weekday := rfl
    rw [this]
    split <;> omega
  have hdiv : (t.abs + (3 - (t.Weekday + 6) % 7) * 86400) / 86400
      = t.abs / 86400 + (3 - (t.Weekday + 6) % 7) := by
    omega
  simp only [time.Time.ISOWeek, hd, absDate, secondsPerDay, hdiv]
  rfl

/-- A year has 365 or 366 days. -/
theorem daysInYear_cases (y : Int) : daysInYear y = 365 ∨ daysInYear y = 366 := by
  unfold daysInYear
  split
  · exact Or.inr rfl
  · exact Or.inl rfl

/-- The year of a day at most three days away from a day of year `y`: the
same year, or the year before from the first three days, or the year after
from the last three days. -/
theorem absDateYear_near (y k d : Int) (hk0 : 0 ≤ k) (hk : k < daysInYear y)
    (hd0 : -3 ≤ d) (hd : d ≤ 3) :
    ((absDateYear (daysSinceEpochZ y + k + d)).1 + absoluteZeroYear = y ∧ 0 ≤ k + d ∧
      (absDateYear (daysSinceEpochZ y + k + d)).2 = k + d) ∨
    ((absDateYear (daysSinceEpochZ y + k + d)).1 + absoluteZeroYear = y - 1 ∧ k + d < 0 ∧
      (absDateYear (daysSinceEpochZ y + k + d)).2 = daysInYear (y - 1) + (k + d)) ∨
    ((absDateYear (daysSinceEpochZ y + k + d)).1 + absoluteZeroYear = y + 1 ∧
      daysInYear y ≤ k + d ∧
      (absDateYear (daysSinceEpochZ y + k + d)).2 = k + d - daysInYear y) := by
  have hL := daysInYear_cases y
  have hL1 := daysInYear_cases (y - 1)
  have hL2 := daysInYear_cases (y + 1)
  by_cases h1 : k + d < 0
  · right; left
    have hs := daysSinceEpochZ_succ (y - 1)
    rw [sub_add_cancel] at hs
    have e : daysSinceEpochZ y + k + d = daysSinceEpochZ (y - 1) + (daysInYear (y - 1) + (k + d)) := by
      omega
    rw [e, absDateYear_of (y - 1) _ (by omega) (by omega)]
    exact ⟨by simp, h1, rfl⟩
  · by_cases h2 : daysInYear y ≤ k + d
    · right; right
      have hs := daysSinceEpochZ_succ y
      have e : daysSinceEpochZ y + k + d = daysSinceEpochZ (y + 1) + (k + d - daysInYear y) := by
        omega
      rw [e, absDateYear_of (y + 1) _ (by omega) (by omega)]
      exact ⟨by simp, h2, rfl⟩
    · left
      have e : daysSinceEpochZ y + k + d = daysSinceEpochZ y + (k + d) := by omega
      rw [e, absDateYear_of y _ (by omega) (by omega)]
      exact ⟨by simp, by omega, rfl⟩

/-- A day among the first three of a year is in January; a day among the last
three is in December, on the 29th or later. -/
theorem yearDayOf_ends (leap : Bool) (m day : Int) (hm1 : 1 ≤ m) (hm : m ≤ 12)
    (hd1 : 1 ≤ day) (hd : day ≤ monthLen leap m) :
    (yearDayOf leap m day ≤ 2 → m = 1 ∧ day ≤ 3) ∧
    ((if leap then 366 else 365) - 3 ≤ yearDayOf leap m day → m = 12 ∧ 29 ≤ day) := by
  obtain ⟨v0, v1, v2, v3, v4, v5, v6, v7, v8, v9, v10, v11, v12⟩ := daysBefore_vals
  have hm' : m = 1 ∨ m = 2 ∨ m = 3 ∨ m = 4 ∨ m = 5 ∨ m = 6 ∨ m = 7 ∨ m = 8 ∨ m = 9 ∨ m = 10 ∨
    m = 11 ∨ m = 12 := by omega
  rcases hm' with rfl | rfl | rfl | rfl | rfl | rfl | rfl | rfl | rfl | rfl | rfl | rfl <;>
    cases leap <;>
    simp [yearDayOf, monthLen, v0, v1, v2, v3, v4, v5, v6, v7, v8, v9, v10, v11, v12] at hd ⊢ <;>
    omega

/-- The ISO week-year and week number of `t`: the week number is within 1..53;
the week-year is the calendar year, or the year before for a day among the
first three of January, or the year after for a day among the last three of
December. -/
theorem ISOWeek_range (t : time.Time) :
    1 ≤ t.ISOWeek.2 ∧ t.ISOWeek.2 ≤ 53 ∧
    (t.ISOWeek.1 = t.Year ∨
      (t.ISOWeek.1 = t.Year - 1 ∧ t.Month = 1 ∧ t.Day ≤ 3 ∧ 52 ≤ t.ISOWeek.2) ∨
      (t.ISOWeek.1 = t.Year + 1 ∧ t.Month = 12 ∧ 29 ≤ t.Day ∧ t.ISOWeek.2 = 1)) := by
  have hwd := Weekday_eq t
  rw [ISOWeek_eq t]
  simp only
  have hδ0 : -3 ≤ 3 - (t.Weekday + 6) % 7 := by omega
  have hδ1 : 3 - (t.Weekday + 6) % 7 ≤ 3 := by omega
  generalize 3 - (t.Weekday + 6) % 7 = δ at *
  obtain ⟨s1, s2, s3⟩ := absDateYear_spec (t.abs / 86400)
  have hY : t.Year = (absDateYear (t.abs / 86400)).1 + absoluteZeroYear := by
    simp only [time.Time.Year, time.Time.date, absDate, secondsPerDay]
    rfl
  have hMD : (t.Month, t.Day) = absDateMonth (isLeap t.Year) (absDateYear (t.abs / 86400)).2 := by
    simp only [time.Time.Month, time.Time.Day, time.Time.date, absDate, secondsPerDay, hY]
    rfl
  rw [← hY] at s1 s3
  generalize (absDateYear (t.abs / 86400)).2 = k at *
  have hL := daysInYear_cases t.Year
  have hL1 := daysInYear_cases (t.Year - 1)
  have hms := absDateMonth_spec (isLeap t.Year) k s2 (by
    unfold daysInYear at s3
    exact s3)
  rw [← hMD] at hms
  simp only at hms
  obtain ⟨q1, q2, q3, q4, q5⟩ := hms
  obtain ⟨e1, e2⟩ := yearDayOf_ends (isLeap t.Year) t.Month t.Day q1 q2 q3 q4
  rw [q5] at e1 e2
  have hLeq : (if isLeap t.Year = true then (366 : Int) else 365) = daysInYear t.Year := by
    unfold daysInYear
    rfl
  rw [hLeq] at e2
  have hnear := absDateYear_near t.Year k δ s2 s3 hδ0 hδ1
  rw [s1] at hnear
  generalize t.abs / 86400 = dn at *
  rcases hnear with ⟨n1, n2, n3⟩ | ⟨n1, n2, n3⟩ | ⟨n1, n2, n3⟩
  · rw [n1, n3]
    exact ⟨by omega, by omega, Or.inl rfl⟩
  · rw [n1, n3]
    have := e1 (by omega)
    exact ⟨by omega, by omega, Or.inr (Or.inl ⟨rfl, this.1, this.2, by omega⟩)⟩
  · rw [n1, n3]
    have := e2 (by omega)
    exact ⟨by omega, by omega, Or.inr (Or.inr ⟨rfl, this.1, this.2, by omega⟩)⟩

/-- The verb `%d`: the decimal text of `strconv.Itoa`. -/
theorem fmtInteger_zero_width (v : Int) : fmt.fmtInteger v 0 = strconv.Itoa v := by
  simp [fmt.fmtInteger, strconv.Itoa]

/-- The verb `%02d` on a number below 100: two digits. -/
theorem fmtInteger_two (n : Nat) (h : n < 100) :
    fmt.fmtInteger (n : Int) 2 = [48 + n / 10, 48 + n % 10] := by
  rw [← appendInt_two n h]
  have hneg : ¬ ((n : Int) < 0) := by omega
  simp [fmt.fmtInteger, appendInt, hneg]

/-- The bytes of `strconv.Itoa`: a minus sign or decimal digits. -/
theorem Itoa_mem (v : Int) (c : Nat) (h : c ∈ strconv.Itoa v) :
    c = 45 ∨ (48 ≤ c ∧ c ≤ 57) := by
  simp only [strconv.Itoa] at h
  split at h
  · simp only [List.mem_cons, List.mem_reverse] at h
    rcases h with h | h
    · exact Or.inl h
    · exact Or.inr (revDigits_mem _ _ _ h)
  · simp only [List.mem_reverse] at h
    exact Or.inr (revDigits_mem _ _ _ h)

end localTime

/-! ## Claim C14: the ISO week text -/

namespace localTime
open time

/-- C14, counterexample: for 2024-01-15 12:30:45 UTC `Week()` returns
`2024-03`, without the letter W, not `2024-W03`. -/
theorem Week_counterexample :
    (⟨⟨0, 63840918645, none⟩⟩ : Time).Week = time.bytes "2024-03" ∧
    (⟨⟨0, 63840918645, none⟩⟩ : Time).Week ≠ time.bytes "2024-W03" := by
  decide

/-- C14 (amended): for every non-zero `t`, `Week()` is the ISO week-year in
decimal (`strconv.Itoa`, not padded), a hyphen, and the ISO week number, which
is within 1..53, as two digits; the text contains no letter W.  The week-year
is the calendar year of `t`, or the year before for a day among the first
three of January, or the year after for a day among the last three of
December. -/
theorem Week_spec (t : Time) (hz : t ≠ ⟨time.Time.zero⟩) :
    (1 ≤ t.std.ISOWeek.2 ∧ t.std.ISOWeek.2 ≤ 53) ∧
    t.Week = strconv.Itoa t.std.ISOWeek.1 ++ [45]
      ++ [48 + t.std.ISOWeek.2.toNat / 10, 48 + t.std.ISOWeek.2.toNat % 10] ∧
    87 ∉ t.Week ∧
    (t.std.ISOWeek.1 = t.std.Year ∨
      (t.std.ISOWeek.1 = t.std.Year - 1 ∧ t.std.Month = 1 ∧ t.std.Day ≤ 3 ∧
        52 ≤ t.std.ISOWeek.2) ∨
      (t.std.ISOWeek.1 = t.std.Year + 1 ∧ t.std.Month = 12 ∧ 29 ≤ t.std.Day ∧
        t.std.ISOWeek.2 = 1)) := by
  have hz0 : t.reflectIsZero = false := by
    cases h : t.reflectIsZero
    · rfl
    · exact absurd ((reflectIsZero_iff t).1 h) hz
  obtain ⟨w1, w2, hy⟩ := ISOWeek_range t.std
  have hW : t.Week = strconv.Itoa t.std.ISOWeek.1 ++ [45]
      ++ [48 + t.std.ISOWeek.2.toNat / 10, 48 + t.std.ISOWeek.2.toNat % 10] := by
    simp only [Time.Week, hz0, Bool.false_eq_true, ↓reduceIte, fmtInteger_zero_width]
    have hn : t.std.ISOWeek.2 = ((t.std.ISOWeek.2.toNat : Nat) : Int) := by omega
    rw [hn, fmtInteger_two _ (by omega)]
    simp only [Int.toNat_ofNat]
    rfl
  refine ⟨⟨w1, w2⟩, hW, ?_, hy⟩
  rw [hW]
  intro h
  simp only [List.mem_append, List.mem_cons, List.mem_singleton, List.not_mem_nil, or_false] at h
  rcases h with (h | h) | h
  · rcases Itoa_mem _ _ h with h | h <;> omega
  · omega
  · omega

/-- C14, witness: 2024-12-30 08:00:00 UTC, a Monday, belongs to week 1 of the
week-year 2025: `Week()` returns `2025-01`. -/
theorem Week_spec_witness :
    (⟨⟨0, 63871142400, none⟩⟩ : Time).Week = time.bytes "2025-01" ∧
    (⟨⟨0, 63871142400, none⟩⟩ : Time).std.Year = 2024 ∧
    87 ∉ (⟨⟨0, 63871142400, none⟩⟩ : Time).Week :=
  ⟨by decide, by decide, (Week_spec ⟨⟨0, 63871142400, none⟩⟩ (by decide)).2.2.1⟩

end localTime

/-! ## Claim C19: the zero sentinel -/

namespace localTime
open time

/-- The default layout prints at least six separators. -/
theorem Format_Layout_ne_nil (t : time.Time) :
    t.Format (time.bytes "2006-01-02 15:04:05") ≠ [] := by
  rw [Format_Layout]
  simp

/-- C19: `IsZero` is structural: it holds exactly when the three fields
`wall`, `ext` and `loc` of the wrapped value are zero (nil), that is for the
zero value only, which reads 0001-01-01 00:00:00 UTC.  The converse fails:
whatever the local zone, `Unix(-62135596800, 0)` is `Equal` to the zero value
but carries a location, so `IsZero` is false, `String()` is not empty,
`MarshalJSON` is not `""` and `Value()` is not nil. -/
theorem IsZero_structural (lcl : Location) (t : Time) :
    (t.IsZero = true ↔ (t.std.wall = 0 ∧ t.std.ext = 0 ∧ t.std.loc = none)) ∧
    (t.IsZero = true ↔ t = ⟨time.Time.zero⟩) ∧
    ((⟨time.Time.zero⟩ : Time).std.Date = (1, 1, 1) ∧
      (⟨time.Time.zero⟩ : Time).std.Clock = (0, 0, 0) ∧
      (⟨time.Time.zero⟩ : Time).std.Nanosecond = 0 ∧
      (⟨time.Time.zero⟩ : Time).std.Location = Location.utcLoc) ∧
    ((Unix lcl (-62135596800) 0).Equal ⟨time.Time.zero⟩ = true ∧
      (Unix lcl (-62135596800) 0).std.loc = some lcl ∧
      (Unix lcl (-62135596800) 0).IsZero = false ∧
      (Unix lcl (-62135596800) 0).String ≠ [] ∧
      (Unix lcl (-62135596800) 0).MarshalJSON.1 ≠ time.bytes "\"\"" ∧
      (Unix lcl (-62135596800) 0).Value.1 ≠ DriverValue.nil) := by
  have hstruct : t.IsZero = true ↔ (t.std.wall = 0 ∧ t.std.ext = 0 ∧ t.std.loc = none) := by
    simp only [Time.IsZero, Time.reflectIsZero, Bool.and_eq_true, decide_eq_true_eq,
      Option.isNone_iff_eq_none, and_assoc]
  have hu : Unix lcl (-62135596800) 0 = ⟨⟨0, 0, some lcl⟩⟩ := by
    have hw : wrapInt64 0 = 0 := by decide
    simp [Unix, time.Unix, unixTime, unixToInternal, hw]
  have hnz : (⟨⟨0, 0, some lcl⟩⟩ : Time).reflectIsZero = false := by
    simp [Time.reflectIsZero]
  refine ⟨hstruct, reflectIsZero_iff t, ⟨by decide, by decide, by decide, by decide⟩, ?_⟩
  rw [hu]
  have heq : (⟨⟨0, 0, some lcl⟩⟩ : Time).Equal ⟨time.Time.zero⟩ = true := by
    simp [Time.Equal, time.Time.Equal, time.Time.hasMono, time.Time.sec, time.Time.nsec,
      time.Time.zero]
  refine ⟨heq, rfl, hnz, ?_, ?_, ?_⟩
  · simp only [Time.String, hnz, Bool.false_eq_true, ↓reduceIte, Time.Format, Layout_eq]
    exact Format_Layout_ne_nil _
  · rw [MarshalJSON_nonzero _ hnz]
    intro h
    have hl := Format_quoted_length (⟨0, 0, some lcl⟩ : time.Time)
    simp only [] at h
    rw [h] at hl
    revert hl
    decide
  · simp [Time.Value, hnz]

end localTime

/-! ## Claim C20: `UnixMillisecond` -/

namespace localTime
open time

/-- C20: when the nanosecond count `N = Unix()*10^9 + nsec` of `t` fits in a
signed 64-bit integer, `UnixNano()` is `N` and `UnixMillisecond()` is
`UnixNano()` divided by 10^6 with truncation towards zero; at or after the
epoch that is `Unix()*1000` plus the millisecond field (and the floor of
`N / 10^6`); before the epoch it is the floor when `N` is a whole number of
milliseconds and one more than the floor otherwise. -/
theorem UnixMillisecond_spec (t : Time)
    (h0 : -9223372036854775808 ≤ t.std.Unix * 1000000000 + t.std.nsec)
    (h1 : t.std.Unix * 1000000000 + t.std.nsec < 9223372036854775808) :
    t.UnixNano = t.Unix * 1000000000 + t.std.nsec ∧
    t.UnixMillisecond = t.UnixNano.tdiv 1000000 ∧
    (0 ≤ t.UnixNano →
      t.UnixMillisecond = t.Unix * 1000 + t.std.nsec / 1000000 ∧
      t.UnixMillisecond = t.UnixNano / 1000000) ∧
    (t.UnixNano < 0 → t.UnixNano % 1000000 ≠ 0 →
      t.UnixMillisecond = t.UnixNano / 1000000 + 1) ∧
    (t.UnixNano < 0 → t.UnixNano % 1000000 = 0 →
      t.UnixMillisecond = t.UnixNano / 1000000) := by
  have hn : t.UnixNano = t.Unix * 1000000000 + t.std.nsec := by
    simp only [Time.UnixNano, time.Time.UnixNano, Time.Unix]
    exact wrapInt64_of_fits _ h0 h1
  have hm : t.UnixMillisecond = t.UnixNano.tdiv 1000000 := rfl
  have hns : 0 ≤ t.std.nsec := by
    unfold time.Time.nsec
    exact Int.ofNat_nonneg _
  refine ⟨hn, hm, ?_, ?_, ?_⟩
  · intro hpos
    rw [hm, Int.tdiv_eq_ediv hpos (by norm_num)]
    refine ⟨?_, rfl⟩
    rw [hn]
    omega
  · intro hneg hfrac
    rw [hm]
    have key : t.UnixNano.tdiv 1000000 = -((-t.UnixNano) / 1000000) := by
      have := Int.neg_tdiv (-t.UnixNano) 1000000
      rw [neg_neg] at this
      rw [this, Int.tdiv_eq_ediv (by omega) (by norm_num)]
    rw [key]
    omega
  · intro hneg hfrac
    rw [hm]
    have key : t.UnixNano.tdiv 1000000 = -((-t.UnixNano) / 1000000) := by
      have := Int.neg_tdiv (-t.UnixNano) 1000000
      rw [neg_neg] at this
      rw [this, Int.tdiv_eq_ediv (by omega) (by norm_num)]
    rw [key]
    omega

/-- C20, witness: one nanosecond before the epoch (`Unix(-1, 999999999)`,
`UnixNano() = -1`) gives `UnixMillisecond() = 0`, one more than the floor
`-1`; 1.5 ms after the epoch gives 1. -/
theorem UnixMillisecond_spec_witness :
    (Unix Location.utcLoc (-1) 999999999).UnixNano = -1 ∧
    (Unix Location.utcLoc (-1) 999999999).UnixMillisecond = 0 ∧
    (Unix Location.utcLoc (-1) 999999999).UnixMillisecond =
      (Unix Location.utcLoc (-1) 999999999).UnixNano / 1000000 + 1 ∧
    (Unix Location.utcLoc 0 1500000).UnixMillisecond = 1 :=
  ⟨by decide, by decide,
   (UnixMillisecond_spec (Unix Location.utcLoc (-1) 999999999) (by decide) (by decide)).2.2.2.1
     (by decide) (by decide),
   by
    rw [((UnixMillisecond_spec (Unix Location.utcLoc 0 1500000) (by decide) (by decide)).2.2.1
      (by decide)).1]
    decide⟩

end localTime
